import Mathlib

/-!
Verification development for the tenpy model-building subsystem
(`tenpy/models/model.py`).

The Python source is shallowly embedded: pure bookkeeping (term accumulation,
category dictionaries, coupling enumeration loops) becomes explicit state
passing over Lean structures, operator algebra becomes matrices over a star
field, fallible code returns a `TermState × Option String` pair (the state
after the call together with the raised error, mirroring Python's in-place
mutation plus exception) or `Except String`.

External collaborators of the analyzed code (the lattice geometry engine,
the local-site operator algebra, and the term-collection classes from
`tenpy.networks.terms`) are not part of the analyzed source; they are
modelled from the specification (spec sections 3, 4.1, 4.3 and 6) and each
such definition carries a doc comment starting with `Modelled from the spec`.
-/

open Matrix

namespace Tenpy

/-- Operator names, as used by the local-site collaborator. -/
abbrev OpName := String

/-- A lattice index `(x_0, ..., x_{dim-1}, ...)` used for strength-array lookup. -/
abbrev Idx := List ℕ

/-- Square matrix on one physical site (local dimension `d`). -/
abbrev PMat (d : ℕ) (R : Type) := Matrix (Fin d) (Fin d) R

/-- Two-site bond array with legs `(p0, p1) x (p0*, p1*)`. -/
abbrev BMat (d : ℕ) (R : Type) := Matrix (Fin d × Fin d) (Fin d × Fin d) R

/-- Decidable equality of fallible results (componentwise). -/
instance {ε α : Type} [DecidableEq ε] [DecidableEq α] : DecidableEq (Except ε α) :=
  fun a b =>
  match a, b with
  | .error e, .error f =>
    match decEq e f with
    | isTrue h => isTrue (by rw [h])
    | isFalse h => isFalse (fun hc => h (Except.error.inj hc))
  | .ok x, .ok y =>
    match decEq x y with
    | isTrue h => isTrue (by rw [h])
    | isFalse h => isFalse (fun hc => h (Except.ok.inj hc))
  | .error _, .ok _ => isFalse (fun hc => Except.noConfusion hc)
  | .ok _, .error _ => isFalse (fun hc => Except.noConfusion hc)

/-- Kronecker product `npc.outer` of two single-site operators into a bond array. -/
def kron {d : ℕ} {R : Type} [Mul R] (A B : PMat d R) : BMat d R :=
  Matrix.kroneckerMap (· * ·) A B

/-- `tenpy.tools.misc.add_with_None_0`: addition where `none` represents zero. -/
def addWithNone0 {A : Type} [Add A] : Option A → Option A → Option A
  | none, b => b
  | some a, none => some a
  | some a, some b => some (a + b)

/-- Modelled from the spec (section 6, Hilbert-space/operator collaborator):
a local site provides an operator-name validity check, the Jordan-Wigner
requirement test, Hermitian-conjugate names, composition of two operator
names into one (`multiply_op_names` for folding a string into the operator
left of it), and the actual operator matrices on the local Hilbert space. -/
structure ModelSite (R : Type) (d : ℕ) where
  validOp : OpName → Bool
  needsJW : OpName → Bool
  hcName : OpName → OpName
  mult2 : OpName → OpName → OpName
  mat : OpName → PMat d R

/-- A strength field: the (possibly spatially varying) prefactor array of an
`add_*` call.  `dom` is the finite index set of the raw array (used by the
`np.any(strength != 0)` tests of the source), `f` the tiled array lookup
(`tenpy.tools.misc.to_array` tiling is absorbed into the function). -/
structure SField (R : Type) where
  dom : List Idx
  f : Idx → R

/-- `np.any(strength != 0.)` on the raw strength array. -/
def SField.anyNonzero {R : Type} [Zero R] [DecidableEq R] (s : SField R) : Bool :=
  s.dom.any (fun i => decide (s.f i ≠ 0))

/-- `strength /= 2` applied to the whole field. -/
def SField.half {R : Type} [Div R] [OfNat R 2] (s : SField R) : SField R :=
  ⟨s.dom, fun i => s.f i / 2⟩

/-- `np.conj(strength)` applied to the whole field. -/
def SField.conj {R : Type} [Star R] (s : SField R) : SField R :=
  ⟨s.dom, fun i => star (s.f i)⟩

/-- Modelled from the spec (section 6, lattice collaborator): site count,
unit cell, MPS-index/lattice-index maps, boundary flag, and the
boundary-condition-aware enumeration of coupling site tuples.
`possibleCouplings u1 u2 dx` returns `zip(mps_i, mps_j, lat_indices)`,
`mpsLatIdxFixU u` returns `zip(*mps_lat_idx_fix_u(u))`, `uOf i` is
`lat.order[i, -1]`, `siteOf i` is `mps_sites()[i]`, and `lat2mpsIdx`
maps a lattice index (or an already-converted plain integer, which the
source may feed back in) to an MPS index. -/
structure ModelLat (R : Type) (d : ℕ) where
  Nsites : ℕ
  dim : ℕ
  numU : ℕ
  unitCell : ℕ → ModelSite R d
  siteOf : ℕ → ModelSite R d
  uOf : ℕ → ℕ
  bcFinite : Bool
  mpsLatIdxFixU : ℕ → List (ℕ × Idx)
  possibleCouplings : ℕ → ℕ → List ℤ → List (ℕ × ℕ × Idx)
  possibleMultiCouplings : List (OpName × List ℤ × ℕ) → List (List ℕ × Idx)
  lat2mpsIdx : Idx ⊕ ℕ → ℕ

/-- A stored two-site coupling term `(strength, i, j, op_i, op_j, op_string)`. -/
structure Cpl (R : Type) where
  strength : R
  i : ℕ
  j : ℕ
  opI : OpName
  opJ : OpName
  opString : OpName
deriving DecidableEq

/-- A stored multi-site coupling term `(strength, ijkl, ops_ijkl, op_string)`. -/
structure MCpl (R : Type) where
  strength : R
  ijkl : List ℕ
  ops : List OpName
  opString : List OpName
deriving DecidableEq

/-- A stored onsite term `(strength, i, op)`. -/
abbrev OTerm (R : Type) := R × ℕ × OpName

/-- A coupling-term collection value of `coupling_terms[category]`: either a
two-site `CouplingTerms` or an upgraded `MultiCouplingTerms`. -/
inductive CTcoll (R : Type) where
  | two : List (Cpl R) → CTcoll R
  | multi : List (MCpl R) → CTcoll R
deriving DecidableEq

/-- View a two-site term inside a `MultiCouplingTerms` collection. -/
def cplToM {R : Type} (t : Cpl R) : MCpl R :=
  ⟨t.strength, [t.i, t.j], [t.opI, t.opJ], [t.opString]⟩

/-- Is this collection a `MultiCouplingTerms`? -/
def CTcoll.isMulti {R : Type} : CTcoll R → Bool
  | .two _ => false
  | .multi _ => true

/-- The terms of a collection, all viewed as multi-site terms. -/
def CTcoll.flat {R : Type} : CTcoll R → List (MCpl R)
  | .two ts => ts.map cplToM
  | .multi ts => ts

/-- The mutable state of a `CouplingModel`: the `onsite_terms` and
`coupling_terms` dictionaries, keyed by category in insertion order. -/
structure TermState (R : Type) where
  onsite : List (String × List (OTerm R))
  coupling : List (String × CTcoll R)
deriving DecidableEq

/-- The empty term state of a freshly constructed `CouplingModel`. -/
def TermState.empty {R : Type} : TermState R := ⟨[], []⟩

/-- Association-list lookup (Python `dict.get`). -/
def alookup {α : Type} (l : List (String × α)) (k : String) : Option α :=
  (l.find? (fun p => p.1 = k)).map (·.2)

/-- Association-list write (Python `dict.__setitem__`, keeping insertion
order: an existing key is updated in place, a new key is appended). -/
def aset {α : Type} (l : List (String × α)) (k : String) (v : α) : List (String × α) :=
  match l with
  | [] => [(k, v)]
  | p :: rest => if p.1 = k then (k, v) :: rest else p :: aset rest k v

/-- Modelled from the spec (section 4.1): `OnsiteTerms.add_onsite_term`
appends a term after validating the site index (`0 <= i < L`); a malformed
term raises a validation failure before any mutation. -/
def onsiteTermsAdd {R : Type} (N : ℕ) (ts : List (OTerm R)) (s : R) (i : ℕ) (op : OpName) :
    List (OTerm R) × Option String :=
  if i < N then (ts ++ [(s, i, op)], none)
  else (ts, some "IndexError: onsite term outside the chain")

/-- Modelled from the spec (sections 3 and 4.1): `CouplingTerms.add_coupling_term`
appends a term after validating the canonical ordering `0 <= i < j`
(the spec's CouplingTerm invariant); a malformed term raises before any
mutation. -/
def couplingTermsAdd {R : Type} (N : ℕ) (ts : List (Cpl R)) (t : Cpl R) :
    List (Cpl R) × Option String :=
  if t.i < t.j ∧ t.i < N then (ts ++ [t], none)
  else (ts, some "ValueError: need 0 <= i < j for a coupling term")

/-- Are the entries of the list strictly increasing? -/
def strictAscending : List ℕ → Bool
  | a :: b :: rest => decide (a < b) && strictAscending (b :: rest)
  | _ => true

/-- Modelled from the spec (sections 3 and 4.1):
`MultiCouplingTerms.add_multi_coupling_term` appends a term after validating
strictly increasing indices starting inside the first unit cell and matching
operator/string list lengths; a malformed term raises before any mutation. -/
def multiTermsAdd {R : Type} (N : ℕ) (ts : List (MCpl R)) (s : R) (ijkl : List ℕ)
    (ops : List OpName) (opString : List OpName) : List (MCpl R) × Option String :=
  if ijkl.headD N < N ∧
      strictAscending ijkl ∧ 2 ≤ ijkl.length ∧
      ops.length = ijkl.length ∧ opString.length + 1 = ijkl.length then
    (ts ++ [⟨s, ijkl, ops, opString⟩], none)
  else (ts, some "ValueError: malformed multi coupling term")

/-- Add a two-site term into a collection of either kind
(`MultiCouplingTerms` also accepts `add_coupling_term`). -/
def ctcollAddCoupling {R : Type} (N : ℕ) (c : CTcoll R) (t : Cpl R) :
    CTcoll R × Option String :=
  match c with
  | .two ts =>
    let (ts1, err) := couplingTermsAdd N ts t
    (.two ts1, err)
  | .multi ts =>
    let (ts1, err) := multiTermsAdd N ts t.strength [t.i, t.j] [t.opI, t.opJ] [t.opString]
    (.multi ts1, err)

section SourceFunctions

variable {R : Type} [Field R] [StarRing R] [DecidableEq R] {d : ℕ}

/-- The `explicit_plus_hc` bookkeeping shared by all `add_*` methods
(e.g. source lines 752-756, 966-970): under the ambient flag, an explicit
`plus_hc` request is suppressed (the conjugate is reconstructed at compile
time), and otherwise the strength is halved before storage. -/
def plusHcMunge (flag : Bool) (strength : SField R) (plusHc : Bool) : SField R × Bool :=
  if flag then
    (if plusHc then (strength, false) else (strength.half, plusHc))
  else (strength, plusHc)

/-- Scalar-strength version of `plusHcMunge`. -/
def plusHcMungeS (flag : Bool) (strength : R) (plusHc : Bool) : R × Bool :=
  if flag then
    (if plusHc then (strength, false) else (strength / 2, plusHc))
  else (strength, plusHc)

/-- The `for i, i_lat in zip(*self.lat.mps_lat_idx_fix_u(u))` loop of
`add_onsite` (source lines 765-766): sequential in-place adds; a raised
error aborts the loop, keeping the adds already performed. -/
def onsiteLoop (N : ℕ) (strength : SField R) (opname : OpName) (pairs : List (ℕ × Idx))
    (ts : List (OTerm R)) : List (OTerm R) × Option String :=
  match pairs with
  | [] => (ts, none)
  | q :: rest =>
    match onsiteTermsAdd N ts (strength.f q.2) q.1 opname with
    | (ts1, some e) => (ts1, some e)
    | (ts1, none) => onsiteLoop N strength opname rest ts1

/-- `CouplingModel.add_onsite` (source lines 749-769), except for the final
Hermitian-conjugate re-invocation, which is returned as a continuation
(the conjugated strength, conjugate operator name, and resolved category). -/
def add_onsite_main (lat : ModelLat R d) (explicitPlusHc : Bool) (st : TermState R)
    (strength : SField R) (u : ℕ) (opname : OpName) (category : Option String)
    (plusHc : Bool) :
    (TermState R × Option String) × Option (SField R × OpName × String) :=
  if ¬ strength.anyNonzero then ((st, none), none)
  else
    let sp := plusHcMunge explicitPlusHc strength plusHc
    let strength := sp.1
    let p := sp.2
    if ¬ (lat.unitCell u).validOp opname then
      ((st, some "ValueError: unknown onsite operator"), none)
    else if (lat.unitCell u).needsJW opname then
      ((st, some "ValueError: cannot add onsite operator which needs a Jordan-Wigner string!"),
        none)
    else
      let cat := category.getD opname
      let ts0 := (alookup st.onsite cat).getD []
      let res := onsiteLoop lat.Nsites strength opname (lat.mpsLatIdxFixU u) ts0
      let st1 : TermState R := { st with onsite := aset st.onsite cat res.1 }
      match res.2 with
      | some e => ((st1, some e), none)
      | none =>
        if p then ((st1, none), some (strength.conj, (lat.unitCell u).hcName opname, cat))
        else ((st1, none), none)

/-- `CouplingModel.add_onsite` including the `plus_hc` re-invocation
(source lines 767-769: `self.add_onsite(np.conj(strength), u, hc_op,
category, plus_hc=False)`). -/
def add_onsite (lat : ModelLat R d) (explicitPlusHc : Bool) (st : TermState R)
    (strength : SField R) (u : ℕ) (opname : OpName) (category : Option String)
    (plusHc : Bool) : TermState R × Option String :=
  match add_onsite_main lat explicitPlusHc st strength u opname category plusHc with
  | (res, none) => res
  | ((st1, _), some (s2, op2, cat)) =>
      (add_onsite_main lat explicitPlusHc st1 s2 u op2 (some cat) false).1

/-- `CouplingModel.add_onsite_term` (source lines 790-802). -/
def add_onsite_term (lat : ModelLat R d) (explicitPlusHc : Bool) (st : TermState R)
    (strength : R) (i : ℕ) (op : OpName) (category : Option String) (plusHc : Bool) :
    TermState R × Option String :=
  let sp := plusHcMungeS explicitPlusHc strength plusHc
  let cat := category.getD op
  let ts0 := (alookup st.onsite cat).getD []
  let res := onsiteTermsAdd lat.Nsites ts0 sp.1 i op
  let st1 : TermState R := { st with onsite := aset st.onsite cat res.1 }
  match res.2 with
  | some e => (st1, some e)
  | none =>
    if sp.2 then
      -- Source line 801 reads the name `opname`, which is not defined in
      -- `add_onsite_term` (the parameter is called `op`); reaching this
      -- branch raises a NameError after the first half was already stored.
      (st1, some "NameError: name opname is not defined")
    else (st1, none)

/-- Modelled from the spec (sections 4.1 and 4.2):
`CouplingTerms.coupling_term_handle_JW` brings a two-operator term into
canonical `(strength, i, j, op_i, op_j, op_string)` form: it requires
ascending indices, forces the fermionic-sign string (folded into the left
operator) when both operators need one, rejects a single unpaired fermionic
operator, and otherwise uses the trivial string. -/
def couplingTermHandleJW (sites : ℕ → ModelSite R d) (s : R)
    (t1 t2 : OpName × ℕ) : Except String (Cpl R) :=
  if ¬ t1.2 < t2.2 then .error "ValueError: coupling term with non-ascending sites"
  else
    let n1 := (sites t1.2).needsJW t1.1
    let n2 := (sites t2.2).needsJW t2.1
    if n1 ∧ n2 then .ok ⟨s, t1.2, t2.2, (sites t1.2).mult2 t1.1 "JW", t2.1, "JW"⟩
    else if n1 ∨ n2 then .error "ValueError: unpaired fermionic operator"
    else .ok ⟨s, t1.2, t2.2, t1.1, t2.1, "Id"⟩

/-- Modelled from the spec (section 4.2): `multi_coupling_term_handle_JW`.
Indices must be strictly ascending.  An explicit `op_string` is used on every
segment; with none given, the string on segment `m` is the fermionic-sign
string exactly when the cumulative count of string-requiring operators among
positions `0..m` is odd (cumulative fermionic parity), and an operator at odd
incoming parity absorbs one string factor on its own site. -/
def multiCouplingTermHandleJW (sites : ℕ → ModelSite R d) (s : R)
    (term : List (OpName × ℕ)) (opString : Option OpName) :
    Except String (R × List ℕ × List OpName × List OpName) :=
  let idcs := term.map (·.2)
  if ¬ strictAscending idcs then
    .error "ValueError: multi coupling term with non-ascending sites"
  else
    match opString with
    | some σ => .ok (s, idcs, term.map (·.1), List.replicate (term.length - 1) σ)
    | none =>
      let needs := term.map (fun q => (sites q.2).needsJW q.1)
      let parityBefore := fun (m : ℕ) => (needs.take m).count true % 2 = 1
      let ops2 := term.enum.map (fun q =>
        if parityBefore q.1 then (sites q.2.2).mult2 q.2.1 "JW" else q.2.1)
      let strs := (List.range (term.length - 1)).map (fun m =>
        if parityBefore (m + 1) then "JW" else "Id")
      .ok (s, idcs, ops2, strs)

/-- `CouplingModel.add_local_term` (source lines 680-719), except for the
Hermitian-conjugate re-invocation, returned as a continuation.  Whether the
model is a `MultiCouplingModel` (required for terms with more than two
operators) is the `isMultiModel` parameter.  Note that the source converts
lattice indices to MPS indices (line 686) and then builds the h.c. term from
the already-converted indices (line 718), feeding plain integers back into
`lat2mps_idx`; we mirror this with the sum type `Idx ⊕ ℕ`. -/
def add_local_term_main (lat : ModelLat R d) (explicitPlusHc : Bool) (isMultiModel : Bool)
    (st : TermState R) (strength : R) (term : List (OpName × (Idx ⊕ ℕ)))
    (category : Option String) (plusHc : Bool) :
    (TermState R × Option String) × Option (R × List (OpName × (Idx ⊕ ℕ)) × String) :=
  let sp := plusHcMungeS explicitPlusHc strength plusHc
  let strength := sp.1
  let p := sp.2
  let termM : List (OpName × ℕ) := term.map (fun q => (q.1, lat.lat2mpsIdx q.2))
  let cat := category.getD ("local " ++ String.intercalate " " (termM.map (·.1)))
  let sites := lat.siteOf
  let N := lat.Nsites
  let afterAdd : TermState R × Option String → (TermState R × Option String) ×
      Option (R × List (OpName × (Idx ⊕ ℕ)) × String) := fun res =>
    match res.2 with
    | some e => ((res.1, some e), none)
    | none =>
      if p then
        let hcTerm := (termM.reverse).map
          (fun q => ((sites (q.2 % N)).hcName q.1, (Sum.inr q.2 : Idx ⊕ ℕ)))
        ((res.1, none), some (star strength, hcTerm, cat))
      else ((res.1, none), none)
  match termM with
  | [] => ((st, some "ValueError: empty term!"), none)
  | [q] =>
    let ts0 := (alookup st.onsite cat).getD []
    -- `setdefault` creates the category entry before the validation below
    let stC : TermState R := { st with onsite := aset st.onsite cat ts0 }
    if (sites q.2).needsJW q.1 then
      ((stC, some "ValueError: cannot add onsite operator which needs a Jordan-Wigner string!"),
        none)
    else
      let res := onsiteTermsAdd N ts0 strength q.2 q.1
      afterAdd ({ st with onsite := aset st.onsite cat res.1 }, res.2)
  | [q1, q2] =>
    let ct0 := (alookup st.coupling cat).getD (.two [])
    let stC : TermState R := { st with coupling := aset st.coupling cat ct0 }
    match couplingTermHandleJW sites strength q1 q2 with
    | .error e => ((stC, some e), none)
    | .ok t =>
      let res := ctcollAddCoupling N ct0 t
      afterAdd ({ st with coupling := aset st.coupling cat res.1 }, res.2)
  | _ =>
    if ¬ isMultiModel then
      ((st, some "ValueError: term has too many operators for CouplingModel"), none)
    else
      let ts0 : List (MCpl R) := match (alookup st.coupling cat).getD (.multi []) with
        | .two ts => ts.map cplToM
        | .multi ts => ts
      let stC : TermState R := { st with coupling := aset st.coupling cat (.multi ts0) }
      match multiCouplingTermHandleJW sites strength termM none with
      | .error e => ((stC, some e), none)
      | .ok a =>
        let res := multiTermsAdd N ts0 a.1 a.2.1 a.2.2.1 a.2.2.2
        afterAdd ({ st with coupling := aset st.coupling cat (.multi res.1) }, res.2)

/-- `CouplingModel.add_local_term` including the `plus_hc` re-invocation
(source lines 717-719). -/
def add_local_term (lat : ModelLat R d) (explicitPlusHc : Bool) (isMultiModel : Bool)
    (st : TermState R) (strength : R) (term : List (OpName × (Idx ⊕ ℕ)))
    (category : Option String) (plusHc : Bool) : TermState R × Option String :=
  match add_local_term_main lat explicitPlusHc isMultiModel st strength term category plusHc with
  | (res, none) => res
  | ((st1, _), some (s2, hcTerm, cat)) =>
      (add_local_term_main lat explicitPlusHc isMultiModel st1 s2 hcTerm (some cat) false).1

/-- The per-pair body of the `add_coupling` sum loop (source lines 975-998):
canonicalize the ordering (swapping operators and negating the strength for a
fermionic-sign string), optionally raise for a left `op2`, and fold the
string operator into the left operator. -/
def addCouplingPairTerm (site1 site2 : ModelSite R d) (op1 op2 opString : OpName)
    (strOnFirst raiseOp2Left : Bool) (i j : ℕ) (s : R) : Except String (Cpl R) :=
  if j < i then
    let s := if opString = "JW" then -s else s
    if raiseOp2Left then .error "ValueError: Op2 is left"
    else
      let o1 := op2
      let o2 := op1
      let o1 := if strOnFirst ∧ opString ≠ "Id" then site2.mult2 o1 opString else o1
      .ok ⟨s, j, i, o1, o2, opString⟩
  else
    let o1 := if strOnFirst ∧ opString ≠ "Id" then site1.mult2 op1 opString else op1
    .ok ⟨s, i, j, o1, op2, opString⟩

/-- The `add_coupling` sum loop over all realized coupling pairs
(source lines 975-998): zero strengths are skipped, each produced term is
added to the category's collection, and the first raised error aborts the
loop, keeping the adds already performed. -/
def addCouplingLoop (N : ℕ) (site1 site2 : ModelSite R d) (op1 op2 opString : OpName)
    (strOnFirst raiseOp2Left : Bool) (strength : SField R)
    (pairs : List (ℕ × ℕ × Idx)) (ct : CTcoll R) : CTcoll R × Option String :=
  match pairs with
  | [] => (ct, none)
  | q :: rest =>
    let s := strength.f q.2.2
    if s = 0 then
      addCouplingLoop N site1 site2 op1 op2 opString strOnFirst raiseOp2Left strength rest ct
    else
      match addCouplingPairTerm site1 site2 op1 op2 opString strOnFirst raiseOp2Left
          q.1 q.2.1 s with
      | .error e => (ct, some e)
      | .ok t =>
        match ctcollAddCoupling N ct t with
        | (ct1, some e) => (ct1, some e)
        | (ct1, none) =>
          addCouplingLoop N site1 site2 op1 op2 opString strOnFirst raiseOp2Left strength
            rest ct1

/-- `CouplingModel.add_coupling` (source lines 937-1007), except for the
Hermitian-conjugate re-invocation, returned as a continuation holding
`(np.conj(strength), u2, hc_op2, u1, hc_op1, -dx, hc_opstr, category)`. -/
def add_coupling_main (lat : ModelLat R d) (explicitPlusHc : Bool) (st : TermState R)
    (strength : SField R) (u1 : ℕ) (op1 : OpName) (u2 : ℕ) (op2 : OpName) (dx : List ℤ)
    (opStringArg : Option OpName) (strOnFirst raiseOp2Left : Bool)
    (category : Option String) (plusHc : Bool) :
    (TermState R × Option String) ×
      Option (SField R × ℕ × OpName × ℕ × OpName × List ℤ × OpName × String) :=
  if dx.length ≠ lat.dim then ((st, some "ValueError: cannot reshape dx"), none)
  else if ¬ strength.anyNonzero then ((st, none), none)
  else if ¬ ((lat.unitCell u1).validOp op1 ∧ (lat.unitCell u2).validOp op2) then
    ((st, some "ValueError: unknown onsite operator"), none)
  else
    let site1 := lat.unitCell u1
    let site2 := lat.unitCell u2
    let resolved : Option (OpName × Bool) :=
      match opStringArg with
      | none =>
        let needJW1 := site1.needsJW op1
        let needJW2 := site2.needsJW op2
        if needJW1 ∧ needJW2 then some ("JW", true)
        else if needJW1 ∨ needJW2 then none
        else some ("Id", strOnFirst)
      | some σ => some (σ, strOnFirst)
    match resolved with
    | none =>
      ((st, some "ValueError: Only one of the operators needs a Jordan-Wigner string?!"), none)
    | some (opString, strOnFirst) =>
      if ¬ (List.range lat.numU).all (fun u => (lat.unitCell u).validOp opString) then
        ((st, some "ValueError: unknown onsite operator for op_string"), none)
      else if opString = "JW" ∧ ¬ strOnFirst then
        ((st, some "ValueError: Jordan Wigner string without str_on_first"), none)
      else if dx.all (· = 0) ∧ u1 = u2 then
        ((st, some "ValueError: Coupling should not be onsite!"), none)
      else
        let pairs := lat.possibleCouplings u1 u2 dx
        let sp := plusHcMunge explicitPlusHc strength plusHc
        let strength := sp.1
        let p := sp.2
        let cat := category.getD (op1 ++ "_i " ++ op2 ++ "_j")
        let ct0 := (alookup st.coupling cat).getD (.two [])
        let res := addCouplingLoop lat.Nsites site1 site2 op1 op2 opString strOnFirst
          raiseOp2Left strength pairs ct0
        let st1 : TermState R := { st with coupling := aset st.coupling cat res.1 }
        match res.2 with
        | some e => ((st1, some e), none)
        | none =>
          if p then
            ((st1, none), some (strength.conj, u2, site2.hcName op2, u1, site1.hcName op1,
              dx.map Neg.neg, site2.hcName opString, cat))
          else ((st1, none), none)

/-- `CouplingModel.add_coupling` including the `plus_hc` re-invocation
(source lines 1000-1006). -/
def add_coupling (lat : ModelLat R d) (explicitPlusHc : Bool) (st : TermState R)
    (strength : SField R) (u1 : ℕ) (op1 : OpName) (u2 : ℕ) (op2 : OpName) (dx : List ℤ)
    (opStringArg : Option OpName) (strOnFirst raiseOp2Left : Bool)
    (category : Option String) (plusHc : Bool) : TermState R × Option String :=
  match add_coupling_main lat explicitPlusHc st strength u1 op1 u2 op2 dx opStringArg
      strOnFirst raiseOp2Left category plusHc with
  | (res, none) => res
  | ((st1, _), some (s2, v2, hc2, v1, hc1, ndx, hcσ, cat)) =>
      (add_coupling_main lat explicitPlusHc st1 s2 v2 hc2 v1 hc1 ndx (some hcσ)
        strOnFirst raiseOp2Left (some cat) false).1

/-- `CouplingModel.add_coupling_term` (source lines 1044-1060). -/
def add_coupling_term (lat : ModelLat R d) (explicitPlusHc : Bool) (st : TermState R)
    (strength : R) (i j : ℕ) (opI opJ : OpName) (opString : OpName)
    (category : Option String) (plusHc : Bool) : TermState R × Option String :=
  let sp := plusHcMungeS explicitPlusHc strength plusHc
  let cat := category.getD (opI ++ "_i " ++ opJ ++ "_j")
  let ct0 := (alookup st.coupling cat).getD (.two [])
  let res := ctcollAddCoupling lat.Nsites ct0 ⟨sp.1, i, j, opI, opJ, opString⟩
  let st1 : TermState R := { st with coupling := aset st.coupling cat res.1 }
  match res.2 with
  | some e => (st1, some e)
  | none =>
    if sp.2 then
      let siteI := lat.unitCell (lat.uOf i)
      let siteJ := lat.unitCell (lat.uOf (j % lat.Nsites))
      let res2 := ctcollAddCoupling lat.Nsites res.1
        ⟨star sp.1, i, j, siteI.hcName opI, siteJ.hcName opJ, siteI.hcName opString⟩
      ({ st with coupling := aset st.coupling cat res2.1 }, res2.2)
    else (st1, none)

/-- Modelled from the spec: `order_combine_term` from `tenpy.networks.terms`
(not under `src/`) sorts the operators of a term by MPS index.  The spec does
not specify the fermionic reordering sign bookkeeping; it is modelled as the
trivial sign `1` (no claim in this development depends on it, and for terms
whose sites are already ascending the sign is trivially `1`). -/
def orderCombineTerm (term : List (OpName × ℕ)) : List (OpName × ℕ) × R :=
  ((term.mergeSort (fun a b => a.2 ≤ b.2)), 1)

/-- The `add_multi_coupling` sum loop over all realized couplings (source
lines 1397-1406): zero strengths are skipped, each term is brought into
canonical order, Jordan-Wigner strings are resolved, and the result is added
to the category's collection; a raised error aborts the loop. -/
def addMultiCouplingLoop (N : ℕ) (sites : ℕ → ModelSite R d) (allOps : List OpName)
    (opString : Option OpName) (strength : SField R)
    (mpsList : List (List ℕ × Idx)) (ts : List (MCpl R)) : List (MCpl R) × Option String :=
  match mpsList with
  | [] => (ts, none)
  | q :: rest =>
    let s := strength.f q.2
    if s = 0 then addMultiCouplingLoop N sites allOps opString strength rest ts
    else
      let tsgn := orderCombineTerm (allOps.zip q.1)
      match multiCouplingTermHandleJW sites (s * tsgn.2) tsgn.1 opString with
      | .error e => (ts, some e)
      | .ok a =>
        match multiTermsAdd N ts a.1 a.2.1 a.2.2.1 a.2.2.2 with
        | (ts1, some e) => (ts1, some e)
        | (ts1, none) => addMultiCouplingLoop N sites allOps opString strength rest ts1

/-- The default category string of `add_multi_coupling`
(`"{op}_{chr(ord('i')+m)}"` joined by spaces, source lines 1386-1388). -/
def defaultMultiCat (ops : List OpName) : String :=
  String.intercalate " "
    (ops.enum.map (fun q => q.2 ++ "_" ++ String.singleton (Char.ofNat (105 + q.1))))

/-- `MultiCouplingModel.add_multi_coupling` (source lines 1353-1413; the
deprecated three-argument form, lines 1336-1352, is not used), except for the
Hermitian-conjugate re-invocation, returned as a continuation. -/
def add_multi_coupling_main (lat : ModelLat R d) (explicitPlusHc : Bool) (st : TermState R)
    (strength : SField R) (ops : List (OpName × List ℤ × ℕ)) (opStringArg : Option OpName)
    (category : Option String) (plusHc : Bool) :
    (TermState R × Option String) ×
      Option (SField R × List (OpName × List ℤ × ℕ) × String) :=
  if ¬ ops.all (fun t => t.2.1.length = lat.dim) then
    ((st, some "ValueError: cannot reshape dx array"), none)
  else if ¬ strength.anyNonzero then ((st, none), none)
  else
    let needJW := ops.map (fun t => (lat.unitCell t.2.2).needsJW t.1)
    if ¬ needJW.count true % 2 = 0 then
      ((st, some "ValueError: Invalid coupling: odd number of operators which need a JW string"),
        none)
    else
      let opString := if opStringArg.isNone ∧ ¬ needJW.any id then some "Id" else opStringArg
      if ¬ ops.all (fun t => (lat.unitCell t.2.2).validOp t.1) then
        ((st, some "ValueError: unknown onsite operator"), none)
      else if opString.any
          (fun σ => ¬ (List.range lat.numU).all (fun u => (lat.unitCell u).validOp σ)) then
        ((st, some "ValueError: unknown onsite operator for op_string"), none)
      else if ops.all (fun t => t.2.1 = (ops.headD ("", [], 0)).2.1) ∧
          ops.all (fun t => t.2.2 = (ops.headD ("", [], 0)).2.2) then
        ((st, some "ValueError: Coupling should not be purely onsite!"), none)
      else
        let mpsList := lat.possibleMultiCouplings ops
        let sp := plusHcMunge explicitPlusHc strength plusHc
        let strength := sp.1
        let p := sp.2
        let cat := category.getD (defaultMultiCat (ops.map (·.1)))
        let ts0 : List (MCpl R) := match (alookup st.coupling cat).getD (.multi []) with
          | .two ts => ts.map cplToM
          | .multi ts => ts
        let res := addMultiCouplingLoop lat.Nsites lat.siteOf (ops.map (·.1)) opString
          strength mpsList ts0
        let st1 : TermState R := { st with coupling := aset st.coupling cat (.multi res.1) }
        match res.2 with
        | some e => ((st1, some e), none)
        | none =>
          if p then
            let hcOps := (ops.reverse).map
              (fun t => ((lat.unitCell t.2.2).hcName t.1, t.2.1, t.2.2))
            ((st1, none), some (strength.conj, hcOps, cat))
          else ((st1, none), none)

/-- `MultiCouplingModel.add_multi_coupling` including the `plus_hc`
re-invocation (source lines 1409-1412). -/
def add_multi_coupling (lat : ModelLat R d) (explicitPlusHc : Bool) (st : TermState R)
    (strength : SField R) (ops : List (OpName × List ℤ × ℕ)) (opStringArg : Option OpName)
    (category : Option String) (plusHc : Bool) : TermState R × Option String :=
  match add_multi_coupling_main lat explicitPlusHc st strength ops opStringArg
      category plusHc with
  | (res, none) => res
  | ((st1, _), some (s2, hcOps, cat)) =>
      (add_multi_coupling_main lat explicitPlusHc st1 s2 hcOps none (some cat) false).1

/-- `MultiCouplingModel.add_multi_coupling_term` (source lines 1450-1473). -/
def add_multi_coupling_term (lat : ModelLat R d) (explicitPlusHc : Bool) (st : TermState R)
    (strength : R) (ijkl : List ℕ) (opsIjkl : List OpName) (opString : List OpName)
    (category : Option String) (plusHc : Bool) : TermState R × Option String :=
  let sp := plusHcMungeS explicitPlusHc strength plusHc
  let cat := category.getD (defaultMultiCat opsIjkl)
  -- `coupling_terms.get(category)`: a missing entry becomes a fresh
  -- MultiCouplingTerms, a two-site collection is upgraded (lines 1458-1464)
  let ts0 : List (MCpl R) := match (alookup st.coupling cat).getD (.multi []) with
    | .two ts => ts.map cplToM
    | .multi ts => ts
  let res := multiTermsAdd lat.Nsites ts0 sp.1 ijkl opsIjkl opString
  let st1 : TermState R := { st with coupling := aset st.coupling cat (.multi res.1) }
  match res.2 with
  | some e => (st1, some e)
  | none =>
    if sp.2 then
      let sitesIjkl := ijkl.map (fun i => lat.unitCell (lat.uOf (i % lat.Nsites)))
      let hcOps := (sitesIjkl.zip opsIjkl).map (fun q => q.1.hcName q.2)
      let hcOpString := (sitesIjkl.zip opString).map (fun q => q.1.hcName q.2)
      -- Source line 1473 passes the original `ops_ijkl` and `op_string` to
      -- `ct.add_multi_coupling_term`; the conjugate names `hc_ops` and
      -- `hc_op_string` computed above are never used.
      let res2 := multiTermsAdd lat.Nsites res.1 (star sp.1) ijkl opsIjkl opString
      let st2 : TermState R := { st with coupling := aset st.coupling cat (.multi res2.1) }
      -- keep the unused conjugate names alive for the record
      let _ := hcOps
      let _ := hcOpString
      (st2, res2.2)
    else (st1, none)

end SourceFunctions

section CompileHbond

variable {R : Type} [Field R] [StarRing R] [DecidableEq R] {d : ℕ}

/-- `CouplingModel.all_onsite_terms` (source lines 804-810): sum of all
categories of `onsite_terms`. -/
def allOnsiteTerms (st : TermState R) : List (OTerm R) :=
  (st.onsite.map Prod.snd).flatten

/-- `CouplingModel.all_coupling_terms` (source lines 1062-1071): sum of all
categories of `coupling_terms`, as a `MultiCouplingTerms` as soon as any
category holds one. -/
def allCouplingTerms (st : TermState R) : CTcoll R :=
  if st.coupling.any (fun p => p.2.isMulti) then
    .multi ((st.coupling.map (fun p => p.2.flat)).flatten)
  else
    .two ((st.coupling.map (fun p => match p.2 with | .two ts => ts | .multi _ => [])).flatten)

/-- Modelled from the spec (section 4.3): `remove_zeros(tol_zero)` drops
onsite entries whose strength is near zero (`norm < tol_zero`); the tolerance
test is abstracted into a predicate `keep` on strengths. -/
def removeZerosO (keep : R → Bool) (ts : List (OTerm R)) : List (OTerm R) :=
  ts.filter (fun t => keep t.1)

/-- Modelled from the spec (section 4.3): `remove_zeros(tol_zero)` on a
coupling-term collection. -/
def removeZerosM (keep : R → Bool) (ts : List (MCpl R)) : List (MCpl R) :=
  ts.filter (fun t => keep t.strength)

/-- Does a stored coupling term act on two adjacent MPS sites `(i, i+1)`? -/
def nnAdjacent (t : MCpl R) : Bool :=
  match t.ijkl with
  | [i, j] => j = i + 1
  | _ => false

/-- The bond index a term on sites `(i, i+1)` is distributed to:
`H_bond[(i+1) % L]` acts on sites `(i, i+1)`. -/
def mTermBond (L : ℕ) (t : MCpl R) : ℕ :=
  match t.ijkl with
  | i :: _ => (i + 1) % L
  | [] => 0

/-- The bond array contributed by one adjacent two-site term. -/
def mTermMat (sites : ℕ → ModelSite R d) (L : ℕ) (t : MCpl R) : BMat d R :=
  match t.ijkl, t.ops with
  | [i, j], [oi, oj] => t.strength • kron ((sites (i % L)).mat oi) ((sites (j % L)).mat oj)
  | _, _ => 0

/-- Modelled from the spec (section 4.3): `to_nn_bond_Arrays` distributes
every coupling term onto the unique bond tensor consistent with
nearest-neighbor MPS adjacency and fails if a term spans non-adjacent MPS
sites; bonds receiving no term stay `None`. -/
def toNNBondArrays (sites : ℕ → ModelSite R d) (L : ℕ) (terms : List (MCpl R)) :
    Except String (List (Option (BMat d R))) :=
  if terms.all nnAdjacent then
    .ok ((List.range L).map (fun b =>
      let rel := terms.filter (fun t => mTermBond L t = b)
      if rel.isEmpty then none else some ((rel.map (mTermMat sites L)).sum)))
  else .error "ValueError: coupling term spans non-adjacent MPS sites"

/-- Modelled from the spec (section 4.3): the contribution of one onsite term
`(s, i, op)` to bond `b` under `add_to_nn_bond_Arrays`: the term is split
with the `distribute` weights onto the two bonds touching site `i`, except at
the two open ends of a finite chain, where the full weight goes to the single
adjacent bond (and the absent bond is not touched at all). -/
def onsiteBondContrib (sites : ℕ → ModelSite R d) (L : ℕ) (finite : Bool) (dist : R × R)
    (t : OTerm R) (b : ℕ) : Option (BMat d R) :=
  let M := t.1 • (sites t.2.1).mat t.2.2
  let i := t.2.1
  let cL : Option (BMat d R) :=
    if finite ∧ i = L - 1 then none
    else some (kron ((if finite ∧ i = 0 then 1 else dist.1) • M) 1)
  let cR : Option (BMat d R) :=
    if finite ∧ i = 0 then none
    else some (kron 1 ((if finite ∧ i = L - 1 then 1 else dist.2) • M))
  addWithNone0 (if b = (i + 1) % L then cL else none) (if b = i % L then cR else none)

/-- Modelled from the spec (section 4.3): `add_to_nn_bond_Arrays` folds every
onsite term's bond contributions into the bond array list. -/
def addToNNBondArrays (sites : ℕ → ModelSite R d) (L : ℕ) (finite : Bool) (dist : R × R)
    (ot : List (OTerm R)) (H : List (Option (BMat d R))) : List (Option (BMat d R)) :=
  (List.range L).map (fun b =>
    ot.foldl (fun acc t => addWithNone0 acc (onsiteBondContrib sites L finite dist t b))
      (H.getD b none))

/-- `CouplingModel.calc_H_bond` (source lines 1103-1140): compile the stored
terms to bond arrays, distribute the onsite terms with weights `(0.5, 0.5)`,
assert that a finite chain has no wrap-around bond, and, under
`explicit_plus_hc`, add the Hermitian conjugate of every bond array. -/
def calc_H_bond (lat : ModelLat R d) (explicitPlusHc : Bool) (keep : R → Bool)
    (st : TermState R) : Except String (List (Option (BMat d R))) :=
  let sites := lat.siteOf
  let finite := lat.bcFinite
  let ct := removeZerosM keep (allCouplingTerms st).flat
  match toNNBondArrays sites lat.Nsites ct with
  | .error e => .error e
  | .ok H0 =>
    let ot := removeZerosO keep (allOnsiteTerms st)
    let H1 := addToNNBondArrays sites lat.Nsites finite (1/2, 1/2) ot H0
    if finite ∧ ¬ (H1.getD 0 none).isNone then
      .error "AssertionError: H_bond[0] is not None"
    else
      .ok (if explicitPlusHc then H1.map (Option.map (fun M => M + M.conjTranspose)) else H1)

/-- One high-level model-building call: either `add_onsite` or a two-site
`add_coupling` (with the default `str_on_first=True`, `raise_op2_left=False`
arguments). -/
inductive CallSpec (R : Type) where
  | onsite (strength : SField R) (u : ℕ) (opname : OpName) (category : Option String)
  | coupling (strength : SField R) (u1 : ℕ) (op1 : OpName) (u2 : ℕ) (op2 : OpName)
      (dx : List ℤ) (opString : Option OpName) (category : Option String)

/-- Apply one call to the model state, with the given ambient
`explicit_plus_hc` flag and per-call `plus_hc` argument. -/
def applyCall (lat : ModelLat R d) (explicitPlusHc plusHc : Bool) (st : TermState R) :
    CallSpec R → TermState R × Option String
  | .onsite s u op cat => add_onsite lat explicitPlusHc st s u op cat plusHc
  | .coupling s u1 o1 u2 o2 dx σ cat =>
      add_coupling lat explicitPlusHc st s u1 o1 u2 o2 dx σ true false cat plusHc

/-- Build a model by a fixed sequence of calls, stopping at the first error
(an exception aborts the construction). -/
def runCalls (lat : ModelLat R d) (explicitPlusHc plusHc : Bool) (st : TermState R)
    (calls : List (CallSpec R)) : TermState R × Option String :=
  calls.foldl (fun acc c =>
    match acc.2 with
    | some _ => acc
    | none => applyCall lat explicitPlusHc plusHc acc.1 c) (st, none)

end CompileHbond

section FlatViews

/-- Flatten the values of a category dictionary through a view `F`. -/
def flatWith {α β : Type} (F : α → List β) (l : List (String × α)) : List β :=
  (l.map (fun p => F p.2)).flatten

/-- All stored coupling terms of a state, category-stripped and viewed as
multi-site terms. -/
def flatC {R : Type} (st : TermState R) : List (MCpl R) :=
  flatWith CTcoll.flat st.coupling

/-- All stored onsite terms of a state, category-stripped. -/
def flatO {R : Type} (st : TermState R) : List (OTerm R) :=
  flatWith (fun ts => ts) st.onsite

end FlatViews

section HcAnalysis

variable {R : Type} [Field R] [StarRing R] [DecidableEq R] {d : ℕ}

/-- The canonical stored term produced by one realized pair of the
`add_coupling` sum loop (source lines 975-998), as a function of the pair. -/
def cplOfPair (site1 site2 : ModelSite R d) (op1 op2 σ : OpName) (sof : Bool)
    (i j : ℕ) (s : R) : Cpl R :=
  if j < i then
    ⟨if σ = "JW" then -s else s, j, i,
      if sof = true ∧ ¬ σ = "Id" then site2.mult2 op2 σ else op2, op1, σ⟩
  else
    ⟨s, i, j, if sof = true ∧ ¬ σ = "Id" then site1.mult2 op1 σ else op1, op2, σ⟩

/-- The list of terms stored by one `add_coupling` sum-loop run: one per
realized pair of nonzero strength. -/
def loopTerms (site1 site2 : ModelSite R d) (op1 op2 σ : OpName) (sof : Bool)
    (strength : SField R) (pairs : List (ℕ × ℕ × Idx)) : List (MCpl R) :=
  pairs.filterMap (fun q =>
    if strength.f q.2.2 = 0 then none
    else some (cplToM (cplOfPair site1 site2 op1 op2 σ sof q.1 q.2.1 (strength.f q.2.2))))

/-- The list of terms stored by one `add_onsite` loop run. -/
def onsiteTermsOf (strength : SField R) (op : OpName) (pairs : List (ℕ × Idx)) :
    List (OTerm R) :=
  pairs.map (fun q => (strength.f q.2, q.1, op))

/-- Hermitian pairing between an hc-stored onsite term and its primary term:
same MPS site, tolerance-equivalent strength, conjugate-transposed effective
operator. -/
def relO (sites : ℕ → ModelSite R d) (keep : R → Bool) (t' t : OTerm R) : Prop :=
  t'.2.1 = t.2.1 ∧ keep t'.1 = keep t.1 ∧
    t'.1 • (sites t'.2.1).mat t'.2.2 = (t.1 • (sites t.2.1).mat t.2.2)ᴴ

/-- Hermitian pairing between an hc-stored coupling term and its primary
term: same site tuple, tolerance-equivalent strength, conjugate-transposed
bond matrix. -/
def relC (sites : ℕ → ModelSite R d) (L : ℕ) (keep : R → Bool) (t' t : MCpl R) : Prop :=
  t'.ijkl = t.ijkl ∧ keep t'.strength = keep t.strength ∧
    mTermMat sites L t' = (mTermMat sites L t)ᴴ

/-- The hc-duplication invariant: the state of the explicitly doubled model
(`explicit_plus_hc=False`, `plus_hc=True` calls) holds, up to permutation,
exactly the terms of the `explicit_plus_hc=True` model plus one
Hermitian-conjugate partner for each of them. -/
def hcInv (sites : ℕ → ModelSite R d) (L : ℕ) (keep : R → Bool)
    (stA stB : TermState R) : Prop :=
  ∃ bo eo bc ec,
    (flatO stA).Perm bo ∧ (flatO stB).Perm (bo ++ eo) ∧
    List.Forall₂ (relO sites keep) eo bo ∧
    (flatC stA).Perm bc ∧ (flatC stB).Perm (bc ++ ec) ∧
    List.Forall₂ (relC sites L keep) ec bc

/-- Well-formedness of one model-building call over a lattice with the
uniform site `S`: valid non-fermionic onsite operators reaching existing MPS
sites; coupling calls with auto-resolved strings, valid operators of equal
Jordan-Wigner parity, a non-onsite translation, well-formed realized pairs,
and the lattice reversal property `possible_couplings(u2, u1, -dx) =
swap(possible_couplings(u1, u2, dx))`. -/
def CallOk (lat : ModelLat R d) (S : ModelSite R d) : CallSpec R → Prop
  | .onsite _ u op _ =>
      S.validOp op = true ∧ S.needsJW op = false ∧
      ∀ q ∈ lat.mpsLatIdxFixU u, q.1 < lat.Nsites
  | .coupling _ u1 o1 u2 o2 dx σa _ =>
      σa = none ∧ dx.length = lat.dim ∧
      S.validOp o1 = true ∧ S.validOp o2 = true ∧
      S.needsJW o1 = S.needsJW o2 ∧
      ¬ (dx.all (· = 0) = true ∧ u1 = u2) ∧
      (∀ q ∈ lat.possibleCouplings u1 u2 dx, q.1 ≠ q.2.1 ∧ min q.1 q.2.1 < lat.Nsites) ∧
      lat.possibleCouplings u2 u1 (dx.map Neg.neg) =
        (lat.possibleCouplings u1 u2 dx).map (fun q => (q.2.1, q.1, q.2.2))

/-- The Hermitian-conjugation axioms of a site collaborator: `get_hc_op_name`
preserves validity and Jordan-Wigner need, realizes the matrix adjoint,
`multiply_op_names` realizes matrix multiplication, the structural operators
`'Id'` and `'JW'` are self-conjugate and valid, the fermionic sign string is
Hermitian, and operators needing a Jordan-Wigner string anticommute with it. -/
def HermSite (S : ModelSite R d) : Prop :=
  (∀ op, S.validOp (S.hcName op) = S.validOp op) ∧
  (∀ op, S.needsJW (S.hcName op) = S.needsJW op) ∧
  (∀ op, S.mat (S.hcName op) = (S.mat op)ᴴ) ∧
  (∀ a b, S.mat (S.mult2 a b) = S.mat a * S.mat b) ∧
  S.hcName "Id" = "Id" ∧ S.hcName "JW" = "JW" ∧
  S.validOp "Id" = true ∧ S.validOp "JW" = true ∧
  (S.mat "JW")ᴴ = S.mat "JW" ∧
  (∀ op, S.needsJW op = true → S.mat op * S.mat "JW" = -(S.mat "JW" * S.mat op))

/-- The compatibility of the near-zero tolerance predicate with the
Hermitian-conjugate bookkeeping: `abs(conj(s)) = abs(-s) = abs(s)`. -/
def KeepOk (keep : R → Bool) : Prop :=
  (∀ x, keep (star x) = keep x) ∧ (∀ x, keep (-x) = keep x)

/-- The value of an optional tensor, with `None` read as zero. -/
def oVal {M : Type} [Zero M] (o : Option M) : M := o.getD 0

end HcAnalysis

section InitGuard

/-- The attribute state relevant to `CouplingMPOModel.__init__`: the
`_called_CouplingMPOModel_init` guard flag (`getattr(self, ..., False)` on a
fresh instance yields `false`). -/
structure CMPOState where
  calledInit : Bool
deriving DecidableEq

/-- `CouplingMPOModel.__init__` (source lines 1524-1551): raise on a repeated
call, otherwise set the guard flag and run the remaining initialization
steps 1-8 (lattice, `CouplingModel.__init__`, `init_terms`, MPO and bond
construction), abstracted as `rest`; those steps may themselves fail,
returning the partially initialized state together with the error. -/
def couplingMPOModelInit (rest : CMPOState → CMPOState × Option String)
    (st : CMPOState) : CMPOState × Option String :=
  if st.calledInit then
    (st, some "ValueError: Called CouplingMPOModel.__init__(...) multiple times.")
  else
    rest { st with calledInit := true }

end InitGuard

section MpoToBond

variable {R : Type} [LinearOrderedField R] [StarRing R] {L χ d : ℕ}

/-- An MPO tensor `W[i]` with virtual legs `wL, wR` (uniform virtual
dimension `χ`); each entry is a single-site operator block `p, p*`. -/
abbrev WTen (χ d : ℕ) (R : Type) := Fin χ → Fin χ → PMat d R

/-- Modelled from the spec (sections 3 and 6): the MPO consumed by
`calc_H_bond_from_MPO` — local tensors, the designated identity-channel
indices `IdL`/`IdR` per bond (possibly undefined), the per-site identity
operators of the site collaborator, and the boundary-condition tag. -/
structure MPOData (L χ d : ℕ) (R : Type) where
  W : Fin L → WTen χ d R
  IdL : ℕ → Option (Fin χ)
  IdR : ℕ → Option (Fin χ)
  siteId : Fin L → PMat d R
  finite : Bool

/-- Overwrite a single `(wL, wR)` entry of an MPO tensor. -/
def setWEntry (w : WTen χ d R) (x y : Fin χ) (v : PMat d R) : WTen χ d R :=
  fun p q => if p = x ∧ q = y then v else w p q

/-- `W[x, :, :, :] *= 0`. -/
def zeroWRow (w : WTen χ d R) (x : Fin χ) : WTen χ d R :=
  fun p q => if p = x then 0 else w p q

/-- `W[:, y, :, :] *= 0`. -/
def zeroWCol (w : WTen χ d R) (y : Fin χ) : WTen χ d R :=
  fun p q => if q = y then 0 else w p q

/-- `calc_H_bond_from_MPO`, first loop (source lines 540-553): extract the
onsite terms `W[IdL_a, IdR_b]` and zero that entry together with the
identity channels `W[IdR_a, IdR_b]` and `W[IdL_a, IdL_b]` (when present) of
every tensor.  A missing required identity index is a fatal lookup error. -/
def mpoExtractOnsite (m : MPOData L χ d R) :
    Except String ((Fin L → WTen χ d R) × (Fin L → PMat d R)) :=
  if h : ∀ i : Fin L, (m.IdL i.val).isSome ∧ (m.IdR (i.val + 1)).isSome then
    .ok (fun i =>
      let a := (m.IdL i.val).get (h i).1
      let b := (m.IdR (i.val + 1)).get (h i).2
      let W1 := setWEntry (m.W i) a b 0
      let W2 := match m.IdR i.val with
        | some r => setWEntry W1 r b 0
        | none => W1
      match m.IdL (i.val + 1) with
        | some l => setWEntry W2 a l 0
        | none => W2,
      fun i => m.W i ((m.IdL i.val).get (h i).1) ((m.IdR (i.val + 1)).get (h i).2))
  else .error "TypeError: required IdL/IdR index is None"

/-- The MPS index left of `j`, cyclically: `(j - 1) % L`. -/
def finPrev (j : Fin L) : Fin L :=
  ⟨(j.val + (L - 1)) % L, Nat.mod_lt _ j.pos⟩

/-- One iteration of the second loop of `calc_H_bond_from_MPO` (source lines
555-567): multiply the remaining channels of the neighboring tensors
`W[i]`, `W[j]` into the bond array on `(j-1, j)` and zero the used
row/column.  Sequential: the zeroing feeds later iterations. -/
def mpoBondStep (finite : Bool) (IdL IdR : ℕ → Option (Fin χ))
    (st : (Fin L → WTen χ d R) × (Fin L → Option (BMat d R))) (j : Fin L) :
    Except String ((Fin L → WTen χ d R) × (Fin L → Option (BMat d R))) :=
  if finite ∧ j.val = 0 then .ok st
  else
    let i := finPrev j
    match IdL i.val, IdR (j.val + 1) with
    | some a, some c =>
      let Hb : BMat d R := ∑ w : Fin χ, kron (st.1 i a w) (st.1 j w c)
      let W1 : Fin L → WTen χ d R := fun k => if k = i then zeroWRow (st.1 i) a else st.1 k
      let W2 : Fin L → WTen χ d R := fun k => if k = j then zeroWCol (W1 j) c else W1 k
      .ok (W2, fun b => if b = j then some Hb else st.2 b)
    | _, _ => .error "TypeError: required IdL/IdR index is None"

/-- The second loop of `calc_H_bond_from_MPO` over all bonds. -/
def mpoBondProducts (finite : Bool) (IdL IdR : ℕ → Option (Fin χ))
    (W0 : Fin L → WTen χ d R) :
    Except String ((Fin L → WTen χ d R) × (Fin L → Option (BMat d R))) :=
  (List.finRange L).foldlM (mpoBondStep finite IdL IdR) (W0, fun _ => none)

/-- Frobenius norm squared of one MPO tensor.  The source's residual test
`npc.norm(W) > tol_zero` is embedded as the equivalent squared comparison
(for the intended nonnegative tolerance). -/
def frobSqW (w : WTen χ d R) : R :=
  ∑ p : Fin χ, ∑ q : Fin χ, ∑ x : Fin d, ∑ y : Fin d, w p q x y * star (w p q x y)

/-- `calc_H_bond_from_MPO`, residual check (source lines 568-572): raise if
any leftover tensor has norm exceeding `tol_zero`. -/
def mpoResidualCheck (tolZero : R) (Ws : Fin L → WTen χ d R) : Except String Unit :=
  if ∀ i : Fin L, ¬ tolZero * tolZero < frobSqW (Ws i) then .ok ()
  else .error
    "ValueError: Bond couplings did not capture everything. Either H is long range or IdL/IdR is wrong!"

/-- `calc_H_bond_from_MPO`, onsite merging (source lines 573-584): distribute
every extracted onsite term onto the adjacent bonds, with full weight for the
end sites of a finite chain (`strength_i = 1` iff `finite and i == 0`,
`strength_j = 1` iff `finite and j == L - 1`) and half weight otherwise. -/
def mpoMergeOnsite (m : MPOData L χ d R) (Honsite : Fin L → PMat d R)
    (H : Fin L → Option (BMat d R)) : Fin L → Option (BMat d R) :=
  fun j =>
    if m.finite ∧ j.val = 0 then H j
    else
      let i := finPrev j
      let si : R := if m.finite ∧ i.val = 0 then 1 else 1 / 2
      let sj : R := if m.finite ∧ j.val = L - 1 then 1 else 1 / 2
      let Hb := kron (m.siteId i) (sj • Honsite j) + kron (si • Honsite i) (m.siteId j)
      some (match H j with
        | none => Hb
        | some x => x + Hb)

/-- `MPOModel.calc_H_bond_from_MPO` (source lines 512-593). -/
def calc_H_bond_from_MPO (m : MPOData L χ d R) (tolZero : R) (explicitPlusHc : Bool) :
    Except String (Fin L → Option (BMat d R)) := do
  let pr ← mpoExtractOnsite m
  let st ← mpoBondProducts m.finite m.IdL m.IdR pr.1
  let _ ← mpoResidualCheck tolZero st.1
  let H := mpoMergeOnsite m pr.2 st.2
  if m.finite ∧ ¬ (∀ j : Fin L, j.val = 0 → (H j).isNone) then
    .error "AssertionError: H_bond[0] is not None"
  else
    .ok (if explicitPlusHc then fun j => (H j).map (fun M => M + M.conjTranspose) else H)

end MpoToBond

section GroupSites

variable {A : Type} [Inhabited A] [Add A]

/-- A grouped site as consumed by `NearestNeighborModel.group_sites`:
the number of constituent sites, the identity operators of the constituents
(`[s.Id for s in gr_site.sites]`) and the identity of the grouped site.
Modelled from the spec (sections 4.5 and 6); tensors are abstract values of
a type `A`, manipulated through the operations in `GOps`. -/
structure GSite (A : Type) where
  nSites : ℕ
  siteIds : List A
  gId : A

instance : Inhabited (GSite A) := ⟨⟨0, [], default⟩⟩

/-- Modelled from the spec (section 6, tensor-algebra collaborator): the
abstract tensor operations used by `group_sites`.  `outer` is `npc.outer`,
`transp` the initial `transpose(['p0','p0*','p1','p1*'])`, `transpId` the
`Id.transpose(['p','p*'])` on grouped-site identities, `combineOnsite` /
`combineBond` the `combine_legs` calls of the two Kronecker helpers, and
`relabel` the final `iset_leg_labels(...).itranspose(...)`. -/
structure GOps (A : Type) where
  outer : A → A → A
  transp : A → A
  transpId : A → A
  combineOnsite : GSite A → A → A
  combineBond : GSite A → GSite A → A → A
  relabel : A → A

/-- Left fold of `npc.outer` over `ops` (`Hb = ops[0]; for op in ops[1:]`,
source lines 323-325 and 340-342). -/
def foldOuter (P : GOps A) : List A → Option A
  | [] => none
  | o :: rest => some (rest.foldl P.outer o)

/-- `NearestNeighborModel._group_sites_Hb_to_onsite` (source lines 313-329):
Kronecker product of `old_Hb` (acting on sites `(j-1, j)` of the group) with
the identities of the remaining constituent sites, combined into one leg
pair. -/
def groupSitesHbToOnsite (P : GOps A) (gs : GSite A) (j : ℕ) (oldHb : Option A) :
    Option A :=
  match oldHb with
  | none => none
  | some hb =>
    let hb := P.transp hb
    let ops := (gs.siteIds.take (j - 1)) ++ [hb] ++ (gs.siteIds.drop (j + 1))
    (foldOuter P ops).map (P.combineOnsite gs)

/-- `NearestNeighborModel._group_sites_Hb_to_bond` (source lines 331-352):
Kronecker product of `old_Hb` (acting on the last site of the left group and
the first of the right group) with the remaining identities. -/
def groupSitesHbToBond (P : GOps A) (gsL gsR : GSite A) (oldHb : Option A) : Option A :=
  match oldHb with
  | none => none
  | some hb =>
    let hb := P.transp hb
    let ops := (gsL.siteIds.take (gsL.nSites - 1)) ++ [hb] ++ (gsR.siteIds.drop 1)
    (foldOuter P ops).map (P.combineBond gsL gsR)

/-- The starting old-chain offset of group `k` (the running `i` of the
`group_sites` loop). -/
def groupOffset (gss : List (GSite A)) (k : ℕ) : ℕ :=
  ((gss.take k).map (·.nSites)).sum

/-- The accumulated intra-group onsite part `new_H_onsite` of iteration `k`
(source lines 287-291). -/
def groupIterOnsite (P : GOps A) (oldHbond : List (Option A)) (gss : List (GSite A))
    (k : ℕ) : Option A :=
  let gs := gss.getD k default
  let i := groupOffset gss k
  let oldL := oldHbond.length
  (List.range (gs.nSites - 1)).foldl (fun acc jm =>
    addWithNone0 acc
      (groupSitesHbToOnsite P gs (jm + 1) (oldHbond.getD ((i + (jm + 1)) % oldL) none)))
    none

/-- The group-boundary bond tensor `new_Hb` of iteration `k` (source lines
292-293). -/
def groupIterBond (P : GOps A) (oldHbond : List (Option A)) (gss : List (GSite A))
    (k : ℕ) : Option A :=
  let gs := gss.getD k default
  let newL := gss.length
  let nextGs := gss.getD ((k + 1) % newL) default
  let oldL := oldHbond.length
  groupSitesHbToBond P gs nextGs (oldHbond.getD ((groupOffset gss k + gs.nSites) % oldL) none)

/-- The value written to `H_bond[(k+1) % newL]` in iteration `k`: `new_Hb`,
with the intra-group onsite part attached on the right (tensored with the
identity of the next grouped site) for every non-final group and on infinite
chains (source lines 294-298). -/
def groupIterContrib (P : GOps A) (finite : Bool) (oldHbond : List (Option A))
    (gss : List (GSite A)) (k : ℕ) : Option A :=
  let newL := gss.length
  let nextGs := gss.getD ((k + 1) % newL) default
  match groupIterOnsite P oldHbond gss k with
  | some x =>
    if k + 1 ≠ newL ∨ ¬ finite then
      addWithNone0 (groupIterBond P oldHbond gss k) (some (P.outer x (P.transpId nextGs.gId)))
    else groupIterBond P oldHbond gss k
  | none => groupIterBond P oldHbond gss k

/-- The extra write to the right-most existing bond `H_bond[-1]` performed in
the last iteration (`k + 1 == newL`) of a finite chain: the onsite remainder
tensored with the identity of the preceding grouped site on the left
(source lines 299-303). -/
def groupIterSpecial (P : GOps A) (finite : Bool) (oldHbond : List (Option A))
    (gss : List (GSite A)) (k : ℕ) : Option A :=
  let newL := gss.length
  if k + 1 = newL ∧ finite then
    (groupIterOnsite P oldHbond gss k).map (fun x =>
      let prevGs := gss.getD ((k + newL - 1) % newL) default
      P.outer (P.transpId prevGs.gId) x)
  else none

/-- One iteration of the `group_sites` loop (source lines 283-305), as a
transformation of the accumulating new bond list.  The special write to
`H_bond[-1]` precedes the regular write to `H_bond[k2]`. -/
def groupSitesStep (P : GOps A) (finite : Bool) (oldHbond : List (Option A))
    (gss : List (GSite A)) (H : ℕ → Option A) (k : ℕ) : ℕ → Option A :=
  let newL := gss.length
  let k2 := (k + 1) % newL
  let H1 := fun m => if m = newL - 1
      then addWithNone0 (H m) (groupIterSpecial P finite oldHbond gss k)
      else H m
  fun m => if m = k2 then addWithNone0 (H1 k2) (groupIterContrib P finite oldHbond gss k)
    else H1 m

/-- `NearestNeighborModel.group_sites`, the `H_bond` recombination (source
lines 277-311).  The lattice regrouping itself is delegated to the external
site collaborator; `finite` is detected from `H_bond[0] is None` (line 280),
and the final loop relabels and retransposes every non-`None` entry
(lines 306-309). -/
def group_sites_H_bond (P : GOps A) (oldHbond : List (Option A))
    (gss : List (GSite A)) : ℕ → Option A :=
  let finite := (oldHbond.getD 0 none).isNone
  let Hfinal := (List.range gss.length).foldl
    (groupSitesStep P finite oldHbond gss) (fun _ => none)
  fun m => (Hfinal m).map P.relabel

end GroupSites

section WitnessData

/-- A one-dimensional bosonic site over `ℚ`: every operator name is valid,
none needs a Jordan-Wigner string, Hermitian conjugation appends `d` to the
name, every operator matrix is the identity. -/
def siteW : ModelSite ℚ 1 where
  validOp := fun _ => true
  needsJW := fun _ => false
  hcName := fun op => op ++ "d"
  mult2 := fun a b => a ++ "*" ++ b
  mat := fun _ => 1

/-- A fermionic variant of `siteW`: the operator `C` needs a JW string. -/
def siteWF : ModelSite ℚ 1 :=
  { siteW with needsJW := fun op => decide (op = "C") }

/-- A finite two-site chain over `siteW`, with only nearest-neighbor
couplings realized for the translations `dx = [1]` and `dx = [-1]`. -/
def latW : ModelLat ℚ 1 where
  Nsites := 2
  dim := 1
  numU := 1
  unitCell := fun _ => siteW
  siteOf := fun _ => siteW
  uOf := fun _ => 0
  bcFinite := true
  mpsLatIdxFixU := fun _ => [(0, [0]), (1, [1])]
  possibleCouplings := fun _ _ dx =>
    if dx = [1] then [(0, 1, [0])] else if dx = [-1] then [(1, 0, [0])] else []
  possibleMultiCouplings := fun _ => []
  lat2mpsIdx := fun e => match e with | .inl idx => idx.headD 0 | .inr i => i

/-- `latW` with the fermionic site `siteWF` everywhere. -/
def latWF : ModelLat ℚ 1 :=
  { latW with unitCell := fun _ => siteWF, siteOf := fun _ => siteWF }

/-- A spatially constant strength field over a one-point raw array. -/
def sfield (c : ℚ) : SField ℚ := ⟨[[0]], fun _ => c⟩

/-- A site whose Hermitian-conjugation map fixes the structural operators
(`'Id'` and `'JW'` are self-conjugate); every operator matrix is the
identity on a one-dimensional local space, so all conjugation axioms hold. -/
def siteH : ModelSite ℚ 1 where
  validOp := fun _ => true
  needsJW := fun _ => false
  hcName := fun op => if op = "Id" ∨ op = "JW" then op else op ++ "d"
  mult2 := fun a b => a ++ "*" ++ b
  mat := fun _ => 1

/-- `latW` with the self-conjugation-friendly site `siteH` everywhere. -/
def latH : ModelLat ℚ 1 :=
  { latW with unitCell := fun _ => siteH, siteOf := fun _ => siteH }

/-- The call list of the C1 witness: one onsite `N` term and one
nearest-neighbor `C D` coupling, each of unit strength. -/
def callsW : List (CallSpec ℚ) :=
  [.onsite (sfield 1) 0 "N" none,
   .coupling (sfield 1) 0 "C" 0 "D" [1] none none]

/-- The near-zero predicate at exact tolerance, used by the witnesses. -/
def keepW : ℚ → Bool := fun s => decide (s ≠ 0)

/-- The onsite redistribution weight asserted by the specification for
`calc_H_bond_from_MPO`: weight `1.0` for site 0 onto bond 1 and for site
`L-1` onto bond `L-1` of a finite chain, weight `0.5` everywhere else
(including everywhere for infinite boundary conditions). -/
def claimWeight (R : Type) [Field R] (finite : Bool) (L s b : ℕ) : R :=
  if finite = true ∧ s = 0 ∧ b = 1 then 1
  else if finite = true ∧ s = L - 1 ∧ b = L - 1 then 1
  else 1 / 2

/-- The final per-bond transformation of `calc_H_bond_from_MPO` under
`explicit_plus_hc` (source lines 587-592). -/
def hcPost {d : ℕ} {R : Type} [Field R] [StarRing R] (ephc : Bool) (M : BMat d R) :
    BMat d R :=
  if ephc then M + M.conjTranspose else M

/-- Did the computation succeed? -/
def exceptOk {ε α : Type} : Except ε α → Bool
  | .ok _ => true
  | .error _ => false

/-- The spin operator `Sz` on a two-dimensional site, over `ℚ`. -/
def mSz : PMat 2 ℚ :=
  Matrix.of (fun i j => if i = j then (if i = 0 then 1 / 2 else -(1 / 2)) else 0)

/-- First tensor of a finite two-site nearest-neighbor MPO
(`H = Sz Sz + Sz_0 + Sz_1`): the boundary row `(Id, Sz, Sz)`. -/
def W0C5 : WTen 3 2 ℚ := fun a b =>
  if a = 0 ∧ b = 0 then 1
  else if a = 0 ∧ b = 1 then mSz
  else if a = 0 ∧ b = 2 then mSz
  else 0

/-- Second tensor of the finite two-site MPO: the boundary column
`(Sz, Sz, Id)`. -/
def W1C5 : WTen 3 2 ℚ := fun a b =>
  if a = 0 ∧ b = 2 then mSz
  else if a = 1 ∧ b = 2 then mSz
  else if a = 2 ∧ b = 2 then 1
  else 0

/-- A concrete finite two-site MPO (`H = Sz Sz + Sz_0 + Sz_1`) with the usual
identity channels (`IdL = 0` on bonds 0 and 1, `IdR = 2` on bonds 1 and 2). -/
def mpoC5 : MPOData 2 3 2 ℚ where
  W := fun i => if i = 0 then W0C5 else W1C5
  IdL := fun b => if b = 0 ∨ b = 1 then some 0 else none
  IdR := fun b => if b = 1 ∨ b = 2 then some 2 else none
  siteId := fun _ => 1
  finite := true

/-- `W0C5` polluted with a tiny entry `1/10^16` in the in-flight channel
`(1, 1)`: a range-two leftover far below the default tolerance. -/
def W0C6 : WTen 3 2 ℚ := fun a b =>
  if a = 1 ∧ b = 1 then (1 / 10 ^ 16 : ℚ) • (1 : PMat 2 ℚ) else W0C5 a b

/-- `mpoC5` with the polluted first tensor. -/
def mpoC6 : MPOData 2 3 2 ℚ :=
  { mpoC5 with W := fun i => if i = 0 then W0C6 else W1C5 }

/-- The leftover MPO tensors of `mpoC6` after onsite extraction and bond
multiplication (zero when a phase fails, which does not happen here). -/
def c6leftover : Fin 2 → WTen 3 2 ℚ :=
  match mpoExtractOnsite mpoC6 with
  | .ok pr =>
    match mpoBondProducts mpoC6.finite mpoC6.IdL mpoC6.IdR pr.1 with
    | .ok st => st.1
    | .error _ => fun _ _ _ => 0
  | .error _ => fun _ _ _ => 0

/-- The bond list computed by `calc_H_bond_from_MPO` on `mpoC5` at exact
tolerance zero. -/
def c5H : Fin 2 → Option (BMat 2 ℚ) :=
  match calc_H_bond_from_MPO mpoC5 0 false with
  | .ok H => H
  | .error _ => fun _ => none

/-- The onsite-extraction result on `mpoC5`. -/
def c5pr : (Fin 2 → WTen 3 2 ℚ) × (Fin 2 → PMat 2 ℚ) :=
  match mpoExtractOnsite mpoC5 with
  | .ok pr => pr
  | .error _ => (fun _ _ _ => 0, fun _ => 0)

/-- The bond-multiplication result on `mpoC5`. -/
def c5st2 : (Fin 2 → WTen 3 2 ℚ) × (Fin 2 → Option (BMat 2 ℚ)) :=
  match mpoBondProducts mpoC5.finite mpoC5.IdL mpoC5.IdR c5pr.1 with
  | .ok st => st
  | .error _ => (fun _ _ _ => 0, fun _ => none)

/-- A concrete tensor algebra over `ℤ` for exercising `group_sites`:
`outer` adds, every structural reshuffling is the identity. -/
def gopsW : GOps ℤ where
  outer := fun a b => a + b
  transp := fun a => a
  transpId := fun a => a
  combineOnsite := fun _ a => a
  combineBond := fun _ _ a => a
  relabel := fun a => a

/-- The spec's grouping example: a finite chain of four sites grouped by
factor two into two grouped sites (constituent identities `1`, grouped
identities `100` and `200`). -/
def gssW : List (GSite ℤ) := [⟨2, [1, 1], 100⟩, ⟨2, [1, 1], 200⟩]

/-- The old bond list of the four-site finite chain: `H_bond[0] = None`
and three nearest-neighbor bond tensors. -/
def oldHbW : List (Option ℤ) := [none, some 3, some 5, some 7]

end WitnessData

/-! ## Theorems -/

section ClaimC10

/-- **C10** (confirmed): one-shot initialization guard.  As soon as one
`CouplingMPOModel.__init__` call on a fresh instance has started (reached the
point where `_called_CouplingMPOModel_init` is set, whether or not the
remaining initialization steps succeeded), a second `__init__` call on the
resulting instance raises the ValueError through the flag, so terms can never
be added to the same model twice through repeated initialization. -/
theorem claim_C10_init_guard (rest : CMPOState → CMPOState × Option String)
    (hrest : ∀ s, ((rest s).1).calledInit = s.calledInit)
    (st : CMPOState) (hst : st.calledInit = false) :
    (couplingMPOModelInit rest ((couplingMPOModelInit rest st).1)).2 =
      some "ValueError: Called CouplingMPOModel.__init__(...) multiple times." := by
  unfold couplingMPOModelInit
  simp [hst, hrest]

/-- Witness for C10 at a concrete instance and a trivially succeeding
remainder of the initialization. -/
theorem claim_C10_init_guard_witness :
    (couplingMPOModelInit (fun s => (s, none))
        ((couplingMPOModelInit (fun s => (s, none)) ⟨false⟩).1)).2 =
      some "ValueError: Called CouplingMPOModel.__init__(...) multiple times." :=
  claim_C10_init_guard (fun s => (s, none)) (fun _ => rfl) ⟨false⟩ rfl

end ClaimC10

section ClaimC2

/-- **C2** (code bug): `add_multi_coupling_term(strength, [0,1,2],
["A","B","A"], ["S","S"], plus_hc=True)` on a model with
`explicit_plus_hc=False` stores as the second term of the pair the
*original* operator names `["A","B","A"]` and string names `["S","S"]`
(source line 1473 passes `ops_ijkl, op_string` instead of the computed
`hc_ops, hc_op_string`), even though the Hermitian-conjugate names
(`["Ad","Bd","Ad"]` here) differ, so the stored pair does not represent the
term plus its Hermitian conjugate. -/
theorem claim_C2_add_multi_coupling_term_stores_unconjugated :
    (add_multi_coupling_term latW false TermState.empty (3 : ℚ) [0, 1, 2]
        ["A", "B", "A"] ["S", "S"] none true).1.coupling =
      [(defaultMultiCat ["A", "B", "A"],
        .multi [⟨3, [0, 1, 2], ["A", "B", "A"], ["S", "S"]⟩,
                ⟨3, [0, 1, 2], ["A", "B", "A"], ["S", "S"]⟩])] ∧
    ["A", "B", "A"].map siteW.hcName ≠ ["A", "B", "A"] ∧
    ["S", "S"].map siteW.hcName ≠ ["S", "S"] := by
  refine ⟨by decide, by decide, by decide⟩

end ClaimC2

section ClaimC3

variable {R : Type} [Field R] {d : ℕ}

/-- **C3** (confirmed): in the `add_coupling` pair loop, a realized pair with
MPS indices `j < i` is stored in canonical order (indices and operators
swapped, the connecting string folded into the new left operator), and the
strength is negated exactly when the connecting `op_string` is the
fermionic-sign string `JW`; without a swap the strength is stored
unnegated. -/
theorem claim_C3_canonical_swap_sign (site1 site2 : ModelSite R d)
    (op1 op2 opString : OpName) (strOnFirst : Bool) (i j : ℕ) (s : R) :
    (j < i →
      addCouplingPairTerm site1 site2 op1 op2 opString strOnFirst false i j s =
        .ok ⟨if opString = "JW" then -s else s, j, i,
          if strOnFirst ∧ opString ≠ "Id" then site2.mult2 op2 opString else op2,
          op1, opString⟩) ∧
    (¬ j < i →
      addCouplingPairTerm site1 site2 op1 op2 opString strOnFirst false i j s =
        .ok ⟨s, i, j,
          if strOnFirst ∧ opString ≠ "Id" then site1.mult2 op1 opString else op1,
          op2, opString⟩) := by
  constructor <;> intro h <;> simp [addCouplingPairTerm, h]

/-- Witness for C3: a swapped fermionic pair (`j = 1 < i = 3`, `op_string =
"JW"`) is stored as `(-s, 1, 3, B JW, A, JW)`, at `s = 5`. -/
theorem claim_C3_canonical_swap_sign_witness :
    addCouplingPairTerm siteW siteW "A" "B" "JW" true false 3 1 (5 : ℚ) =
      .ok ⟨-5, 1, 3, siteW.mult2 "B" "JW", "A", "JW"⟩ :=
  (claim_C3_canonical_swap_sign siteW siteW "A" "B" "JW" true 3 1 5).1 (by decide)

end ClaimC3

section ClaimC8

variable {R : Type} [Field R] [StarRing R] [DecidableEq R] {d : ℕ}

/-- **C8** (confirmed): zero-strength no-op.  A call to `add_onsite`,
`add_coupling` or `add_multi_coupling` whose strength array is entirely zero
returns without error and without any mutation of `onsite_terms` or
`coupling_terms` — no operator-name validation, Jordan-Wigner validation or
purely-onsite validation is even reached (the embedding places no
hypothesis on the operator names or on the coupling geometry; only the
`np.array(dx).reshape(...)` argument conversions, which the source performs
before its zero test, are assumed well-formed). -/
theorem claim_C8_zero_strength_noop (lat : ModelLat R d) (flag : Bool)
    (st : TermState R) (strength : SField R) (hz : strength.anyNonzero = false)
    (u : ℕ) (opname : OpName) (cat : Option String) (plusHc : Bool)
    (u1 u2 : ℕ) (op1 op2 : OpName) (dx : List ℤ) (hdx : dx.length = lat.dim)
    (σ : Option OpName) (sof rol : Bool) (cat2 : Option String)
    (ops : List (OpName × List ℤ × ℕ))
    (hops : ops.all (fun t => t.2.1.length = lat.dim) = true)
    (σm : Option OpName) (cat3 : Option String) (plusHc2 plusHc3 : Bool) :
    add_onsite lat flag st strength u opname cat plusHc = (st, none) ∧
    add_coupling lat flag st strength u1 op1 u2 op2 dx σ sof rol cat2 plusHc2 = (st, none) ∧
    add_multi_coupling lat flag st strength ops σm cat3 plusHc3 = (st, none) := by
  refine ⟨?_, ?_, ?_⟩
  · simp [add_onsite, add_onsite_main, hz]
  · simp [add_coupling, add_coupling_main, hdx, hz]
  · simp [add_multi_coupling, add_multi_coupling_main, hops, hz]

/-- Witness for C8: the all-zero strength field on the concrete two-site
chain, with an invalid/fermionic operator name and an onsite `dx = [0]`
coupling of identical unit-cell indices — all accepted as silent no-ops. -/
theorem claim_C8_zero_strength_noop_witness :
    add_onsite latWF false TermState.empty (sfield 0) 0 "C" none false =
      (TermState.empty, none) ∧
    add_coupling latWF false TermState.empty (sfield 0) 0 "C" 0 "Q" [0] none true false
      none false = (TermState.empty, none) ∧
    add_multi_coupling latWF false TermState.empty (sfield 0)
      [("C", [0], 0), ("C", [0], 0), ("C", [0], 0)] none none false =
      (TermState.empty, none) :=
  claim_C8_zero_strength_noop latWF false TermState.empty (sfield 0) (by decide)
    0 "C" none false 0 0 "C" "Q" [0] (by decide) none true false none
    [("C", [0], 0), ("C", [0], 0), ("C", [0], 0)] (by decide) none none false false

end ClaimC8

section AssocLemmas

variable {α β : Type}

theorem alookup_cons (p : String × α) (l : List (String × α)) (k : String) :
    alookup (p :: l) k = if p.1 = k then some p.2 else alookup l k := by
  by_cases hk : p.1 = k
  · rw [alookup, List.find?_cons_of_pos _ (by simp [hk]), if_pos hk]
    rfl
  · rw [alookup, List.find?_cons_of_neg _ (by simp [hk]), if_neg hk]
    rfl

theorem aset_lookup_self (l : List (String × α)) (k : String) (w : α)
    (h : alookup l k = some w) : aset l k w = l := by
  induction l with
  | nil => simp [alookup] at h
  | cons p rest ih =>
    rw [alookup_cons] at h
    by_cases hk : p.1 = k
    · rw [if_pos hk] at h
      cases h
      simp only [aset, if_pos hk]
      rw [← hk]
    · rw [if_neg hk] at h
      simp only [aset, if_neg hk, ih h]

theorem flatWith_cons (F : α → List β) (p : String × α) (l : List (String × α)) :
    flatWith F (p :: l) = F p.2 ++ flatWith F l := by
  simp [flatWith]

theorem flatWith_aset_none (F : α → List β) (l : List (String × α)) (k : String) (v : α)
    (h : alookup l k = none) :
    flatWith F (aset l k v) = flatWith F l ++ F v := by
  induction l with
  | nil => simp [aset, flatWith]
  | cons p rest ih =>
    rw [alookup_cons] at h
    by_cases hk : p.1 = k
    · rw [if_pos hk] at h
      exact absurd h (by simp)
    · rw [if_neg hk] at h
      simp only [aset, if_neg hk, flatWith_cons, ih h, List.append_assoc]

theorem flatWith_aset_some_eq (F : α → List β) (l : List (String × α)) (k : String)
    (v w : α) (h : alookup l k = some w) (hF : F v = F w) :
    flatWith F (aset l k v) = flatWith F l := by
  induction l with
  | nil => simp [alookup] at h
  | cons p rest ih =>
    rw [alookup_cons] at h
    by_cases hk : p.1 = k
    · rw [if_pos hk] at h
      cases h
      simp only [aset, if_pos hk, flatWith_cons, hF]
    · rw [if_neg hk] at h
      simp only [aset, if_neg hk, flatWith_cons, ih h]

theorem flatWith_aset_perm (F : α → List β) (l : List (String × α)) (k : String)
    (v w : α) (extra : List β) (h : alookup l k = some w) (hF : F v = F w ++ extra) :
    (flatWith F (aset l k v)).Perm (flatWith F l ++ extra) := by
  induction l with
  | nil => simp [alookup] at h
  | cons p rest ih =>
    rw [alookup_cons] at h
    by_cases hk : p.1 = k
    · rw [if_pos hk] at h
      cases h
      simp only [aset, if_pos hk, flatWith_cons, hF, List.append_assoc]
      exact List.Perm.append_left (F p.2) List.perm_append_comm
    · rw [if_neg hk] at h
      simp only [aset, if_neg hk, flatWith_cons, List.append_assoc]
      exact (ih h).append_left _

theorem flatWith_aset_getD (F : α → List β) (l : List (String × α)) (k : String)
    (dflt : α) (hF : F dflt = []) :
    flatWith F (aset l k ((alookup l k).getD dflt)) = flatWith F l := by
  cases h : alookup l k with
  | none => simp [flatWith_aset_none F l k _ h, hF]
  | some w => simpa using flatWith_aset_some_eq F l k w w h rfl

theorem flatWith_aset_eqval (F : α → List β) (l : List (String × α)) (k : String)
    (v dflt : α) (hv : F v = F ((alookup l k).getD dflt)) (hF : F dflt = []) :
    flatWith F (aset l k v) = flatWith F l := by
  cases h : alookup l k with
  | none =>
    rw [flatWith_aset_none F l k v h]
    simp [hv, h, hF]
  | some w => exact flatWith_aset_some_eq F l k v w h (by simpa [h] using hv)

end AssocLemmas

section LoopLemmas

variable {R : Type} {d : ℕ}

theorem onsiteLoop_spec (N : ℕ) (strength : SField R) (op : OpName)
    (pairs : List (ℕ × Idx)) (ts : List (OTerm R))
    (hb : ∀ q ∈ pairs, q.1 < N) :
    onsiteLoop N strength op pairs ts =
      (ts ++ pairs.map (fun q => (strength.f q.2, q.1, op)), none) := by
  induction pairs generalizing ts with
  | nil => simp [onsiteLoop]
  | cons q rest ih =>
    have hq := hb q (List.mem_cons_self q rest)
    have hrest : ∀ r ∈ rest, r.1 < N := fun r hr => hb r (List.mem_cons_of_mem q hr)
    rw [onsiteLoop, show (onsiteTermsAdd N ts (strength.f q.2) q.1 op) =
      (ts ++ [(strength.f q.2, q.1, op)], none) by simp [onsiteTermsAdd, hq]]
    simpa [List.append_assoc] using ih (ts ++ [(strength.f q.2, q.1, op)]) hrest

theorem ctcollAddCoupling_spec (N : ℕ) (ct : CTcoll R) (t : Cpl R)
    (h1 : t.i < t.j) (h2 : t.i < N) :
    (ctcollAddCoupling N ct t).2 = none ∧
    (ctcollAddCoupling N ct t).1.flat = ct.flat ++ [cplToM t] := by
  cases ct with
  | two ts => simp [ctcollAddCoupling, couplingTermsAdd, h1, h2, CTcoll.flat]
  | multi ts =>
    simp [ctcollAddCoupling, multiTermsAdd, strictAscending, h1, h2, CTcoll.flat, cplToM]

theorem addCouplingPairTerm_shape [Field R] (site1 site2 : ModelSite R d)
    (op1 op2 σ : OpName) (sof : Bool) (i j : ℕ) (s : R) (_hij : i ≠ j) :
    ∃ t : Cpl R, addCouplingPairTerm site1 site2 op1 op2 σ sof false i j s = .ok t ∧
      t.i = min i j ∧ t.j = max i j ∧ t.opString = σ := by
  unfold addCouplingPairTerm
  by_cases h : j < i
  · refine ⟨⟨if σ = "JW" then -s else s, j, i,
      if sof = true ∧ ¬ σ = "Id" then site2.mult2 op2 σ else op2, op1, σ⟩,
      by simp [h], ?_, ?_, rfl⟩ <;> simp <;> omega
  · refine ⟨⟨s, i, j,
      if sof = true ∧ ¬ σ = "Id" then site1.mult2 op1 σ else op1, op2, σ⟩,
      by simp [h], ?_, ?_, rfl⟩ <;> simp <;> omega

theorem addCouplingLoop_spec [Field R] [DecidableEq R] (N : ℕ)
    (site1 site2 : ModelSite R d)
    (op1 op2 σ : OpName) (sof : Bool) (strength : SField R)
    (pairs : List (ℕ × ℕ × Idx)) (ct : CTcoll R)
    (hp : ∀ q ∈ pairs, q.1 ≠ q.2.1 ∧ min q.1 q.2.1 < N) :
    (addCouplingLoop N site1 site2 op1 op2 σ sof false strength pairs ct).2 = none ∧
    ∃ new, (addCouplingLoop N site1 site2 op1 op2 σ sof false strength pairs ct).1.flat
        = ct.flat ++ new ∧ ∀ t ∈ new, t.opString = [σ] := by
  induction pairs generalizing ct with
  | nil => exact ⟨rfl, [], by simp [addCouplingLoop], by simp⟩
  | cons q rest ih =>
    obtain ⟨hne, hmin⟩ := hp q (List.mem_cons_self q rest)
    have hrest : ∀ r ∈ rest, r.1 ≠ r.2.1 ∧ min r.1 r.2.1 < N :=
      fun r hr => hp r (List.mem_cons_of_mem q hr)
    by_cases hs : strength.f q.2.2 = 0
    · rw [show addCouplingLoop N site1 site2 op1 op2 σ sof false strength (q :: rest) ct =
          addCouplingLoop N site1 site2 op1 op2 σ sof false strength rest ct by
        simp [addCouplingLoop, hs]]
      exact ih ct hrest
    · obtain ⟨t, ht, hti, htj, hts⟩ :=
        addCouplingPairTerm_shape site1 site2 op1 op2 σ sof q.1 q.2.1
          (strength.f q.2.2) hne
      have htij : t.i < t.j := by rw [hti, htj]; omega
      have htiN : t.i < N := by rw [hti]; exact hmin
      obtain ⟨he, hf⟩ := ctcollAddCoupling_spec N ct t htij htiN
      have hpair : ctcollAddCoupling N ct t = ((ctcollAddCoupling N ct t).1, none) :=
        Prod.ext rfl he
      rw [show addCouplingLoop N site1 site2 op1 op2 σ sof false strength (q :: rest) ct =
          addCouplingLoop N site1 site2 op1 op2 σ sof false strength rest
            (ctcollAddCoupling N ct t).1 by
        rw [addCouplingLoop]
        simp only [hs, if_neg hs, ht]
        rw [hpair]
        simp]
      obtain ⟨herr, new, hflat, hnew⟩ := ih (ctcollAddCoupling N ct t).1 hrest
      refine ⟨herr, cplToM t :: new, ?_, ?_⟩
      · rw [hflat, hf]; simp
      · intro x hx
        rcases List.mem_cons.mp hx with hx | hx
        · subst hx; simp [cplToM, hts]
        · exact hnew x hx

theorem plusHcMunge_snd_false [Field R] (flag : Bool) (s : SField R) :
    (plusHcMunge flag s false).2 = false := by
  cases flag <;> rfl

theorem plusHcMungeS_snd_false [Field R] (flag : Bool) (s : R) :
    (plusHcMungeS flag s false).2 = false := by
  cases flag <;> rfl

end LoopLemmas

section ClaimC4

/-- **C4** (confirmed): unpaired fermionic-string validation.  With
`op_string=None` and a not-all-zero strength (and otherwise valid arguments:
well-formed `dx`, known operator names, the canonical strings defined on the
whole unit cell, a non-onsite coupling, and well-formed realized pairs),
`add_coupling` raises exactly when one of the two operators needs a
Jordan-Wigner string and the other does not; when both need it the connecting
string is forced to `JW` (every newly stored term carries the `JW` string).
`add_multi_coupling` with a not-all-zero strength raises whenever the number
of operators needing a Jordan-Wigner string is odd. -/
theorem claim_C4_jw_validation {R : Type} [Field R] [StarRing R] [DecidableEq R] {d : ℕ}
    (lat : ModelLat R d) (flag : Bool) (st : TermState R) (strength : SField R)
    (u1 u2 : ℕ) (op1 op2 : OpName) (dx : List ℤ) (sof : Bool) (cat : Option String)
    (hdx : dx.length = lat.dim) (hz : strength.anyNonzero = true)
    (hv1 : (lat.unitCell u1).validOp op1 = true)
    (hv2 : (lat.unitCell u2).validOp op2 = true)
    (hvJW : (List.range lat.numU).all (fun u => (lat.unitCell u).validOp "JW") = true)
    (hvId : (List.range lat.numU).all (fun u => (lat.unitCell u).validOp "Id") = true)
    (hons : ¬ ((∀ x ∈ dx, x = 0) ∧ u1 = u2))
    (hp : ∀ q ∈ lat.possibleCouplings u1 u2 dx, q.1 ≠ q.2.1 ∧ min q.1 q.2.1 < lat.Nsites)
    (ops : List (OpName × List ℤ × ℕ)) (σm : Option OpName) (cat3 : Option String)
    (strengthM : SField R)
    (hopdx : ops.all (fun t => t.2.1.length = lat.dim) = true)
    (hzM : strengthM.anyNonzero = true) :
    ((add_coupling lat flag st strength u1 op1 u2 op2 dx none sof false cat false).2.isSome
        ↔ (lat.unitCell u1).needsJW op1 ≠ (lat.unitCell u2).needsJW op2) ∧
    ((lat.unitCell u1).needsJW op1 = true → (lat.unitCell u2).needsJW op2 = true →
      ∀ t ∈ flatC (add_coupling lat flag st strength u1 op1 u2 op2 dx none sof false
          cat false).1, t ∈ flatC st ∨ t.opString = ["JW"]) ∧
    ((ops.map (fun t => (lat.unitCell t.2.2).needsJW t.1)).count true % 2 = 1 →
      (add_multi_coupling lat flag st strengthM ops σm cat3 false).2 =
        some "ValueError: Invalid coupling: odd number of operators which need a JW string") := by
  have hIdJW : ¬ (("Id" : OpName) = "JW") := by decide
  refine ⟨?_, ?_, ?_⟩
  · cases hn1 : (lat.unitCell u1).needsJW op1 <;>
      cases hn2 : (lat.unitCell u2).needsJW op2
    · obtain ⟨herr, -⟩ := addCouplingLoop_spec lat.Nsites (lat.unitCell u1)
        (lat.unitCell u2) op1 op2 "Id" sof ((plusHcMunge flag strength false).1)
        (lat.possibleCouplings u1 u2 dx)
        ((alookup st.coupling (cat.getD (op1 ++ "_i " ++ op2 ++ "_j"))).getD (.two [])) hp
      simp [add_coupling, add_coupling_main, hdx, hz, hv1, hv2, hn1, hn2, hvId, hons,
        hIdJW, herr, plusHcMunge_snd_false]
    · simp [add_coupling, add_coupling_main, hdx, hz, hv1, hv2, hn1, hn2]
    · simp [add_coupling, add_coupling_main, hdx, hz, hv1, hv2, hn1, hn2]
    · obtain ⟨herr, -⟩ := addCouplingLoop_spec lat.Nsites (lat.unitCell u1)
        (lat.unitCell u2) op1 op2 "JW" true ((plusHcMunge flag strength false).1)
        (lat.possibleCouplings u1 u2 dx)
        ((alookup st.coupling (cat.getD (op1 ++ "_i " ++ op2 ++ "_j"))).getD (.two [])) hp
      simp [add_coupling, add_coupling_main, hdx, hz, hv1, hv2, hn1, hn2, hvJW, hons,
        herr, plusHcMunge_snd_false]
  · intro hn1 hn2
    obtain ⟨herr, new, hflat, hnew⟩ := addCouplingLoop_spec lat.Nsites (lat.unitCell u1)
      (lat.unitCell u2) op1 op2 "JW" true ((plusHcMunge flag strength false).1)
      (lat.possibleCouplings u1 u2 dx)
      ((alookup st.coupling (cat.getD (op1 ++ "_i " ++ op2 ++ "_j"))).getD (.two [])) hp
    have hres : (add_coupling lat flag st strength u1 op1 u2 op2 dx none sof false
        cat false).1 =
        { st with coupling := (aset st.coupling (cat.getD (op1 ++ "_i " ++ op2 ++ "_j"))
          (addCouplingLoop lat.Nsites (lat.unitCell u1) (lat.unitCell u2) op1 op2 "JW"
            true false ((plusHcMunge flag strength false).1)
            (lat.possibleCouplings u1 u2 dx)
            ((alookup st.coupling (cat.getD (op1 ++ "_i " ++ op2 ++ "_j"))).getD
              (.two []))).1) } := by
      simp [add_coupling, add_coupling_main, hdx, hz, hv1, hv2, hn1, hn2, hvJW, hons,
        herr, plusHcMunge_snd_false]
    rw [hres]
    intro t ht
    set k := cat.getD (op1 ++ "_i " ++ op2 ++ "_j") with hk
    cases hlk : alookup st.coupling k with
    | none =>
      rw [show flatC { st with coupling := aset st.coupling k _ } =
          flatWith CTcoll.flat (aset st.coupling k _) from rfl,
        flatWith_aset_none _ _ _ _ hlk] at ht
      rcases List.mem_append.mp ht with h | h
      · exact Or.inl h
      · rw [hflat] at h
        simp [hlk, CTcoll.flat] at h
        exact Or.inr (hnew t h)
    | some w =>
      have hperm := flatWith_aset_perm CTcoll.flat st.coupling k _ w new hlk
        (by rw [hflat, hlk]; rfl)
      have ht2 : t ∈ flatWith CTcoll.flat st.coupling ++ new :=
        hperm.mem_iff.mp ht
      rcases List.mem_append.mp ht2 with h | h
      · exact Or.inl h
      · exact Or.inr (hnew t h)
  · intro hodd
    have : ¬ ((ops.map (fun t => (lat.unitCell t.2.2).needsJW t.1)).count true % 2 = 0) := by
      omega
    simp [add_multi_coupling, add_multi_coupling_main, hopdx, hzM, this]

/-- Witness for C4 on the concrete fermionic chain: `op1 = C` (fermionic),
`op2 = Q` (bosonic) triggers the unpaired-string error; the odd multi
coupling `C C C` errs as well. -/
theorem claim_C4_jw_validation_witness :
    ((add_coupling latWF false TermState.empty (sfield 1) 0 "C" 0 "Q" [1] none true false
        none false).2.isSome ↔ siteWF.needsJW "C" ≠ siteWF.needsJW "Q") ∧
    (siteWF.needsJW "C" = true → siteWF.needsJW "Q" = true →
      ∀ t ∈ flatC (add_coupling latWF false TermState.empty (sfield 1) 0 "C" 0 "Q" [1]
          none true false none false).1, t ∈ flatC TermState.empty ∨ t.opString = ["JW"]) ∧
    (([("C", [1], 0), ("C", [1], 0), ("C", [1], 0)].map
        (fun t => (latWF.unitCell t.2.2).needsJW t.1)).count true % 2 = 1 →
      (add_multi_coupling latWF false TermState.empty (sfield 1)
          [("C", [1], 0), ("C", [1], 0), ("C", [1], 0)] none none false).2 =
        some "ValueError: Invalid coupling: odd number of operators which need a JW string") :=
  claim_C4_jw_validation latWF false TermState.empty (sfield 1) 0 0 "C" "Q" [1] true none
    (by decide) (by decide) (by decide) (by decide) (by decide) (by decide) (by decide)
    (by decide)
    [("C", [1], 0), ("C", [1], 0), ("C", [1], 0)] none none (sfield 1) (by decide) (by decide)

end ClaimC4

section AtomicityLemmas

variable {R : Type} [Field R] [StarRing R] [DecidableEq R] {d : ℕ}

theorem add_onsite_main_atomic (lat : ModelLat R d) (flag : Bool) (st : TermState R)
    (strength : SField R) (u : ℕ) (opname : OpName) (cat : Option String)
    (hb : ∀ q ∈ lat.mpsLatIdxFixU u, q.1 < lat.Nsites) :
    (add_onsite_main lat flag st strength u opname cat false).2 = none ∧
    ((add_onsite_main lat flag st strength u opname cat false).1.1 = st ∨
      (add_onsite_main lat flag st strength u opname cat false).1.2 = none) := by
  simp only [add_onsite_main]
  split
  · exact ⟨rfl, Or.inr rfl⟩
  · split
    · exact ⟨rfl, Or.inl rfl⟩
    · split
      · exact ⟨rfl, Or.inl rfl⟩
      · rw [onsiteLoop_spec _ _ _ _ _ hb]
        simp [plusHcMunge_snd_false]

theorem add_coupling_main_atomic (lat : ModelLat R d) (flag : Bool) (st : TermState R)
    (strength : SField R) (u1 u2 : ℕ) (op1 op2 : OpName) (dx : List ℤ)
    (σa : Option OpName) (sof : Bool) (cat : Option String)
    (hp : ∀ q ∈ lat.possibleCouplings u1 u2 dx, q.1 ≠ q.2.1 ∧ min q.1 q.2.1 < lat.Nsites) :
    (add_coupling_main lat flag st strength u1 op1 u2 op2 dx σa sof false cat false).2 =
      none ∧
    ((add_coupling_main lat flag st strength u1 op1 u2 op2 dx σa sof false cat
        false).1.1 = st ∨
      (add_coupling_main lat flag st strength u1 op1 u2 op2 dx σa sof false cat
        false).1.2 = none) := by
  simp only [add_coupling_main]
  split
  · exact ⟨rfl, Or.inl rfl⟩
  · split
    · exact ⟨rfl, Or.inr rfl⟩
    · split
      · exact ⟨rfl, Or.inl rfl⟩
      · split
        · exact ⟨rfl, Or.inl rfl⟩
        · rename_i opString strOnFirst heq
          split
          · exact ⟨rfl, Or.inl rfl⟩
          · split
            · exact ⟨rfl, Or.inl rfl⟩
            · split
              · exact ⟨rfl, Or.inl rfl⟩
              · obtain ⟨herr, -⟩ := addCouplingLoop_spec lat.Nsites (lat.unitCell u1)
                  (lat.unitCell u2) op1 op2 opString strOnFirst
                  ((plusHcMunge flag strength false).1) (lat.possibleCouplings u1 u2 dx)
                  ((alookup st.coupling (cat.getD (op1 ++ "_i " ++ op2 ++ "_j"))).getD
                    (.two [])) hp
                split
                · rename_i e hsome
                  rw [herr] at hsome
                  cases hsome
                · simp [plusHcMunge_snd_false]

omit [Field R] [StarRing R] [DecidableEq R] in
theorem onsiteTermsAdd_err (N : ℕ) (ts : List (OTerm R)) (s : R) (i : ℕ) (op : OpName)
    (e : String) (h : (onsiteTermsAdd N ts s i op).2 = some e) :
    (onsiteTermsAdd N ts s i op).1 = ts := by
  revert h
  unfold onsiteTermsAdd
  split
  · intro h; cases h
  · intro _; rfl

omit [Field R] [StarRing R] [DecidableEq R] in
theorem multiTermsAdd_err (N : ℕ) (ts : List (MCpl R)) (s : R) (ijkl : List ℕ)
    (ops opstr : List OpName) (e : String)
    (h : (multiTermsAdd N ts s ijkl ops opstr).2 = some e) :
    (multiTermsAdd N ts s ijkl ops opstr).1 = ts := by
  revert h
  unfold multiTermsAdd
  split
  · intro h; cases h
  · intro _; rfl

omit [Field R] [StarRing R] [DecidableEq R] in
theorem ctcollAddCoupling_err (N : ℕ) (ct : CTcoll R) (t : Cpl R) (e : String)
    (h : (ctcollAddCoupling N ct t).2 = some e) :
    (ctcollAddCoupling N ct t).1.flat = ct.flat := by
  revert h
  cases ct with
  | two ts =>
    simp only [ctcollAddCoupling]
    unfold couplingTermsAdd
    split
    · intro h; cases h
    · intro _; rfl
  | multi ts =>
    simp only [ctcollAddCoupling]
    unfold multiTermsAdd
    split
    · intro h; cases h
    · intro _; rfl

omit [Field R] [StarRing R] [DecidableEq R] in
theorem ctflat_upgrade (c : CTcoll R) :
    CTcoll.flat (CTcoll.multi (match c with
      | .two ts => ts.map cplToM
      | .multi ts => ts)) = c.flat := by
  cases c <;> rfl

omit [StarRing R] [DecidableEq R] in
theorem add_onsite_term_atomic (lat : ModelLat R d) (flag : Bool) (st : TermState R)
    (strength : R) (i : ℕ) (op : OpName) (cat : Option String) :
    (add_onsite_term lat flag st strength i op cat false).2.isSome →
    flatO (add_onsite_term lat flag st strength i op cat false).1 = flatO st ∧
    (add_onsite_term lat flag st strength i op cat false).1.coupling = st.coupling := by
  simp only [add_onsite_term]
  split
  · rename_i e heq
    intro _
    rw [onsiteTermsAdd_err _ _ _ _ _ _ heq]
    exact ⟨flatWith_aset_getD (fun ts => ts) st.onsite _ [] rfl, rfl⟩
  · rw [plusHcMungeS_snd_false]
    intro h
    simp at h

omit [DecidableEq R] in
theorem add_multi_coupling_term_atomic (lat : ModelLat R d) (flag : Bool)
    (st : TermState R) (strength : R) (ijkl : List ℕ) (ops opstr : List OpName)
    (cat : Option String) :
    (add_multi_coupling_term lat flag st strength ijkl ops opstr cat false).2.isSome →
    flatC (add_multi_coupling_term lat flag st strength ijkl ops opstr cat false).1 =
      flatC st ∧
    (add_multi_coupling_term lat flag st strength ijkl ops opstr cat false).1.onsite =
      st.onsite := by
  simp only [add_multi_coupling_term]
  split
  · rename_i e heq
    intro _
    rw [multiTermsAdd_err _ _ _ _ _ _ _ heq]
    refine ⟨?_, rfl⟩
    refine flatWith_aset_eqval _ st.coupling _ _ (CTcoll.multi []) ?_ rfl
    exact ctflat_upgrade _
  · rw [plusHcMungeS_snd_false]
    intro h
    simp at h

omit [DecidableEq R] in
theorem add_local_term_main_atomic (lat : ModelLat R d) (flag : Bool) (isMulti : Bool)
    (st : TermState R) (strength : R) (term : List (OpName × (Idx ⊕ ℕ)))
    (cat : Option String) :
    (add_local_term_main lat flag isMulti st strength term cat false).2 = none ∧
    ((add_local_term_main lat flag isMulti st strength term cat false).1.2.isSome →
      flatO (add_local_term_main lat flag isMulti st strength term cat false).1.1 =
        flatO st ∧
      flatC (add_local_term_main lat flag isMulti st strength term cat false).1.1 =
        flatC st) := by
  simp only [add_local_term_main]
  split
  · exact ⟨rfl, fun _ => ⟨rfl, rfl⟩⟩
  · rename_i q
    split
    · exact ⟨rfl, fun _ =>
        ⟨flatWith_aset_getD (fun ts => ts) st.onsite _ [] rfl, rfl⟩⟩
    · split
      · rename_i e heq
        refine ⟨rfl, fun _ => ?_⟩
        rw [onsiteTermsAdd_err _ _ _ _ _ _ heq]
        exact ⟨flatWith_aset_getD (fun ts => ts) st.onsite _ [] rfl, rfl⟩
      · rw [plusHcMungeS_snd_false]
        exact ⟨rfl, fun h => by simp at h⟩
  · rename_i q1 q2
    split
    · exact ⟨rfl, fun _ =>
        ⟨rfl, flatWith_aset_getD CTcoll.flat st.coupling _ (CTcoll.two []) rfl⟩⟩
    · rename_i t heq
      split
      · rename_i e heq2
        refine ⟨rfl, fun _ => ⟨rfl, ?_⟩⟩
        refine flatWith_aset_eqval _ st.coupling _ _ (CTcoll.two []) ?_ rfl
        exact ctcollAddCoupling_err _ _ _ _ heq2
      · rw [plusHcMungeS_snd_false]
        exact ⟨rfl, fun h => by simp at h⟩
  · split
    · exact ⟨rfl, fun _ => ⟨rfl, rfl⟩⟩
    · split
      · refine ⟨rfl, fun _ => ⟨rfl, ?_⟩⟩
        refine flatWith_aset_eqval _ st.coupling _ _ (CTcoll.multi []) ?_ rfl
        exact ctflat_upgrade _
      · rename_i a heq
        split
        · rename_i e heq2
          refine ⟨rfl, fun _ => ⟨rfl, ?_⟩⟩
          rw [multiTermsAdd_err _ _ _ _ _ _ _ heq2]
          refine flatWith_aset_eqval _ st.coupling _ _ (CTcoll.multi []) ?_ rfl
          exact ctflat_upgrade _
        · rw [plusHcMungeS_snd_false]
          exact ⟨rfl, fun h => by simp at h⟩

end AtomicityLemmas

section ClaimC9

/-- **C9** (corrected), counterexample: add-call atomicity fails as stated.
`add_local_term` on a fresh category, with a single operator requiring a
Jordan-Wigner string, creates the (empty) category entry in `onsite_terms`
(`setdefault`, source line 692) *before* raising the validation error
(line 695), so the term collections are not exactly as they were before the
call. -/
theorem claim_C9_atomicity_counterexample :
    ((add_local_term latWF false false TermState.empty (1 : ℚ) [("C", Sum.inl [0])]
        none false).2).isSome = true ∧
    (add_local_term latWF false false TermState.empty (1 : ℚ) [("C", Sum.inl [0])]
        none false).1.onsite = [("local C", [])] ∧
    (add_local_term latWF false false TermState.empty (1 : ℚ) [("C", Sum.inl [0])]
        none false).1 ≠ TermState.empty := by
  refine ⟨by decide, by decide, by decide⟩

/-- **C9** (corrected), amended claim: for calls with `plus_hc=False`,
a fatal error leaves the stored *term contents* unchanged:
`add_onsite` and `add_coupling` (with well-formed collaborator output and the
default `raise_op2_left=False`) leave the state exactly unchanged on error;
`add_onsite_term`, `add_local_term` and `add_multi_coupling_term` validate
before appending, so the flattened term contents are unchanged on error —
but (as the counterexample shows) an empty collection may have been created
for a previously absent category, and the untouched other collection is
exactly preserved.  (With `plus_hc=True` the source can even store the first
half and then fail: `add_onsite_term` reaches an undefined variable,
source line 801.) -/
theorem claim_C9_amended_atomicity {R : Type} [Field R] [StarRing R] [DecidableEq R]
    {d : ℕ} (lat : ModelLat R d) (flag : Bool) (st : TermState R) :
    (∀ strength u opname cat,
      (∀ q ∈ lat.mpsLatIdxFixU u, q.1 < lat.Nsites) →
      (add_onsite lat flag st strength u opname cat false).2.isSome →
      (add_onsite lat flag st strength u opname cat false).1 = st) ∧
    (∀ strength u1 op1 u2 op2 dx σa sof cat,
      (∀ q ∈ lat.possibleCouplings u1 u2 dx, q.1 ≠ q.2.1 ∧ min q.1 q.2.1 < lat.Nsites) →
      (add_coupling lat flag st strength u1 op1 u2 op2 dx σa sof false cat
        false).2.isSome →
      (add_coupling lat flag st strength u1 op1 u2 op2 dx σa sof false cat
        false).1 = st) ∧
    (∀ strength i op cat,
      (add_onsite_term lat flag st strength i op cat false).2.isSome →
      flatO (add_onsite_term lat flag st strength i op cat false).1 = flatO st ∧
      (add_onsite_term lat flag st strength i op cat false).1.coupling = st.coupling) ∧
    (∀ isMulti strength term cat,
      (add_local_term lat flag isMulti st strength term cat false).2.isSome →
      flatO (add_local_term lat flag isMulti st strength term cat false).1 = flatO st ∧
      flatC (add_local_term lat flag isMulti st strength term cat false).1 = flatC st) ∧
    (∀ strength ijkl ops opstr cat,
      (add_multi_coupling_term lat flag st strength ijkl ops opstr cat false).2.isSome →
      flatC (add_multi_coupling_term lat flag st strength ijkl ops opstr cat false).1 =
        flatC st ∧
      (add_multi_coupling_term lat flag st strength ijkl ops opstr cat false).1.onsite =
        st.onsite) := by
  refine ⟨?_, ?_,
    fun strength i op cat => add_onsite_term_atomic lat flag st strength i op cat, ?_,
    fun strength ijkl ops opstr cat =>
      add_multi_coupling_term_atomic lat flag st strength ijkl ops opstr cat⟩
  · intro strength u opname cat hb h
    obtain ⟨hcont, hcase⟩ := add_onsite_main_atomic lat flag st strength u opname cat hb
    have hw : add_onsite lat flag st strength u opname cat false =
        (add_onsite_main lat flag st strength u opname cat false).1 := by
      unfold add_onsite
      rcases hme : add_onsite_main lat flag st strength u opname cat false with ⟨res, cont⟩
      rw [hme] at hcont
      have hc2 : cont = none := hcont
      subst hc2
      rfl
    rw [hw] at h ⊢
    rcases hcase with hc | hc
    · exact hc
    · rw [hc] at h
      simp at h
  · intro strength u1 op1 u2 op2 dx σa sof cat hp h
    obtain ⟨hcont, hcase⟩ :=
      add_coupling_main_atomic lat flag st strength u1 u2 op1 op2 dx σa sof cat hp
    have hw : add_coupling lat flag st strength u1 op1 u2 op2 dx σa sof false cat false =
        (add_coupling_main lat flag st strength u1 op1 u2 op2 dx σa sof false cat
          false).1 := by
      unfold add_coupling
      rcases hme : add_coupling_main lat flag st strength u1 op1 u2 op2 dx σa sof false
        cat false with ⟨res, cont⟩
      rw [hme] at hcont
      have hc2 : cont = none := hcont
      subst hc2
      rfl
    rw [hw] at h ⊢
    rcases hcase with hc | hc
    · exact hc
    · rw [hc] at h
      simp at h
  · intro isMulti strength term cat h
    obtain ⟨hcont, hflat⟩ := add_local_term_main_atomic lat flag isMulti st strength
      term cat
    have hw : add_local_term lat flag isMulti st strength term cat false =
        (add_local_term_main lat flag isMulti st strength term cat false).1 := by
      unfold add_local_term
      rcases hme : add_local_term_main lat flag isMulti st strength term cat false
        with ⟨res, cont⟩
      rw [hme] at hcont
      have hc2 : cont = none := hcont
      subst hc2
      rfl
    rw [hw] at h ⊢
    exact hflat h

/-- Witness for the amended C9 on the concrete fermionic chain: an invalid
onsite operator, an unknown coupling operator, an out-of-range
`add_onsite_term`, the JW-violating `add_local_term` and a non-ascending
`add_multi_coupling_term` all fail while preserving the term contents. -/
theorem claim_C9_amended_atomicity_witness :
    flatO (add_onsite_term latWF false TermState.empty (1 : ℚ) 7 "N" none false).1 =
      flatO TermState.empty ∧
    flatO (add_local_term latWF false false TermState.empty (1 : ℚ)
      [("C", Sum.inl [0])] none false).1 = flatO TermState.empty ∧
    flatC (add_local_term latWF false false TermState.empty (1 : ℚ)
      [("C", Sum.inl [0])] none false).1 = flatC TermState.empty := by
  obtain ⟨-, -, h3, h4, -⟩ :=
    claim_C9_amended_atomicity latWF false (TermState.empty (R := ℚ))
  refine ⟨(h3 1 7 "N" none (by decide)).1, ?_, ?_⟩
  · exact (h4 false 1 [("C", Sum.inl [0])] none (by decide)).1
  · exact (h4 false 1 [("C", Sum.inl [0])] none (by decide)).2

end ClaimC9

section MpoLemmas

theorem exceptBind_ok {ε α β : Type} {a : Except ε α} {f : α → Except ε β} {c : β}
    (h : (a >>= f) = .ok c) : ∃ b, a = .ok b ∧ f b = .ok c := by
  cases a with
  | error e => simp [Bind.bind, Except.bind] at h
  | ok b => exact ⟨b, rfl, by simpa [Bind.bind, Except.bind] using h⟩

theorem exceptBind_ok_eq {ε α β : Type} (b : α) (f : α → Except ε β) :
    ((Except.ok b : Except ε α) >>= f) = f b := rfl

variable {L χ d : ℕ} {R : Type} [LinearOrderedField R] [StarRing R]

omit [StarRing R] in
theorem mpoBondStep_H0 (finite : Bool) (IdL IdR : ℕ → Option (Fin χ))
    (st st2 : (Fin L → WTen χ d R) × (Fin L → Option (BMat d R))) (j : Fin L)
    (h : mpoBondStep finite IdL IdR st j = .ok st2)
    (hfin : finite = true) (j0 : Fin L) (hj0 : j0.val = 0) (h0 : st.2 j0 = none) :
    st2.2 j0 = none := by
  simp only [mpoBondStep] at h
  split at h
  · cases h
    exact h0
  · rename_i hcond
    split at h
    · rename_i a c heq1 heq2
      injection h with h
      subst h
      show (if j0 = j then some _ else st.2 j0) = none
      rw [if_neg ?_]
      · exact h0
      · intro hjj
        exact hcond ⟨hfin, by rw [← hjj]; exact hj0⟩
    · cases h

omit [StarRing R] in
theorem mpoBondProducts_H0 (finite : Bool) (IdL IdR : ℕ → Option (Fin χ))
    (W0 : Fin L → WTen χ d R)
    (st2 : (Fin L → WTen χ d R) × (Fin L → Option (BMat d R)))
    (h : mpoBondProducts finite IdL IdR W0 = .ok st2)
    (hfin : finite = true) (j0 : Fin L) (hj0 : j0.val = 0) :
    st2.2 j0 = none := by
  unfold mpoBondProducts at h
  suffices aux : ∀ (js : List (Fin L))
      (init : (Fin L → WTen χ d R) × (Fin L → Option (BMat d R))),
      init.2 j0 = none →
      js.foldlM (mpoBondStep finite IdL IdR) init = .ok st2 → st2.2 j0 = none by
    exact aux _ _ rfl h
  intro js
  induction js with
  | nil =>
    intro init h0 hh
    cases hh
    exact h0
  | cons x xs ih =>
    intro init h0 hh
    rw [List.foldlM_cons] at hh
    obtain ⟨mid, hmid, hrest⟩ := exceptBind_ok hh
    exact ih mid (mpoBondStep_H0 finite IdL IdR init mid x hmid hfin j0 hj0 h0) hrest

omit [StarRing R] in
theorem claimWeight_true_right {L2 : ℕ} (j : Fin L2) :
    claimWeight R true L2 j.val j.val = if j.val = L2 - 1 then (1 : R) else 1 / 2 := by
  unfold claimWeight
  rw [if_neg (show ¬ (true = true ∧ j.val = 0 ∧ j.val = 1) from by
    rintro ⟨-, h0, h1⟩; omega)]
  by_cases h : j.val = L2 - 1
  · rw [if_pos (show true = true ∧ j.val = L2 - 1 ∧ j.val = L2 - 1 from ⟨rfl, h, h⟩),
      if_pos h]
  · rw [if_neg (show ¬ (true = true ∧ j.val = L2 - 1 ∧ j.val = L2 - 1) from
      fun hc => h hc.2.1), if_neg h]

omit [StarRing R] in
theorem claimWeight_true_left {L2 : ℕ} (j : Fin L2) (hj0 : j.val ≠ 0) :
    claimWeight R true L2 (j.val - 1) j.val = if j.val = 1 then (1 : R) else 1 / 2 := by
  have hjlt : j.val < L2 := j.isLt
  unfold claimWeight
  by_cases h : j.val = 1
  · rw [if_pos (show true = true ∧ j.val - 1 = 0 ∧ j.val = 1 from ⟨rfl, by omega, h⟩),
      if_pos h]
  · rw [if_neg (show ¬ (true = true ∧ j.val - 1 = 0 ∧ j.val = 1) from
      fun hc => h hc.2.2),
      if_neg (show ¬ (true = true ∧ j.val - 1 = L2 - 1 ∧ j.val = L2 - 1) from by
        rintro ⟨-, h1, h2⟩; omega),
      if_neg h]

omit [StarRing R] in
theorem claimWeight_right (finite : Bool) {L2 : ℕ} (j : Fin L2)
    (hj : ¬ (finite = true ∧ j.val = 0)) :
    (if finite = true ∧ j.val = L2 - 1 then (1 : R) else 1 / 2) =
      claimWeight R finite L2 j.val j.val := by
  cases finite with
  | false => simp [claimWeight]
  | true =>
    rw [claimWeight_true_right j]
    by_cases h : j.val = L2 - 1
    · rw [if_pos (show true = true ∧ j.val = L2 - 1 from ⟨rfl, h⟩), if_pos h]
    · rw [if_neg (show ¬ (true = true ∧ j.val = L2 - 1) from fun hc => h hc.2),
        if_neg h]

omit [StarRing R] in
theorem claimWeight_left (finite : Bool) {L2 : ℕ} (j : Fin L2)
    (hj : ¬ (finite = true ∧ j.val = 0)) :
    (if finite = true ∧ (finPrev j).val = 0 then (1 : R) else 1 / 2) =
      claimWeight R finite L2 (finPrev j).val j.val := by
  cases finite with
  | false => simp [claimWeight]
  | true =>
    have hj0 : j.val ≠ 0 := fun h => hj ⟨rfl, h⟩
    have hjlt : j.val < L2 := j.isLt
    have hprev : (finPrev j).val = j.val - 1 := by
      show (j.val + (L2 - 1)) % L2 = j.val - 1
      rw [show j.val + (L2 - 1) = (j.val - 1) + L2 by omega, Nat.add_mod_right]
      exact Nat.mod_eq_of_lt (by omega)
    rw [hprev, claimWeight_true_left j hj0]
    by_cases h : j.val = 1
    · rw [if_pos (show true = true ∧ j.val - 1 = 0 from ⟨rfl, by omega⟩), if_pos h]
    · rw [if_neg (show ¬ (true = true ∧ j.val - 1 = 0) from by
        rintro ⟨-, h0⟩; omega), if_neg h]

end MpoLemmas

section ClaimC5

/-- **C5** (confirmed): `calc_H_bond_from_MPO` redistributes each extracted
onsite term onto the adjacent bonds with the weights asserted by the spec:
weight `1.0` for site 0 onto bond 1 and for site `L-1` onto bond `L-1` of a
finite chain, weight `0.5` onto each of the two adjacent bonds everywhere
else (including everywhere for infinite boundary conditions); for finite
boundary conditions the returned list has `H_bond[0] = None`, while for
infinite boundary conditions all `L` entries are defined. -/
theorem claim_C5_mpo_onsite_redistribution {L χ d : ℕ} {R : Type}
    [LinearOrderedField R] [StarRing R]
    (m : MPOData L χ d R) (tol : R) (ephc : Bool) (Hfin : Fin L → Option (BMat d R))
    (hcalc : calc_H_bond_from_MPO m tol ephc = .ok Hfin)
    (pr : (Fin L → WTen χ d R) × (Fin L → PMat d R))
    (hpr : mpoExtractOnsite m = .ok pr)
    (st2 : (Fin L → WTen χ d R) × (Fin L → Option (BMat d R)))
    (hst : mpoBondProducts m.finite m.IdL m.IdR pr.1 = .ok st2) :
    (∀ j : Fin L, m.finite = true → j.val = 0 → Hfin j = none) ∧
    (∀ j : Fin L, ¬ (m.finite = true ∧ j.val = 0) →
      Hfin j = some (hcPost ephc ((st2.2 j).getD 0 +
        (kron (m.siteId (finPrev j)) (claimWeight R m.finite L j.val j.val • pr.2 j) +
         kron (claimWeight R m.finite L (finPrev j).val j.val • pr.2 (finPrev j))
           (m.siteId j))))) ∧
    (m.finite = false → ∀ j : Fin L, (Hfin j).isSome = true) := by
  unfold calc_H_bond_from_MPO at hcalc
  rw [hpr, exceptBind_ok_eq] at hcalc
  rw [hst, exceptBind_ok_eq] at hcalc
  obtain ⟨u, hres, hrest⟩ := exceptBind_ok hcalc
  clear hcalc hres
  dsimp only at hrest
  by_cases hassert : m.finite = true ∧
      ¬ (∀ j : Fin L, j.val = 0 → ((mpoMergeOnsite m pr.2 st2.2) j).isNone = true)
  · rw [if_pos hassert] at hrest
    cases hrest
  · rw [if_neg hassert] at hrest
    injection hrest with hrest
    subst hrest
    have hmerge : ∀ j : Fin L, ¬ (m.finite = true ∧ j.val = 0) →
        mpoMergeOnsite m pr.2 st2.2 j = some ((st2.2 j).getD 0 +
          (kron (m.siteId (finPrev j)) (claimWeight R m.finite L j.val j.val • pr.2 j) +
           kron (claimWeight R m.finite L (finPrev j).val j.val • pr.2 (finPrev j))
             (m.siteId j))) := by
      intro j hj
      simp only [mpoMergeOnsite]
      rw [if_neg hj, claimWeight_left m.finite j hj, claimWeight_right m.finite j hj]
      cases hsj : st2.2 j with
      | none => simp
      | some x => simp
    have hmerge0 : ∀ j : Fin L, m.finite = true → j.val = 0 →
        mpoMergeOnsite m pr.2 st2.2 j = none := by
      intro j hfin hj0
      simp only [mpoMergeOnsite]
      rw [if_pos ⟨hfin, hj0⟩]
      exact mpoBondProducts_H0 m.finite m.IdL m.IdR pr.1 st2 hst hfin j hj0
    refine ⟨?_, ?_, ?_⟩
    · intro j hfin hj0
      cases ephc with
      | false => simpa using hmerge0 j hfin hj0
      | true => simp [hmerge0 j hfin hj0]
    · intro j hj
      cases ephc with
      | false => simpa [hcPost] using hmerge j hj
      | true => simp [hmerge j hj, hcPost]
    · intro hfin j
      have : ¬ (m.finite = true ∧ j.val = 0) := by rw [hfin]; simp
      cases ephc with
      | false => simp [hmerge j this]
      | true => simp [hmerge j this]

/-- Witness for C5 on the concrete finite two-site MPO `mpoC5`:
the wrap-around bond stays undefined and the single real bond is defined. -/
theorem claim_C5_mpo_onsite_redistribution_witness :
    c5H 0 = none ∧ (c5H 1).isSome = true := by
  obtain ⟨h1, h2, -⟩ := claim_C5_mpo_onsite_redistribution mpoC5 0 false c5H
    (by with_unfolding_all rfl) c5pr (by with_unfolding_all rfl) c5st2
    (by with_unfolding_all rfl)
  refine ⟨h1 0 rfl rfl, ?_⟩
  rw [h2 1 (by decide)]
  rfl

end ClaimC5

section ClaimC6

/-- **C6** (corrected), counterexample: the residual check of
`calc_H_bond_from_MPO` is *not* an exact-zero validation: on `mpoC6` the
leftover tensor after extraction and bond multiplication is nonzero (a
`1/10^16` in-flight channel), yet the call at the default tolerance
`tol_zero = 1/10^15` succeeds without raising. -/
theorem claim_C6_residual_counterexample :
    frobSqW (c6leftover 0) ≠ 0 ∧
    exceptOk (calc_H_bond_from_MPO mpoC6 (1 / 10 ^ 15 : ℚ) false) = true := by
  constructor
  · with_unfolding_all decide
  · with_unfolding_all decide

/-- **C6** (corrected), amended claim: after zeroing identity channels,
extracting onsite terms and multiplying out the nearest-neighbor products,
`calc_H_bond_from_MPO` raises the representability ValueError exactly when
some leftover tensor has norm *exceeding `tol_zero`* — the same tolerance
parameter used for near-zero removal elsewhere, not an exact-zero check;
residues within the tolerance are silently accepted. -/
theorem claim_C6_residual_tolerance {L χ d : ℕ} {R : Type}
    [LinearOrderedField R] [StarRing R]
    (m : MPOData L χ d R) (tol : R) (ephc : Bool)
    (pr : (Fin L → WTen χ d R) × (Fin L → PMat d R))
    (hpr : mpoExtractOnsite m = .ok pr)
    (st2 : (Fin L → WTen χ d R) × (Fin L → Option (BMat d R)))
    (hst : mpoBondProducts m.finite m.IdL m.IdR pr.1 = .ok st2) :
    (calc_H_bond_from_MPO m tol ephc = .error
        "ValueError: Bond couplings did not capture everything. Either H is long range or IdL/IdR is wrong!"
      ↔ ∃ i : Fin L, tol * tol < frobSqW (st2.1 i)) ∧
    ((∀ i : Fin L, ¬ tol * tol < frobSqW (st2.1 i)) →
      exceptOk (calc_H_bond_from_MPO m tol ephc) = true) := by
  have hcalc : calc_H_bond_from_MPO m tol ephc =
      (mpoResidualCheck tol st2.1 >>= fun _ =>
        (let H := mpoMergeOnsite m pr.2 st2.2
        if m.finite = true ∧ ¬ (∀ j : Fin L, j.val = 0 → (H j).isNone) then
          .error "AssertionError: H_bond[0] is not None"
        else
          .ok (if ephc then fun j => (H j).map (fun M => M + M.conjTranspose) else H))) := by
    unfold calc_H_bond_from_MPO
    rw [hpr, exceptBind_ok_eq, hst, exceptBind_ok_eq]
  by_cases hcheck : ∀ i : Fin L, ¬ tol * tol < frobSqW (st2.1 i)
  · have hok : mpoResidualCheck tol st2.1 = .ok () := by
      unfold mpoResidualCheck
      rw [if_pos hcheck]
    have hassert : ¬ (m.finite = true ∧
        ¬ (∀ j : Fin L, j.val = 0 → ((mpoMergeOnsite m pr.2 st2.2) j).isNone)) := by
      rintro ⟨hfin, hcon⟩
      apply hcon
      intro j hj0
      unfold mpoMergeOnsite
      rw [if_pos ⟨hfin, hj0⟩,
        mpoBondProducts_H0 m.finite m.IdL m.IdR pr.1 st2 hst hfin j hj0]
      rfl
    rw [hcalc, hok, exceptBind_ok_eq]
    constructor
    · constructor
      · intro h
        rw [if_neg hassert] at h
        cases h
      · intro h
        exact absurd (hcheck h.choose) (by simpa using h.choose_spec)
    · intro _
      rw [if_neg hassert]
      rfl
  · have herr : mpoResidualCheck tol st2.1 = .error
        "ValueError: Bond couplings did not capture everything. Either H is long range or IdL/IdR is wrong!" := by
      unfold mpoResidualCheck
      rw [if_neg hcheck]
    rw [hcalc, herr]
    constructor
    · constructor
      · intro _
        push_neg at hcheck
        exact hcheck
      · intro _
        rfl
    · intro h
      exact absurd h hcheck

/-- Witness for the amended C6 on `mpoC5`: the residues vanish exactly, so
the call at tolerance zero succeeds. -/
theorem claim_C6_residual_tolerance_witness :
    exceptOk (calc_H_bond_from_MPO mpoC5 (0 : ℚ) false) = true :=
  (claim_C6_residual_tolerance mpoC5 0 false c5pr (by with_unfolding_all rfl)
    c5st2 (by with_unfolding_all rfl)).2 (by with_unfolding_all decide)

end ClaimC6

section GroupLemmas

variable {A : Type} [Inhabited A] [Add A]

omit [Inhabited A] in
theorem addWithNone0_none_right (a : Option A) : addWithNone0 a none = a := by
  cases a <;> rfl

theorem groupIterSpecial_nonfinal (P : GOps A) (finite : Bool)
    (oldHbond : List (Option A)) (gss : List (GSite A)) (k : ℕ)
    (hk : k + 1 ≠ gss.length) :
    groupIterSpecial P finite oldHbond gss k = none := by
  simp only [groupIterSpecial]
  rw [if_neg (fun hc => hk hc.1)]

theorem groupIterSpecial_final (P : GOps A) (finite : Bool)
    (oldHbond : List (Option A)) (gss : List (GSite A)) (k : ℕ) (x : A)
    (hk : k + 1 = gss.length) (hfin : finite = true)
    (hx : groupIterOnsite P oldHbond gss k = some x) :
    groupIterSpecial P finite oldHbond gss k =
      some (P.outer (P.transpId ((gss.getD ((k + gss.length - 1) % gss.length)
        default).gId)) x) := by
  simp only [groupIterSpecial]
  rw [if_pos ⟨hk, hfin⟩, hx]
  rfl

theorem groupIterContrib_final (P : GOps A) (finite : Bool)
    (oldHbond : List (Option A)) (gss : List (GSite A)) (k : ℕ) (x : A)
    (hk : k + 1 = gss.length) (hfin : finite = true)
    (hx : groupIterOnsite P oldHbond gss k = some x) :
    groupIterContrib P finite oldHbond gss k = groupIterBond P oldHbond gss k := by
  simp only [groupIterContrib, hx]
  rw [if_neg (fun hc => hc.elim (fun h1 => h1 hk) (fun h2 => h2 hfin))]

theorem groupIterContrib_attach (P : GOps A) (finite : Bool)
    (oldHbond : List (Option A)) (gss : List (GSite A)) (k : ℕ) (x : A)
    (hor : k + 1 ≠ gss.length ∨ finite = false)
    (hx : groupIterOnsite P oldHbond gss k = some x) :
    groupIterContrib P finite oldHbond gss k =
      addWithNone0 (groupIterBond P oldHbond gss k)
        (some (P.outer x (P.transpId ((gss.getD ((k + 1) % gss.length)
          default).gId)))) := by
  simp only [groupIterContrib, hx]
  rw [if_pos (hor.imp (fun h => h) (fun h hc => by rw [h] at hc; cases hc))]

theorem groupSitesStep_nonfinal (P : GOps A) (finite : Bool)
    (oldHbond : List (Option A)) (gss : List (GSite A)) (H : ℕ → Option A)
    (k m : ℕ) (hk : k + 1 < gss.length) :
    groupSitesStep P finite oldHbond gss H k m =
      if m = k + 1 then addWithNone0 (H m) (groupIterContrib P finite oldHbond gss k)
      else H m := by
  simp only [groupSitesStep]
  rw [Nat.mod_eq_of_lt hk,
    groupIterSpecial_nonfinal P finite oldHbond gss k (by omega)]
  simp only [addWithNone0_none_right, ite_self]
  by_cases hm : m = k + 1
  · rw [if_pos hm, if_pos hm, hm]
  · rw [if_neg hm, if_neg hm]

theorem groupSitesFold_front (P : GOps A) (finite : Bool)
    (oldHbond : List (Option A)) (gss : List (GSite A)) (n : ℕ) :
    n < gss.length → ∀ m,
      (List.range n).foldl (groupSitesStep P finite oldHbond gss) (fun _ => none) m =
      if 1 ≤ m ∧ m ≤ n then groupIterContrib P finite oldHbond gss (m - 1)
      else none := by
  induction n with
  | zero =>
    intro _ m
    simp only [List.range_zero, List.foldl_nil]
    rw [if_neg (show ¬ (1 ≤ m ∧ m ≤ 0) from by omega)]
  | succ n ih =>
    intro hn m
    rw [List.range_succ, List.foldl_append, List.foldl_cons, List.foldl_nil,
      groupSitesStep_nonfinal P finite oldHbond gss _ n m hn]
    by_cases hm : m = n + 1
    · rw [if_pos hm, ih (by omega) m,
        if_neg (show ¬ (1 ≤ m ∧ m ≤ n) from by omega),
        if_pos (show 1 ≤ m ∧ m ≤ n + 1 from by omega)]
      subst hm
      rfl
    · rw [if_neg hm, ih (by omega) m]
      by_cases h1 : 1 ≤ m ∧ m ≤ n
      · rw [if_pos h1, if_pos (show 1 ≤ m ∧ m ≤ n + 1 from by omega)]
      · rw [if_neg h1, if_neg (show ¬ (1 ≤ m ∧ m ≤ n + 1) from by omega)]

theorem group_sites_H_bond_spec (P : GOps A) (oldHbond : List (Option A))
    (gss : List (GSite A)) (h2 : 2 ≤ gss.length) (m : ℕ) (hm : m < gss.length) :
    group_sites_H_bond P oldHbond gss m =
      (addWithNone0
        (groupIterContrib P (oldHbond.getD 0 none).isNone oldHbond gss
          ((m + gss.length - 1) % gss.length))
        (if m = gss.length - 1
          then groupIterSpecial P (oldHbond.getD 0 none).isNone oldHbond gss
            (gss.length - 1)
          else none)).map P.relabel := by
  have hrange : List.range gss.length =
      List.range (gss.length - 1) ++ [gss.length - 1] := by
    conv_lhs => rw [show gss.length = (gss.length - 1) + 1 from by omega]
    rw [List.range_succ]
  simp only [group_sites_H_bond]
  rw [hrange, List.foldl_append, List.foldl_cons, List.foldl_nil]
  simp only [groupSitesStep]
  rw [show gss.length - 1 + 1 = gss.length from by omega, Nat.mod_self]
  rw [groupSitesFold_front P _ oldHbond gss (gss.length - 1) (by omega) m]
  by_cases hm0 : m = 0
  · subst hm0
    rw [if_pos rfl,
      if_neg (show ¬ ((0 : ℕ) = gss.length - 1) from by omega),
      groupSitesFold_front P _ oldHbond gss (gss.length - 1) (by omega) 0,
      if_neg (show ¬ ((1 : ℕ) ≤ 0 ∧ (0 : ℕ) ≤ gss.length - 1) from by omega),
      if_neg (show ¬ ((0 : ℕ) = gss.length - 1) from by omega),
      show 0 + gss.length - 1 = gss.length - 1 from by omega,
      Nat.mod_eq_of_lt (show gss.length - 1 < gss.length from by omega)]
    rw [addWithNone0_none_right]
    rfl
  · rw [if_neg hm0]
    by_cases hml : m = gss.length - 1
    · rw [if_pos hml, if_pos hml,
        if_pos (show 1 ≤ m ∧ m ≤ gss.length - 1 from by omega),
        show m + gss.length - 1 = (m - 1) + gss.length from by omega,
        Nat.add_mod_right,
        Nat.mod_eq_of_lt (show m - 1 < gss.length from by omega)]
    · rw [if_neg hml, if_neg hml,
        if_pos (show 1 ≤ m ∧ m ≤ gss.length - 1 from by omega),
        show m + gss.length - 1 = (m - 1) + gss.length from by omega,
        Nat.add_mod_right,
        Nat.mod_eq_of_lt (show m - 1 < gss.length from by omega),
        addWithNone0_none_right]

end GroupLemmas

section ClaimC7

/-- **C7** (confirmed): in `group_sites` on a finite chain (detected by
`H_bond[0] is None`), the intra-group onsite remainder accumulated at the
last group is added onto the right-most bond `H_bond[-1]`, tensored on the
left with the identity of the preceding grouped site, while the wrap-around
entry receives only the plain group-boundary bond; for every non-final group
(and, on the last group, for infinite chains) the remainder is instead added
onto the following bond, tensored on the right with the identity of the next
grouped site. -/
theorem claim_C7_group_sites_onsite_remainder {A : Type} [Inhabited A] [Add A]
    (P : GOps A) (oldHbond : List (Option A)) (gss : List (GSite A))
    (h2 : 2 ≤ gss.length) :
    (∀ x : A, (oldHbond.getD 0 none).isNone = true →
      groupIterOnsite P oldHbond gss (gss.length - 1) = some x →
      group_sites_H_bond P oldHbond gss (gss.length - 1) =
        (addWithNone0 (groupIterContrib P true oldHbond gss (gss.length - 2))
          (some (P.outer
            (P.transpId ((gss.getD (gss.length - 2) default).gId)) x))).map
          P.relabel ∧
      group_sites_H_bond P oldHbond gss 0 =
        (groupIterBond P oldHbond gss (gss.length - 1)).map P.relabel) ∧
    (∀ (k : ℕ) (x : A), k + 1 < gss.length →
      groupIterOnsite P oldHbond gss k = some x →
      group_sites_H_bond P oldHbond gss (k + 1) =
        (addWithNone0
          (addWithNone0 (groupIterBond P oldHbond gss k)
            (some (P.outer x (P.transpId ((gss.getD (k + 1) default).gId)))))
          (if k + 1 = gss.length - 1
            then groupIterSpecial P (oldHbond.getD 0 none).isNone oldHbond gss
              (gss.length - 1)
            else none)).map P.relabel) ∧
    (∀ x : A, (oldHbond.getD 0 none).isNone = false →
      groupIterOnsite P oldHbond gss (gss.length - 1) = some x →
      group_sites_H_bond P oldHbond gss 0 =
        (addWithNone0 (groupIterBond P oldHbond gss (gss.length - 1))
          (some (P.outer x
            (P.transpId ((gss.getD 0 default).gId))))).map P.relabel) := by
  have harith : (gss.length - 1 + gss.length - 1) % gss.length = gss.length - 2 := by
    rw [show gss.length - 1 + gss.length - 1 = (gss.length - 2) + gss.length from
      by omega, Nat.add_mod_right]
    exact Nat.mod_eq_of_lt (by omega)
  refine ⟨?_, ?_, ?_⟩
  · intro x hfin hx
    constructor
    · rw [group_sites_H_bond_spec P oldHbond gss h2 (gss.length - 1) (by omega),
        if_pos rfl, hfin, harith,
        groupIterSpecial_final P true oldHbond gss (gss.length - 1) x
          (by omega) rfl hx, harith]
    · rw [group_sites_H_bond_spec P oldHbond gss h2 0 (by omega),
        if_neg (show ¬ ((0 : ℕ) = gss.length - 1) from by omega),
        show 0 + gss.length - 1 = gss.length - 1 from by omega,
        Nat.mod_eq_of_lt (show gss.length - 1 < gss.length from by omega),
        hfin,
        groupIterContrib_final P true oldHbond gss (gss.length - 1) x
          (by omega) rfl hx, addWithNone0_none_right]
  · intro k x hk hx
    rw [group_sites_H_bond_spec P oldHbond gss h2 (k + 1) (by omega),
      show k + 1 + gss.length - 1 = k + gss.length from by omega,
      Nat.add_mod_right,
      Nat.mod_eq_of_lt (show k < gss.length from by omega),
      groupIterContrib_attach P _ oldHbond gss k x (Or.inl (by omega)) hx,
      Nat.mod_eq_of_lt hk]
  · intro x hfin hx
    rw [group_sites_H_bond_spec P oldHbond gss h2 0 (by omega),
      if_neg (show ¬ ((0 : ℕ) = gss.length - 1) from by omega),
      show 0 + gss.length - 1 = gss.length - 1 from by omega,
      Nat.mod_eq_of_lt (show gss.length - 1 < gss.length from by omega),
      groupIterContrib_attach P _ oldHbond gss (gss.length - 1) x
        (Or.inr hfin) hx,
      show (gss.length - 1 + 1) % gss.length = 0 from by
        rw [show gss.length - 1 + 1 = gss.length from by omega, Nat.mod_self],
      addWithNone0_none_right]

/-- Witness for C7 on the spec's example (four-site finite chain grouped by
two, over the concrete `ℤ` tensor algebra): the onsite remainder `7` of the
last group lands on the right-most bond (`210 + (100 + 7) = 317`), while the
wrap-around entry stays `none`. -/
theorem claim_C7_group_sites_onsite_remainder_witness :
    2 ≤ gssW.length ∧
    group_sites_H_bond gopsW oldHbW gssW 1 = some 317 ∧
    group_sites_H_bond gopsW oldHbW gssW 0 = none := by
  obtain ⟨hA, -, -⟩ :=
    claim_C7_group_sites_onsite_remainder gopsW oldHbW gssW (by decide)
  obtain ⟨e1, e0⟩ := hA 7 (by decide) (by decide)
  rw [show gssW.length - 1 = 1 from by decide, show gssW.length - 2 = 0 from by decide]
    at e1
  refine ⟨by decide, ?_, ?_⟩
  · rw [e1]
    decide
  · rw [e0]
    decide

end ClaimC7

section OptionFoldLemmas

variable {M : Type} [AddCommMonoid M]

theorem addWithNone0_isSome (a b : Option M) :
    (addWithNone0 a b).isSome = (a.isSome || b.isSome) := by
  cases a <;> cases b <;> rfl

theorem oVal_addWithNone0 (a b : Option M) :
    oVal (addWithNone0 a b) = oVal a + oVal b := by
  cases a <;> cases b <;> simp [addWithNone0, oVal]

theorem option_ext_val (a b : Option M) (h1 : a.isSome = b.isSome)
    (h2 : oVal a = oVal b) : a = b := by
  cases a <;> cases b <;> simp_all [oVal]

theorem oVal_map_of_zero (f : M → M) (hf : f 0 = 0) (o : Option M) :
    oVal (o.map f) = f (oVal o) := by
  cases o <;> simp [oVal, hf]

theorem foldAdd_isSome {α : Type} (g : α → Option M) (l : List α) (a : Option M) :
    (l.foldl (fun acc t => addWithNone0 acc (g t)) a).isSome =
      (a.isSome || l.any (fun t => (g t).isSome)) := by
  induction l generalizing a with
  | nil => simp
  | cons x xs ih =>
    simp [List.foldl_cons, ih, addWithNone0_isSome, Bool.or_assoc]

theorem foldAdd_oVal {α : Type} (g : α → Option M) (l : List α) (a : Option M) :
    oVal (l.foldl (fun acc t => addWithNone0 acc (g t)) a) =
      oVal a + (l.map (fun t => oVal (g t))).sum := by
  induction l generalizing a with
  | nil => simp
  | cons x xs ih =>
    simp [List.foldl_cons, ih, oVal_addWithNone0, add_assoc]

end OptionFoldLemmas

section Forall2Lemmas

variable {α β γ : Type}

theorem forall2_filter (r : α → β → Prop) (p : α → Bool) (q : β → Bool)
    {l₁ : List α} {l₂ : List β} (h : List.Forall₂ r l₁ l₂)
    (hpq : ∀ a b, r a b → p a = q b) :
    List.Forall₂ r (l₁.filter p) (l₂.filter q) := by
  induction h with
  | nil => exact List.Forall₂.nil
  | cons hr hrest ih =>
    rename_i a b as bs
    by_cases hp : p a = true
    · rw [List.filter_cons_of_pos hp, List.filter_cons_of_pos (by rw [← hpq a b hr]; exact hp)]
      exact List.Forall₂.cons hr ih
    · rw [List.filter_cons_of_neg (by simpa using hp),
        List.filter_cons_of_neg (by rw [← hpq a b hr]; simpa using hp)]
      exact ih

theorem forall2_any_eq (r : α → β → Prop) (p : α → Bool) (q : β → Bool)
    {l₁ : List α} {l₂ : List β} (h : List.Forall₂ r l₁ l₂)
    (hpq : ∀ a b, r a b → p a = q b) :
    l₁.any p = l₂.any q := by
  induction h with
  | nil => rfl
  | cons hr hrest ih =>
    rename_i a b as bs
    simp [List.any_cons, ih, hpq a b hr]

theorem forall2_filterMap (f : α → Option β) (g : α → Option γ) (r : β → γ → Prop)
    (l : List α)
    (h : ∀ a ∈ l, (f a).isSome = (g a).isSome ∧
      ∀ b c, f a = some b → g a = some c → r b c) :
    List.Forall₂ r (l.filterMap f) (l.filterMap g) := by
  induction l with
  | nil => exact List.Forall₂.nil
  | cons x xs ih =>
    have hx := h x (List.mem_cons_self x xs)
    have hxs : ∀ a ∈ xs, (f a).isSome = (g a).isSome ∧
        ∀ b c, f a = some b → g a = some c → r b c :=
      fun a ha => h a (List.mem_cons_of_mem x ha)
    cases hf : f x with
    | none =>
      have hg : g x = none := by
        have := hx.1
        rw [hf] at this
        cases hgx : g x with
        | none => rfl
        | some c => rw [hgx] at this; cases this
      rw [List.filterMap_cons_none hf, List.filterMap_cons_none hg]
      exact ih hxs
    | some b =>
      have hg : ∃ c, g x = some c := by
        have := hx.1
        rw [hf] at this
        cases hgx : g x with
        | none => rw [hgx] at this; cases this
        | some c => exact ⟨c, rfl⟩
      obtain ⟨c, hgc⟩ := hg
      rw [List.filterMap_cons_some hf, List.filterMap_cons_some hgc]
      exact List.Forall₂.cons (hx.2 b c hf hgc) (ih hxs)

theorem forall2_map_map (r : β → γ → Prop) (f : α → β) (g : α → γ) (l : List α)
    (h : ∀ x ∈ l, r (f x) (g x)) : List.Forall₂ r (l.map f) (l.map g) := by
  induction l with
  | nil => exact List.Forall₂.nil
  | cons x xs ih =>
    exact List.Forall₂.cons (h x (List.mem_cons_self x xs))
      (ih (fun a ha => h a (List.mem_cons_of_mem x ha)))

theorem forall2_all_eq (r : α → β → Prop) (p : α → Bool) (q : β → Bool)
    {l₁ : List α} {l₂ : List β} (h : List.Forall₂ r l₁ l₂)
    (hpq : ∀ a b, r a b → p a = q b) :
    l₁.all p = l₂.all q := by
  induction h with
  | nil => rfl
  | cons hr hrest ih =>
    rename_i a b as bs
    simp [List.all_cons, ih, hpq a b hr]

end Forall2Lemmas

section HcAlgebraLemmas

variable {R : Type} [Field R] [StarRing R] {d : ℕ}

theorem kron_conjTranspose (A B : PMat d R) : (kron A B)ᴴ = kron Aᴴ Bᴴ := by
  ext x y
  obtain ⟨i, j⟩ := x
  obtain ⟨k, l⟩ := y
  simp [kron, Matrix.kroneckerMap, Matrix.conjTranspose_apply, StarMul.star_mul, mul_comm]

theorem star_half : star ((1 : R) / 2) = 1 / 2 := by
  rw [star_div₀, star_one, star_ofNat]

theorem forall2_map_sum_conj {α β : Type} (r : α → β → Prop)
    (f : α → BMat d R) (g : β → BMat d R) {l₁ : List α} {l₂ : List β}
    (h : List.Forall₂ r l₁ l₂) (hr : ∀ a b, r a b → f a = (g b)ᴴ) :
    (l₁.map f).sum = ((l₂.map g).sum)ᴴ := by
  induction h with
  | nil => simp
  | cons hab hrest ih =>
    rename_i a b as bs
    simp [List.map_cons, List.sum_cons, ih, hr a b hab, Matrix.conjTranspose_add]

theorem list_sum_conj_map {α : Type} (f : α → BMat d R) (l : List α) :
    ((l.map f).sum)ᴴ = (l.map (fun a => (f a)ᴴ)).sum := by
  induction l with
  | nil => simp
  | cons x xs ih => simp [List.map_cons, List.sum_cons, Matrix.conjTranspose_add, ih]

theorem sfield_conj_anyNonzero [DecidableEq R] (s : SField R) :
    s.conj.anyNonzero = s.anyNonzero := by
  unfold SField.conj SField.anyNonzero
  congr 1
  funext i
  simp [star_eq_zero]

end HcAlgebraLemmas

section HcListLemmas

theorem map_neg_all_zero (dx : List ℤ) :
    (dx.map Neg.neg).all (· = 0) = dx.all (· = 0) := by
  induction dx with
  | nil => rfl
  | cons x xs ih => simp [List.all_cons, ih, neg_eq_zero]

theorem perm_all_eq {α : Type} (p : α → Bool) {l l' : List α} (h : l.Perm l') :
    l.all p = l'.all p := by
  rw [Bool.eq_iff_iff]
  simp only [List.all_eq_true]
  constructor
  · intro ha x hx
    exact ha x (h.mem_iff.mpr hx)
  · intro ha x hx
    exact ha x (h.mem_iff.mp hx)

theorem perm_any_eq {α : Type} (p : α → Bool) {l l' : List α} (h : l.Perm l') :
    l.any p = l'.any p := by
  rw [Bool.eq_iff_iff]
  simp only [List.any_eq_true]
  constructor
  · rintro ⟨x, hx, hp⟩
    exact ⟨x, h.mem_iff.mp hx, hp⟩
  · rintro ⟨x, hx, hp⟩
    exact ⟨x, h.mem_iff.mpr hx, hp⟩

theorem flatWith_aset_append {α β : Type} (F : α → List β) (l : List (String × α))
    (k : String) (v dflt : α) (new : List β) (hF : F dflt = [])
    (hv : F v = F ((alookup l k).getD dflt) ++ new) :
    (flatWith F (aset l k v)).Perm (flatWith F l ++ new) := by
  cases h : alookup l k with
  | none =>
    rw [flatWith_aset_none F l k v h]
    rw [h] at hv
    simp only [Option.getD_none, hF, List.nil_append] at hv
    rw [hv]
  | some w =>
    rw [h] at hv
    exact flatWith_aset_perm F l k v w new h (by simpa using hv)

theorem two_flat_aux {R : Type} (l : List (String × CTcoll R))
    (h : l.any (fun p => p.2.isMulti) = false) :
    ((l.map (fun p =>
      match p.2 with | .two ts => ts | .multi _ => ([] : List (Cpl R)))).flatten).map cplToM
      = (l.map (fun p => p.2.flat)).flatten := by
  induction l with
  | nil => rfl
  | cons p rest ih =>
    rw [List.any_cons, Bool.or_eq_false_iff] at h
    simp only [List.map_cons, List.flatten_cons, List.map_append]
    rw [ih h.2]
    congr 1
    cases hp : p.2 with
    | two ts => rfl
    | multi ts =>
      rw [hp] at h
      simp [CTcoll.isMulti] at h

theorem allCouplingTerms_flat {R : Type} (st : TermState R) :
    (allCouplingTerms st).flat = flatC st := by
  unfold allCouplingTerms flatC flatWith
  by_cases h : st.coupling.any (fun p => p.2.isMulti)
  · rw [if_pos h]
    rfl
  · rw [if_neg h]
    rw [Bool.not_eq_true] at h
    exact two_flat_aux st.coupling h

theorem allOnsiteTerms_eq {R : Type} (st : TermState R) :
    allOnsiteTerms st = flatO st := rfl

theorem getD_range_map {γ : Type} (g : ℕ → γ) (L b : ℕ) (dflt : γ) (hb : b < L) :
    ((List.range L).map g).getD b dflt = g b := by
  rw [List.getD_eq_getElem?_getD, List.getElem?_map, List.getElem?_range hb]
  rfl

end HcListLemmas

section HcLoopLemmas

variable {R : Type} [Field R] [StarRing R] [DecidableEq R] {d : ℕ}

omit [StarRing R] [DecidableEq R] in
theorem kron_neg_left (A B : PMat d R) : kron (-A) B = -(kron A B) := by
  ext x y
  obtain ⟨i, j⟩ := x
  obtain ⟨k, l⟩ := y
  simp [kron, Matrix.kroneckerMap]

omit [StarRing R] [DecidableEq R] in
theorem addCouplingPairTerm_eq (site1 site2 : ModelSite R d) (op1 op2 σ : OpName)
    (sof : Bool) (i j : ℕ) (s : R) :
    addCouplingPairTerm site1 site2 op1 op2 σ sof false i j s =
      .ok (cplOfPair site1 site2 op1 op2 σ sof i j s) := by
  unfold addCouplingPairTerm cplOfPair
  by_cases h : j < i
  · rw [if_pos h, if_pos h]
    rfl
  · rw [if_neg h, if_neg h]

omit [StarRing R] in
theorem addCouplingLoop_flat (N : ℕ) (site1 site2 : ModelSite R d)
    (op1 op2 σ : OpName) (sof : Bool) (strength : SField R)
    (pairs : List (ℕ × ℕ × Idx)) (ct : CTcoll R)
    (hp : ∀ q ∈ pairs, q.1 ≠ q.2.1 ∧ min q.1 q.2.1 < N) :
    (addCouplingLoop N site1 site2 op1 op2 σ sof false strength pairs ct).2 = none ∧
    (addCouplingLoop N site1 site2 op1 op2 σ sof false strength pairs ct).1.flat
      = ct.flat ++ loopTerms site1 site2 op1 op2 σ sof strength pairs := by
  induction pairs generalizing ct with
  | nil => exact ⟨rfl, by simp [addCouplingLoop, loopTerms]⟩
  | cons q rest ih =>
    obtain ⟨hne, hmin⟩ := hp q (List.mem_cons_self q rest)
    have hrest : ∀ r ∈ rest, r.1 ≠ r.2.1 ∧ min r.1 r.2.1 < N :=
      fun r hr => hp r (List.mem_cons_of_mem q hr)
    by_cases hs : strength.f q.2.2 = 0
    · rw [show addCouplingLoop N site1 site2 op1 op2 σ sof false strength (q :: rest) ct =
          addCouplingLoop N site1 site2 op1 op2 σ sof false strength rest ct by
        simp [addCouplingLoop, hs],
        show loopTerms site1 site2 op1 op2 σ sof strength (q :: rest) =
          loopTerms site1 site2 op1 op2 σ sof strength rest by
        simp [loopTerms, List.filterMap_cons, hs]]
      exact ih ct hrest
    · obtain ⟨t, ht, hti, htj, hts⟩ :=
        addCouplingPairTerm_shape site1 site2 op1 op2 σ sof q.1 q.2.1
          (strength.f q.2.2) hne
      rw [addCouplingPairTerm_eq] at ht
      injection ht with ht
      have htij : t.i < t.j := by rw [hti, htj]; omega
      have htiN : t.i < N := by rw [hti]; exact hmin
      obtain ⟨he, hf⟩ := ctcollAddCoupling_spec N ct t htij htiN
      have hpair : ctcollAddCoupling N ct t = ((ctcollAddCoupling N ct t).1, none) :=
        Prod.ext rfl he
      rw [show addCouplingLoop N site1 site2 op1 op2 σ sof false strength (q :: rest) ct =
          addCouplingLoop N site1 site2 op1 op2 σ sof false strength rest
            (ctcollAddCoupling N ct t).1 by
        rw [addCouplingLoop]
        simp only [hs, if_neg hs, addCouplingPairTerm_eq, ht]
        rw [hpair]
        simp,
        show loopTerms site1 site2 op1 op2 σ sof strength (q :: rest) =
          cplToM t :: loopTerms site1 site2 op1 op2 σ sof strength rest by
        simp [loopTerms, List.filterMap_cons, hs, ht]]
      obtain ⟨herr, hflat⟩ := ih (ctcollAddCoupling N ct t).1 hrest
      refine ⟨herr, ?_⟩
      rw [hflat, hf]
      simp

end HcLoopLemmas

section HcCallEffects

variable {R : Type} [Field R] [StarRing R] [DecidableEq R] {d : ℕ}

omit [StarRing R] [DecidableEq R] in
theorem plusHcMunge_true (flag : Bool) (s : SField R) :
    plusHcMunge flag s true = (s, !flag) := by
  cases flag <;> rfl

theorem add_onsite_main_spec (lat : ModelLat R d) (flag : Bool) (st : TermState R)
    (s : SField R) (u : ℕ) (op : OpName) (cat : Option String) (ph p : Bool)
    (hmunge : plusHcMunge flag s ph = (s, p))
    (hanz : s.anyNonzero = true)
    (hval : (lat.unitCell u).validOp op = true)
    (hjw : (lat.unitCell u).needsJW op = false)
    (hb : ∀ q ∈ lat.mpsLatIdxFixU u, q.1 < lat.Nsites) :
    add_onsite_main lat flag st s u op cat ph =
      (({ st with onsite := (aset st.onsite (cat.getD op)
          (((alookup st.onsite (cat.getD op)).getD []) ++
            onsiteTermsOf s op (lat.mpsLatIdxFixU u))) }, none),
       if p then some (s.conj, (lat.unitCell u).hcName op, cat.getD op) else none) := by
  simp only [add_onsite_main, hmunge, hanz, hval, hjw,
    onsiteLoop_spec lat.Nsites s op (lat.mpsLatIdxFixU u) _ hb]
  simp only [onsiteTermsOf]
  cases p <;> simp

theorem add_onsite_both (lat : ModelLat R d) (S : ModelSite R d)
    (hcell : ∀ n, lat.unitCell n = S) (hsiteOf : ∀ n, lat.siteOf n = S)
    (keep : R → Bool) (hk : KeepOk keep) (herm : HermSite S)
    (s : SField R) (u : ℕ) (op : OpName) (cat : Option String)
    (hok : CallOk lat S (.onsite s u op cat)) (stA stB : TermState R) :
    ∃ newO hcO : List (OTerm R),
      (add_onsite lat true stA s u op cat true).2 = none ∧
      (flatO (add_onsite lat true stA s u op cat true).1).Perm (flatO stA ++ newO) ∧
      (add_onsite lat true stA s u op cat true).1.coupling = stA.coupling ∧
      (add_onsite lat false stB s u op cat true).2 = none ∧
      (flatO (add_onsite lat false stB s u op cat true).1).Perm
        (flatO stB ++ (newO ++ hcO)) ∧
      (add_onsite lat false stB s u op cat true).1.coupling = stB.coupling ∧
      List.Forall₂ (relO lat.siteOf keep) hcO newO := by
  obtain ⟨hval, hjw, hb⟩ := hok
  obtain ⟨hvalhc, hjwhc, hmatHc, hmatMul, hId, hJW, hvId, hvJW, hJher, hanti⟩ := herm
  obtain ⟨hkS, hkN⟩ := hk
  by_cases hanz : s.anyNonzero = true
  · refine ⟨onsiteTermsOf s op (lat.mpsLatIdxFixU u),
      onsiteTermsOf s.conj (S.hcName op) (lat.mpsLatIdxFixU u), ?_⟩
    have hvalu : (lat.unitCell u).validOp op = true := by rw [hcell]; exact hval
    have hjwu : (lat.unitCell u).needsJW op = false := by rw [hcell]; exact hjw
    have hA := add_onsite_main_spec lat true stA s u op cat true false
      (plusHcMunge_true true s) hanz hvalu hjwu hb
    have hB1 := add_onsite_main_spec lat false stB s u op cat true true
      (plusHcMunge_true false s) hanz hvalu hjwu hb
    have hanz2 : s.conj.anyNonzero = true := by
      rw [sfield_conj_anyNonzero]; exact hanz
    have hval2 : (lat.unitCell u).validOp ((lat.unitCell u).hcName op) = true := by
      rw [hcell, hvalhc]; exact hval
    have hjw2 : (lat.unitCell u).needsJW ((lat.unitCell u).hcName op) = false := by
      rw [hcell, hjwhc]; exact hjw
    have hB2 : ∀ st2 : TermState R,
        add_onsite_main lat false st2 s.conj u ((lat.unitCell u).hcName op)
          (some (cat.getD op)) false =
        (({ st2 with onsite := (aset st2.onsite (cat.getD op)
            (((alookup st2.onsite (cat.getD op)).getD []) ++
              onsiteTermsOf s.conj ((lat.unitCell u).hcName op)
                (lat.mpsLatIdxFixU u))) }, none), none) :=
      fun st2 => by
        have h := add_onsite_main_spec lat false st2 s.conj u
          ((lat.unitCell u).hcName op) (some (cat.getD op)) false false
          rfl hanz2 hval2 hjw2 hb
        rwa [if_neg Bool.false_ne_true] at h
    rw [if_neg Bool.false_ne_true] at hA
    rw [if_pos rfl] at hB1
    have hAfull : add_onsite lat true stA s u op cat true =
        ({ stA with onsite := (aset stA.onsite (cat.getD op)
          (((alookup stA.onsite (cat.getD op)).getD []) ++
            onsiteTermsOf s op (lat.mpsLatIdxFixU u))) }, none) := by
      rw [add_onsite, hA]
    have hBfull : add_onsite lat false stB s u op cat true =
        ((add_onsite_main lat false
          { stB with onsite := (aset stB.onsite (cat.getD op)
            (((alookup stB.onsite (cat.getD op)).getD []) ++
              onsiteTermsOf s op (lat.mpsLatIdxFixU u))) }
          s.conj u ((lat.unitCell u).hcName op) (some (cat.getD op)) false).1) := by
      rw [add_onsite, hB1]
    rw [hAfull, hBfull, hB2]
    refine ⟨rfl, ?_, rfl, rfl, ?_, rfl, ?_⟩
    · exact flatWith_aset_append (fun ts => ts) stA.onsite (cat.getD op) _ [] _ rfl rfl
    · refine ((flatWith_aset_append (fun ts => ts) _ (cat.getD op) _ [] _ rfl rfl).trans ?_)
      have hin : (flatWith (fun ts => ts)
          (aset stB.onsite (cat.getD op)
            (((alookup stB.onsite (cat.getD op)).getD []) ++
              onsiteTermsOf s op (lat.mpsLatIdxFixU u)))).Perm
          (flatO stB ++ onsiteTermsOf s op (lat.mpsLatIdxFixU u)) :=
        flatWith_aset_append (fun ts => ts) stB.onsite (cat.getD op) _ [] _ rfl rfl
      refine (hin.append_right _).trans ?_
      rw [List.append_assoc, hcell]
    · apply forall2_map_map
      intro q hq
      refine ⟨rfl, hkS _, ?_⟩
      show star (s.f q.2) • (lat.siteOf q.1).mat (S.hcName op) =
        (s.f q.2 • (lat.siteOf q.1).mat op)ᴴ
      rw [hsiteOf, hmatHc, Matrix.conjTranspose_smul]
  · refine ⟨[], [], ?_⟩
    have hz : ∀ flag st2, add_onsite lat flag st2 s u op cat true = (st2, none) := by
      intro flag st2
      rw [add_onsite, show add_onsite_main lat flag st2 s u op cat true =
        ((st2, none), none) from by simp [add_onsite_main, hanz]]
    rw [hz, hz]
    simp

end HcCallEffects

section HcPairRelation

variable {R : Type} [Field R] [StarRing R] [DecidableEq R] {d : ℕ}

omit [StarRing R] [DecidableEq R] in
theorem mTermMat_cplToM (sites : ℕ → ModelSite R d) (L : ℕ) (t : Cpl R) :
    mTermMat sites L (cplToM t) =
      t.strength • kron ((sites (t.i % L)).mat t.opI) ((sites (t.j % L)).mat t.opJ) := rfl

omit [StarRing R] [DecidableEq R] in
theorem cplOfPair_Id_le (S1 S2 : ModelSite R d) (o1 o2 : OpName) (i j : ℕ) (s : R)
    (h : ¬ j < i) : cplOfPair S1 S2 o1 o2 "Id" true i j s = ⟨s, i, j, o1, o2, "Id"⟩ := by
  unfold cplOfPair
  rw [if_neg h, if_neg (show ¬ (true = true ∧ ¬ "Id" = "Id") from by simp)]

omit [StarRing R] [DecidableEq R] in
theorem cplOfPair_Id_gt (S1 S2 : ModelSite R d) (o1 o2 : OpName) (i j : ℕ) (s : R)
    (h : j < i) : cplOfPair S1 S2 o1 o2 "Id" true i j s = ⟨s, j, i, o2, o1, "Id"⟩ := by
  unfold cplOfPair
  rw [if_pos h, if_neg (show ¬ ("Id" : String) = "JW" from by decide),
    if_neg (show ¬ (true = true ∧ ¬ "Id" = "Id") from by simp)]

omit [StarRing R] [DecidableEq R] in
theorem cplOfPair_JW_le (S1 S2 : ModelSite R d) (o1 o2 : OpName) (i j : ℕ) (s : R)
    (h : ¬ j < i) :
    cplOfPair S1 S2 o1 o2 "JW" true i j s = ⟨s, i, j, S1.mult2 o1 "JW", o2, "JW"⟩ := by
  unfold cplOfPair
  rw [if_neg h, if_pos (show true = true ∧ ¬ ("JW" : String) = "Id" from by decide)]

omit [StarRing R] [DecidableEq R] in
theorem cplOfPair_JW_gt (S1 S2 : ModelSite R d) (o1 o2 : OpName) (i j : ℕ) (s : R)
    (h : j < i) :
    cplOfPair S1 S2 o1 o2 "JW" true i j s = ⟨-s, j, i, S2.mult2 o2 "JW", o1, "JW"⟩ := by
  unfold cplOfPair
  rw [if_pos h, if_pos (show ("JW" : String) = "JW" from rfl),
    if_pos (show true = true ∧ ¬ ("JW" : String) = "Id" from by decide)]

omit [DecidableEq R] in
theorem relC_of_pair (S : ModelSite R d) (sites : ℕ → ModelSite R d)
    (hsites : ∀ n, sites n = S) (L : ℕ) (keep : R → Bool)
    (hk : KeepOk keep) (herm : HermSite S) (o1 o2 σ : OpName) (i j : ℕ) (s : R)
    (hσ : σ = "Id" ∨ (σ = "JW" ∧ S.needsJW o1 = true ∧ S.needsJW o2 = true))
    (hij : i ≠ j) :
    relC sites L keep
      (cplToM (cplOfPair S S (S.hcName o2) (S.hcName o1) (S.hcName σ) true j i (star s)))
      (cplToM (cplOfPair S S o1 o2 σ true i j s)) := by
  obtain ⟨hval, hjw, hmatHc, hmatMul, hId, hJW, hvId, hvJW, hJher, hanti⟩ := herm
  obtain ⟨hkS, hkN⟩ := hk
  have hJA : ∀ op, S.needsJW op = true →
      S.mat "JW" * (S.mat op)ᴴ = -((S.mat op)ᴴ * S.mat "JW") := by
    intro op h
    have h1 := congrArg Matrix.conjTranspose (hanti op h)
    rw [Matrix.conjTranspose_mul, Matrix.conjTranspose_neg, Matrix.conjTranspose_mul,
      hJher] at h1
    exact h1
  rcases hσ with hσ | ⟨hσ, hJ1, hJ2⟩
  · subst hσ
    rw [hId]
    rcases Nat.lt_or_ge i j with hlt | hge
    · rw [cplOfPair_Id_le S S o1 o2 i j s (by omega),
        cplOfPair_Id_gt S S (S.hcName o2) (S.hcName o1) j i (star s) hlt]
      refine ⟨rfl, hkS s, ?_⟩
      rw [mTermMat_cplToM, mTermMat_cplToM]
      simp only [hsites, hmatHc]
      rw [Matrix.conjTranspose_smul, kron_conjTranspose]
    · have hgt : j < i := by omega
      rw [cplOfPair_Id_gt S S o1 o2 i j s hgt,
        cplOfPair_Id_le S S (S.hcName o2) (S.hcName o1) j i (star s) (by omega)]
      refine ⟨rfl, hkS s, ?_⟩
      rw [mTermMat_cplToM, mTermMat_cplToM]
      simp only [hsites, hmatHc]
      rw [Matrix.conjTranspose_smul, kron_conjTranspose]
  · subst hσ
    rw [hJW]
    rcases Nat.lt_or_ge i j with hlt | hge
    · rw [cplOfPair_JW_le S S o1 o2 i j s (by omega),
        cplOfPair_JW_gt S S (S.hcName o2) (S.hcName o1) j i (star s) hlt]
      refine ⟨rfl, (hkN (star s)).trans (hkS s), ?_⟩
      rw [mTermMat_cplToM, mTermMat_cplToM]
      simp only [hsites, hmatMul, hmatHc]
      rw [Matrix.conjTranspose_smul, kron_conjTranspose, Matrix.conjTranspose_mul,
        hJher, hJA o1 hJ1, kron_neg_left, smul_neg, ← neg_smul]
    · have hgt : j < i := by omega
      rw [cplOfPair_JW_gt S S o1 o2 i j s hgt,
        cplOfPair_JW_le S S (S.hcName o2) (S.hcName o1) j i (star s) (by omega)]
      refine ⟨rfl, (hkS s).trans ((hkN s).symm), ?_⟩
      rw [mTermMat_cplToM, mTermMat_cplToM]
      simp only [hsites, hmatMul, hmatHc]
      rw [Matrix.conjTranspose_smul, kron_conjTranspose, Matrix.conjTranspose_mul,
        hJher, hJA o2 hJ2, kron_neg_left, star_neg, smul_neg, neg_smul, neg_neg]

end HcPairRelation

section HcCouplingSpec

variable {R : Type} [Field R] [StarRing R] [DecidableEq R] {d : ℕ}

theorem add_coupling_main_given_spec (lat : ModelLat R d) (flag : Bool)
    (st : TermState R) (s : SField R) (u1 : ℕ) (o1 : OpName) (u2 : ℕ) (o2 : OpName)
    (dx : List ℤ) (σ : OpName) (category : Option String) (ph p : Bool)
    (hmunge : plusHcMunge flag s ph = (s, p))
    (hlen : dx.length = lat.dim)
    (hanz : s.anyNonzero = true)
    (hv1 : (lat.unitCell u1).validOp o1 = true)
    (hv2 : (lat.unitCell u2).validOp o2 = true)
    (hvσ : (List.range lat.numU).all (fun u => (lat.unitCell u).validOp σ) = true)
    (hons : ¬ (dx.all (· = 0) = true ∧ u1 = u2))
    (hp : ∀ q ∈ lat.possibleCouplings u1 u2 dx, q.1 ≠ q.2.1 ∧ min q.1 q.2.1 < lat.Nsites) :
    add_coupling_main lat flag st s u1 o1 u2 o2 dx (some σ) true false category ph =
      (({ st with coupling := (aset st.coupling
          (category.getD (o1 ++ "_i " ++ o2 ++ "_j"))
          ((addCouplingLoop lat.Nsites (lat.unitCell u1) (lat.unitCell u2) o1 o2 σ
            true false s (lat.possibleCouplings u1 u2 dx)
            ((alookup st.coupling
              (category.getD (o1 ++ "_i " ++ o2 ++ "_j"))).getD (.two []))).1)) }, none),
       if p then some (s.conj, u2, (lat.unitCell u2).hcName o2, u1,
          (lat.unitCell u1).hcName o1, dx.map Neg.neg, (lat.unitCell u2).hcName σ,
          category.getD (o1 ++ "_i " ++ o2 ++ "_j")) else none) := by
  have hloop := (addCouplingLoop_flat lat.Nsites (lat.unitCell u1) (lat.unitCell u2)
    o1 o2 σ true s (lat.possibleCouplings u1 u2 dx)
    ((alookup st.coupling (category.getD (o1 ++ "_i " ++ o2 ++ "_j"))).getD (.two []))
    hp).1
  simp only [add_coupling_main, hmunge, hanz, hv1, hv2, hvσ, hloop, hlen]
  rw [if_neg hons]
  cases p <;> simp

theorem add_coupling_main_auto_spec (lat : ModelLat R d) (flag : Bool)
    (st : TermState R) (s : SField R) (u1 : ℕ) (o1 : OpName) (u2 : ℕ) (o2 : OpName)
    (dx : List ℤ) (category : Option String) (ph p bJ : Bool)
    (hjw1 : (lat.unitCell u1).needsJW o1 = bJ)
    (hjw2 : (lat.unitCell u2).needsJW o2 = bJ)
    (hmunge : plusHcMunge flag s ph = (s, p))
    (hlen : dx.length = lat.dim)
    (hanz : s.anyNonzero = true)
    (hv1 : (lat.unitCell u1).validOp o1 = true)
    (hv2 : (lat.unitCell u2).validOp o2 = true)
    (hvσ : (List.range lat.numU).all
      (fun u => (lat.unitCell u).validOp (if bJ then "JW" else "Id")) = true)
    (hons : ¬ (dx.all (· = 0) = true ∧ u1 = u2))
    (hp : ∀ q ∈ lat.possibleCouplings u1 u2 dx, q.1 ≠ q.2.1 ∧ min q.1 q.2.1 < lat.Nsites) :
    add_coupling_main lat flag st s u1 o1 u2 o2 dx none true false category ph =
      (({ st with coupling := (aset st.coupling
          (category.getD (o1 ++ "_i " ++ o2 ++ "_j"))
          ((addCouplingLoop lat.Nsites (lat.unitCell u1) (lat.unitCell u2) o1 o2
            (if bJ then "JW" else "Id") true false s (lat.possibleCouplings u1 u2 dx)
            ((alookup st.coupling
              (category.getD (o1 ++ "_i " ++ o2 ++ "_j"))).getD (.two []))).1)) }, none),
       if p then some (s.conj, u2, (lat.unitCell u2).hcName o2, u1,
          (lat.unitCell u1).hcName o1, dx.map Neg.neg,
          (lat.unitCell u2).hcName (if bJ then "JW" else "Id"),
          category.getD (o1 ++ "_i " ++ o2 ++ "_j")) else none) := by
  have hloop := (addCouplingLoop_flat lat.Nsites (lat.unitCell u1) (lat.unitCell u2)
    o1 o2 (if bJ then "JW" else "Id") true s (lat.possibleCouplings u1 u2 dx)
    ((alookup st.coupling (category.getD (o1 ++ "_i " ++ o2 ++ "_j"))).getD (.two []))
    hp).1
  cases bJ with
  | false =>
    simp only [Bool.false_eq_true, if_false] at hloop hvσ
    simp only [add_coupling_main, hmunge, hanz, hv1, hv2, hjw1, hjw2, hlen]
    simp only [Bool.false_eq_true, false_and, false_or, if_false]
    simp only [hvσ, hloop]
    rw [if_neg hons]
    cases p <;> simp
  | true =>
    simp only [eq_self_iff_true, if_true] at hloop hvσ
    simp only [add_coupling_main, hmunge, hanz, hv1, hv2, hjw1, hjw2, hlen]
    simp only [eq_self_iff_true, and_self, if_true]
    simp only [hvσ, hloop]
    rw [if_neg hons]
    cases p <;> simp

end HcCouplingSpec

section HcCouplingBoth

variable {R : Type} [Field R] [StarRing R] [DecidableEq R] {d : ℕ}

theorem add_coupling_both (lat : ModelLat R d) (S : ModelSite R d)
    (hcell : ∀ n, lat.unitCell n = S) (hsiteOf : ∀ n, lat.siteOf n = S)
    (keep : R → Bool) (hk : KeepOk keep) (herm : HermSite S)
    (s : SField R) (u1 : ℕ) (o1 : OpName) (u2 : ℕ) (o2 : OpName) (dx : List ℤ)
    (σa : Option OpName) (cat : Option String)
    (hok : CallOk lat S (.coupling s u1 o1 u2 o2 dx σa cat)) (stA stB : TermState R) :
    ∃ newC hcC : List (MCpl R),
      (add_coupling lat true stA s u1 o1 u2 o2 dx σa true false cat true).2 = none ∧
      (flatC (add_coupling lat true stA s u1 o1 u2 o2 dx σa true false cat true).1).Perm
        (flatC stA ++ newC) ∧
      (add_coupling lat true stA s u1 o1 u2 o2 dx σa true false cat true).1.onsite
        = stA.onsite ∧
      (add_coupling lat false stB s u1 o1 u2 o2 dx σa true false cat true).2 = none ∧
      (flatC (add_coupling lat false stB s u1 o1 u2 o2 dx σa true false cat true).1).Perm
        (flatC stB ++ (newC ++ hcC)) ∧
      (add_coupling lat false stB s u1 o1 u2 o2 dx σa true false cat true).1.onsite
        = stB.onsite ∧
      List.Forall₂ (relC lat.siteOf lat.Nsites keep) hcC newC := by
  obtain ⟨hσa, hlen, hv1, hv2, hjweq, hons, hp, hrev⟩ := hok
  subst hσa
  obtain ⟨hvalhc, hjwhc, hmatHc, hmatMul, hId, hJW, hvId, hvJW, hJher, hanti⟩ := herm
  obtain ⟨hkS, hkN⟩ := hk
  by_cases hanz : s.anyNonzero = true
  case neg =>
    refine ⟨[], [], ?_⟩
    have hz : ∀ flag st2, add_coupling lat flag st2 s u1 o1 u2 o2 dx none true false cat true
        = (st2, none) := by
      intro flag st2
      rw [add_coupling, show add_coupling_main lat flag st2 s u1 o1 u2 o2 dx none true false
        cat true = ((st2, none), none) from by simp [add_coupling_main, hlen, hanz]]
    rw [hz, hz]
    simp
  case pos =>
  have hjw1 : (lat.unitCell u1).needsJW o1 = S.needsJW o1 := by rw [hcell]
  have hjw2 : (lat.unitCell u2).needsJW o2 = S.needsJW o1 := by rw [hcell, ← hjweq]
  have hv1u : (lat.unitCell u1).validOp o1 = true := by rw [hcell]; exact hv1
  have hv2u : (lat.unitCell u2).validOp o2 = true := by rw [hcell]; exact hv2
  have hσdisj : (if S.needsJW o1 = true then "JW" else "Id") = "Id" ∨
      ((if S.needsJW o1 = true then "JW" else "Id") = "JW" ∧
        S.needsJW o1 = true ∧ S.needsJW o2 = true) := by
    cases hS : S.needsJW o1 with
    | false => left; simp
    | true => right; exact ⟨by simp, rfl, by rw [← hjweq]; exact hS⟩
  have hσname : ∀ n, (lat.unitCell n).hcName (if S.needsJW o1 = true then "JW" else "Id")
      = (if S.needsJW o1 = true then "JW" else "Id") := by
    intro n
    rw [hcell]
    cases hS : S.needsJW o1 <;> simp [hId, hJW]
  have hvσ : (List.range lat.numU).all
      (fun u => (lat.unitCell u).validOp (if S.needsJW o1 = true then "JW" else "Id"))
      = true := by
    rw [List.all_eq_true]
    intro u _
    rw [hcell]
    cases hS : S.needsJW o1 <;> simp [hvId, hvJW]
  have hA := add_coupling_main_auto_spec lat true stA s u1 o1 u2 o2 dx cat true false
    (S.needsJW o1) hjw1 hjw2 (plusHcMunge_true true s) hlen hanz hv1u hv2u hvσ hons hp
  rw [if_neg Bool.false_ne_true] at hA
  have hB1 := add_coupling_main_auto_spec lat false stB s u1 o1 u2 o2 dx cat true true
    (S.needsJW o1) hjw1 hjw2 (plusHcMunge_true false s) hlen hanz hv1u hv2u hvσ hons hp
  rw [if_pos rfl] at hB1
  have hanz2 : s.conj.anyNonzero = true := by rw [sfield_conj_anyNonzero]; exact hanz
  have hlen2 : (dx.map Neg.neg).length = lat.dim := by rw [List.length_map]; exact hlen
  have hvhc2 : (lat.unitCell u2).validOp ((lat.unitCell u2).hcName o2) = true := by
    rw [hcell, hvalhc]; exact hv2
  have hvhc1 : (lat.unitCell u1).validOp ((lat.unitCell u1).hcName o1) = true := by
    rw [hcell, hvalhc]; exact hv1
  have hvσ2 : (List.range lat.numU).all
      (fun u => (lat.unitCell u).validOp
        ((lat.unitCell u2).hcName (if S.needsJW o1 = true then "JW" else "Id"))) = true := by
    rw [hσname]; exact hvσ
  have hons2 : ¬ ((dx.map Neg.neg).all (· = 0) = true ∧ u2 = u1) := by
    rintro ⟨ha, he⟩
    rw [map_neg_all_zero] at ha
    exact hons ⟨ha, he.symm⟩
  have hp2 : ∀ q ∈ lat.possibleCouplings u2 u1 (dx.map Neg.neg),
      q.1 ≠ q.2.1 ∧ min q.1 q.2.1 < lat.Nsites := by
    rw [hrev]
    intro q hq
    obtain ⟨r, hr, hrq⟩ := List.mem_map.mp hq
    obtain ⟨h1, h2⟩ := hp r hr
    subst hrq
    exact ⟨fun h => h1 h.symm, by rw [Nat.min_comm]; exact h2⟩
  have hB2 : ∀ st2 : TermState R,
      add_coupling_main lat false st2 s.conj u2 ((lat.unitCell u2).hcName o2) u1
        ((lat.unitCell u1).hcName o1) (dx.map Neg.neg)
        (some ((lat.unitCell u2).hcName (if S.needsJW o1 = true then "JW" else "Id")))
        true false (some (cat.getD (o1 ++ "_i " ++ o2 ++ "_j"))) false =
      (({ st2 with coupling := (aset st2.coupling
          ((some (cat.getD (o1 ++ "_i " ++ o2 ++ "_j"))).getD
            ((lat.unitCell u2).hcName o2 ++ "_i " ++ (lat.unitCell u1).hcName o1 ++ "_j"))
          ((addCouplingLoop lat.Nsites (lat.unitCell u2) (lat.unitCell u1)
            ((lat.unitCell u2).hcName o2) ((lat.unitCell u1).hcName o1)
            ((lat.unitCell u2).hcName (if S.needsJW o1 = true then "JW" else "Id"))
            true false s.conj (lat.possibleCouplings u2 u1 (dx.map Neg.neg))
            ((alookup st2.coupling
              ((some (cat.getD (o1 ++ "_i " ++ o2 ++ "_j"))).getD
                ((lat.unitCell u2).hcName o2 ++ "_i " ++
                  (lat.unitCell u1).hcName o1 ++ "_j"))).getD (.two []))).1)) }, none),
        none) := by
    intro st2
    have h := add_coupling_main_given_spec lat false st2 s.conj u2
      ((lat.unitCell u2).hcName o2) u1 ((lat.unitCell u1).hcName o1) (dx.map Neg.neg)
      ((lat.unitCell u2).hcName (if S.needsJW o1 = true then "JW" else "Id"))
      (some (cat.getD (o1 ++ "_i " ++ o2 ++ "_j"))) false false
      rfl hlen2 hanz2 hvhc2 hvhc1 hvσ2 hons2 hp2
    rwa [if_neg Bool.false_ne_true] at h
  have hAfull : add_coupling lat true stA s u1 o1 u2 o2 dx none true false cat true =
      ({ stA with coupling := (aset stA.coupling (cat.getD (o1 ++ "_i " ++ o2 ++ "_j"))
        ((addCouplingLoop lat.Nsites (lat.unitCell u1) (lat.unitCell u2) o1 o2
          (if S.needsJW o1 = true then "JW" else "Id") true false s
          (lat.possibleCouplings u1 u2 dx)
          ((alookup stA.coupling
            (cat.getD (o1 ++ "_i " ++ o2 ++ "_j"))).getD (.two []))).1)) }, none) := by
    rw [add_coupling, hA]
  have hBfull : add_coupling lat false stB s u1 o1 u2 o2 dx none true false cat true =
      (add_coupling_main lat false
        { stB with coupling := (aset stB.coupling (cat.getD (o1 ++ "_i " ++ o2 ++ "_j"))
          ((addCouplingLoop lat.Nsites (lat.unitCell u1) (lat.unitCell u2) o1 o2
            (if S.needsJW o1 = true then "JW" else "Id") true false s
            (lat.possibleCouplings u1 u2 dx)
            ((alookup stB.coupling
              (cat.getD (o1 ++ "_i " ++ o2 ++ "_j"))).getD (.two []))).1)) }
        s.conj u2 ((lat.unitCell u2).hcName o2) u1 ((lat.unitCell u1).hcName o1)
        (dx.map Neg.neg)
        (some ((lat.unitCell u2).hcName (if S.needsJW o1 = true then "JW" else "Id")))
        true false (some (cat.getD (o1 ++ "_i " ++ o2 ++ "_j"))) false).1 := by
    rw [add_coupling, hB1]
  refine ⟨loopTerms (lat.unitCell u1) (lat.unitCell u2) o1 o2
      (if S.needsJW o1 = true then "JW" else "Id") true s (lat.possibleCouplings u1 u2 dx),
    loopTerms (lat.unitCell u2) (lat.unitCell u1) ((lat.unitCell u2).hcName o2)
      ((lat.unitCell u1).hcName o1)
      ((lat.unitCell u2).hcName (if S.needsJW o1 = true then "JW" else "Id")) true s.conj
      ((lat.possibleCouplings u1 u2 dx).map (fun q => (q.2.1, q.1, q.2.2))),
    ?_, ?_, ?_, ?_, ?_, ?_, ?_⟩
  · rw [hAfull]
  · rw [hAfull]
    exact flatWith_aset_append CTcoll.flat stA.coupling _ _ (.two []) _ rfl
      (addCouplingLoop_flat lat.Nsites (lat.unitCell u1) (lat.unitCell u2) o1 o2
        _ true s (lat.possibleCouplings u1 u2 dx) _ hp).2
  · rw [hAfull]
  · rw [hBfull, hB2]
  · rw [hBfull, hB2]
    have hinner := flatWith_aset_append CTcoll.flat stB.coupling
      (cat.getD (o1 ++ "_i " ++ o2 ++ "_j")) _ (.two [])
      (loopTerms (lat.unitCell u1) (lat.unitCell u2) o1 o2
        (if S.needsJW o1 = true then "JW" else "Id") true s
        (lat.possibleCouplings u1 u2 dx)) rfl
      (addCouplingLoop_flat lat.Nsites (lat.unitCell u1) (lat.unitCell u2) o1 o2
        _ true s (lat.possibleCouplings u1 u2 dx) _ hp).2
    have houter : ∀ st2 : TermState R,
        (flatWith CTcoll.flat (aset st2.coupling
          ((some (cat.getD (o1 ++ "_i " ++ o2 ++ "_j"))).getD
            ((lat.unitCell u2).hcName o2 ++ "_i " ++ (lat.unitCell u1).hcName o1 ++ "_j"))
          ((addCouplingLoop lat.Nsites (lat.unitCell u2) (lat.unitCell u1)
            ((lat.unitCell u2).hcName o2) ((lat.unitCell u1).hcName o1)
            ((lat.unitCell u2).hcName (if S.needsJW o1 = true then "JW" else "Id"))
            true false s.conj (lat.possibleCouplings u2 u1 (dx.map Neg.neg))
            ((alookup st2.coupling
              ((some (cat.getD (o1 ++ "_i " ++ o2 ++ "_j"))).getD
                ((lat.unitCell u2).hcName o2 ++ "_i " ++
                  (lat.unitCell u1).hcName o1 ++ "_j"))).getD (.two []))).1))).Perm
          (flatC st2 ++ loopTerms (lat.unitCell u2) (lat.unitCell u1)
            ((lat.unitCell u2).hcName o2) ((lat.unitCell u1).hcName o1)
            ((lat.unitCell u2).hcName (if S.needsJW o1 = true then "JW" else "Id")) true
            s.conj (lat.possibleCouplings u2 u1 (dx.map Neg.neg))) := by
      intro st2
      exact flatWith_aset_append CTcoll.flat st2.coupling _ _ (.two []) _ rfl
        (addCouplingLoop_flat lat.Nsites (lat.unitCell u2) (lat.unitCell u1)
          ((lat.unitCell u2).hcName o2) ((lat.unitCell u1).hcName o1)
          ((lat.unitCell u2).hcName (if S.needsJW o1 = true then "JW" else "Id"))
          true s.conj (lat.possibleCouplings u2 u1 (dx.map Neg.neg))
          ((alookup st2.coupling
            ((some (cat.getD (o1 ++ "_i " ++ o2 ++ "_j"))).getD
              ((lat.unitCell u2).hcName o2 ++ "_i " ++
                (lat.unitCell u1).hcName o1 ++ "_j"))).getD (.two [])) hp2).2
    refine (houter _).trans ?_
    rw [hrev]
    refine ((hinner.append_right _).trans ?_)
    rw [List.append_assoc]
    exact List.Perm.refl _
  · rw [hBfull, hB2]
  · simp only [loopTerms, List.filterMap_map]
    apply forall2_filterMap
    intro q hq
    by_cases hz : s.f q.2.2 = 0
    · refine ⟨?_, ?_⟩
      · simp [Function.comp, SField.conj, hz]
      · intro b c hb hc
        simp [Function.comp, SField.conj, hz] at hb
    · refine ⟨?_, ?_⟩
      · simp [Function.comp, SField.conj, hz, star_eq_zero]
      · intro b c hb hc
        simp only [Function.comp_apply, SField.conj,
          if_neg (show ¬ (star (s.f q.2.2) = 0) from by simp [star_eq_zero, hz]),
          if_neg hz, Option.some.injEq] at hb hc
        subst hb
        subst hc
        simp only [hcell]
        exact relC_of_pair S lat.siteOf hsiteOf lat.Nsites keep ⟨hkS, hkN⟩
          ⟨hvalhc, hjwhc, hmatHc, hmatMul, hId, hJW, hvId, hvJW, hJher, hanti⟩
          o1 o2 (if S.needsJW o1 = true then "JW" else "Id") q.1 q.2.1 (s.f q.2.2)
          hσdisj (hp q hq).1

end HcCouplingBoth

section HcRunCalls

variable {R : Type} [Field R] [StarRing R] [DecidableEq R] {d : ℕ}

theorem runCalls_cons (lat : ModelLat R d) (f p : Bool) (st : TermState R)
    (c : CallSpec R) (rest : List (CallSpec R)) (st' : TermState R)
    (h : applyCall lat f p st c = (st', none)) :
    runCalls lat f p st (c :: rest) = runCalls lat f p st' rest := by
  unfold runCalls
  rw [List.foldl_cons]
  simp only []
  rw [h]

theorem runCalls_hcInv (lat : ModelLat R d) (S : ModelSite R d)
    (hcell : ∀ n, lat.unitCell n = S) (hsiteOf : ∀ n, lat.siteOf n = S)
    (keep : R → Bool) (hk : KeepOk keep) (herm : HermSite S)
    (calls : List (CallSpec R)) (hok : ∀ c ∈ calls, CallOk lat S c)
    (stA stB : TermState R)
    (hinv : hcInv lat.siteOf lat.Nsites keep stA stB) :
    (runCalls lat true true stA calls).2 = none ∧
    (runCalls lat false true stB calls).2 = none ∧
    hcInv lat.siteOf lat.Nsites keep (runCalls lat true true stA calls).1
      (runCalls lat false true stB calls).1 := by
  induction calls generalizing stA stB with
  | nil => exact ⟨rfl, rfl, hinv⟩
  | cons c rest ih =>
    have hokc := hok c (List.mem_cons_self c rest)
    have hokr : ∀ x ∈ rest, CallOk lat S x := fun x hx => hok x (List.mem_cons_of_mem c hx)
    obtain ⟨bo, eo, bc, ec, h1, h2, h3, h4, h5, h6⟩ := hinv
    cases c with
    | onsite s u op cat =>
      obtain ⟨newO, hcO, hAe, hAp, hAc, hBe, hBp, hBc, hF⟩ :=
        add_onsite_both lat S hcell hsiteOf keep hk herm s u op cat hokc stA stB
      rw [runCalls_cons lat true true stA (.onsite s u op cat) rest _ (Prod.ext rfl hAe),
        runCalls_cons lat false true stB (.onsite s u op cat) rest _ (Prod.ext rfl hBe)]
      refine ih hokr _ _ ⟨bo ++ newO, eo ++ hcO, bc, ec, ?_, ?_, ?_, ?_, ?_, h6⟩
      · exact hAp.trans (h1.append_right newO)
      · refine hBp.trans ?_
        refine (h2.append_right (newO ++ hcO)).trans ?_
        rw [List.append_assoc, List.append_assoc]
        exact List.Perm.append_left bo (List.perm_append_comm_assoc eo newO hcO)
      · exact List.rel_append h3 hF
      · show (flatWith CTcoll.flat (add_onsite lat true stA s u op cat true).1.coupling).Perm bc
        rw [hAc]
        exact h4
      · show (flatWith CTcoll.flat
          (add_onsite lat false stB s u op cat true).1.coupling).Perm (bc ++ ec)
        rw [hBc]
        exact h5
    | coupling s u1 o1 u2 o2 dx σa cat2 =>
      obtain ⟨newC, hcC, hAe, hAp, hAc, hBe, hBp, hBc, hF⟩ :=
        add_coupling_both lat S hcell hsiteOf keep hk herm s u1 o1 u2 o2 dx σa cat2
          hokc stA stB
      rw [runCalls_cons lat true true stA (.coupling s u1 o1 u2 o2 dx σa cat2) rest _
          (Prod.ext rfl hAe),
        runCalls_cons lat false true stB (.coupling s u1 o1 u2 o2 dx σa cat2) rest _
          (Prod.ext rfl hBe)]
      refine ih hokr _ _ ⟨bo, eo, bc ++ newC, ec ++ hcC, ?_, ?_, h3, ?_, ?_, ?_⟩
      · show (flatWith (fun ts => ts)
          (add_coupling lat true stA s u1 o1 u2 o2 dx σa true false cat2 true).1.onsite).Perm bo
        rw [hAc]
        exact h1
      · show (flatWith (fun ts => ts)
          (add_coupling lat false stB s u1 o1 u2 o2 dx σa true false cat2
            true).1.onsite).Perm (bo ++ eo)
        rw [hBc]
        exact h2
      · exact hAp.trans (h4.append_right newC)
      · refine hBp.trans ?_
        refine (h5.append_right (newC ++ hcC)).trans ?_
        rw [List.append_assoc, List.append_assoc]
        exact List.Perm.append_left bc (List.perm_append_comm_assoc ec newC hcC)
      · exact List.rel_append h6 hF

end HcRunCalls

section HcCompile

variable {R : Type} [Field R] [StarRing R] [DecidableEq R] {d : ℕ}

omit [StarRing R] [DecidableEq R] in
theorem toNN_entry_isSome (l : List (MCpl R)) (f : MCpl R → BMat d R) :
    (if l.isEmpty then (none : Option (BMat d R)) else some ((l.map f).sum)).isSome
      = !l.isEmpty := by
  cases l <;> rfl

omit [StarRing R] [DecidableEq R] in
theorem toNN_entry_oVal (l : List (MCpl R)) (f : MCpl R → BMat d R) :
    oVal (if l.isEmpty then (none : Option (BMat d R)) else some ((l.map f).sum))
      = (l.map f).sum := by
  cases l <;> simp [oVal]

omit [DecidableEq R] in
theorem star_weight (c : Prop) [Decidable c] :
    star (if c then (1 : R) else 1 / 2) = if c then 1 else 1 / 2 := by
  split
  · exact star_one R
  · exact star_half

omit [DecidableEq R] in
theorem contrib_isSome_rel (sites : ℕ → ModelSite R d) (L : ℕ) (finite : Bool)
    (dist : R × R) (keep : R → Bool) {t' t : OTerm R} (h : relO sites keep t' t) (b : ℕ) :
    (onsiteBondContrib sites L finite dist t' b).isSome
      = (onsiteBondContrib sites L finite dist t b).isSome := by
  obtain ⟨hi, -, -⟩ := h
  simp only [onsiteBondContrib]
  rw [addWithNone0_isSome, addWithNone0_isSome, hi]
  congr 1
  · split
    · split <;> rfl
    · rfl
  · split
    · split <;> rfl
    · rfl

omit [DecidableEq R] in
theorem contrib_oVal_rel (sites : ℕ → ModelSite R d) (L : ℕ) (finite : Bool)
    (keep : R → Bool) {t' t : OTerm R} (h : relO sites keep t' t) (b : ℕ) :
    oVal (onsiteBondContrib sites L finite (1/2, 1/2) t' b)
      = (oVal (onsiteBondContrib sites L finite (1/2, 1/2) t b))ᴴ := by
  obtain ⟨hi, -, hM⟩ := h
  simp only [onsiteBondContrib]
  rw [oVal_addWithNone0, oVal_addWithNone0, hM, hi, Matrix.conjTranspose_add]
  congr 1
  · split
    · split
      · simp [oVal]
      · simp only [oVal, Option.getD_some, kron_conjTranspose, Matrix.conjTranspose_smul,
          star_weight, Matrix.conjTranspose_one]
    · simp [oVal]
  · split
    · split
      · simp [oVal]
      · simp only [oVal, Option.getD_some, kron_conjTranspose, Matrix.conjTranspose_smul,
          star_weight, Matrix.conjTranspose_one]
    · simp [oVal]

omit [DecidableEq R] in
theorem hc_bond_entry (sites : ℕ → ModelSite R d) (L : ℕ) (finite : Bool)
    (keep : R → Bool)
    (ctA ctB bcF ecF : List (MCpl R)) (otA otB boF eoF : List (OTerm R))
    (hcB : ctB.Perm (bcF ++ ecF)) (hcA : ctA.Perm bcF)
    (hcF : List.Forall₂ (relC sites L keep) ecF bcF)
    (hoB : otB.Perm (boF ++ eoF)) (hoA : otA.Perm boF)
    (hoF : List.Forall₂ (relO sites keep) eoF boF) (b : ℕ) :
    (otB.foldl (fun acc t => addWithNone0 acc
        (onsiteBondContrib sites L finite (1/2, 1/2) t b))
      (if (ctB.filter (fun t => mTermBond L t = b)).isEmpty then none
        else some (((ctB.filter (fun t => mTermBond L t = b)).map
          (mTermMat sites L)).sum)))
    = (otA.foldl (fun acc t => addWithNone0 acc
        (onsiteBondContrib sites L finite (1/2, 1/2) t b))
      (if (ctA.filter (fun t => mTermBond L t = b)).isEmpty then none
        else some (((ctA.filter (fun t => mTermBond L t = b)).map
          (mTermMat sites L)).sum))).map (fun M => M + Mᴴ) := by
  have hbondF : List.Forall₂ (relC sites L keep)
      (ecF.filter (fun t => mTermBond L t = b))
      (bcF.filter (fun t => mTermBond L t = b)) := by
    refine forall2_filter _ _ _ hcF ?_
    intro a c hac
    have : mTermBond L a = mTermBond L c := by unfold mTermBond; rw [hac.1]
    rw [this]
  have hlenE : (ecF.filter (fun t => mTermBond L t = b)).length
      = (bcF.filter (fun t => mTermBond L t = b)).length := hbondF.length_eq
  have hlenB : (ctB.filter (fun t => mTermBond L t = b)).length
      = (bcF.filter (fun t => mTermBond L t = b)).length
        + (ecF.filter (fun t => mTermBond L t = b)).length := by
    rw [(hcB.filter _).length_eq, List.filter_append, List.length_append]
  have hlenA : (ctA.filter (fun t => mTermBond L t = b)).length
      = (bcF.filter (fun t => mTermBond L t = b)).length := (hcA.filter _).length_eq
  have hempty : (ctB.filter (fun t => mTermBond L t = b)).isEmpty
      = (ctA.filter (fun t => mTermBond L t = b)).isEmpty := by
    rw [Bool.eq_iff_iff]
    simp only [List.isEmpty_iff_length_eq_zero]
    omega
  apply option_ext_val
  · rw [Option.isSome_map']
    rw [foldAdd_isSome, foldAdd_isSome, toNN_entry_isSome, toNN_entry_isSome, hempty]
    congr 1
    rw [perm_any_eq _ hoB, perm_any_eq _ hoA, List.any_append]
    rw [forall2_any_eq _ _ _ hoF
      (fun a c hac => contrib_isSome_rel sites L finite (1/2, 1/2) keep hac b)]
    exact Bool.or_self _
  · rw [oVal_map_of_zero _ (by simp), foldAdd_oVal, foldAdd_oVal,
      toNN_entry_oVal, toNN_entry_oVal]
    have hsumB : ((ctB.filter (fun t => mTermBond L t = b)).map (mTermMat sites L)).sum
        = ((bcF.filter (fun t => mTermBond L t = b)).map (mTermMat sites L)).sum
          + (((bcF.filter (fun t => mTermBond L t = b)).map (mTermMat sites L)).sum)ᴴ := by
      rw [((hcB.filter _).map _).sum_eq, List.filter_append, List.map_append,
        List.sum_append]
      congr 1
      exact forall2_map_sum_conj _ _ _ hbondF (fun a c hac => hac.2.2)
    have hsumA : ((ctA.filter (fun t => mTermBond L t = b)).map (mTermMat sites L)).sum
        = ((bcF.filter (fun t => mTermBond L t = b)).map (mTermMat sites L)).sum :=
      ((hcA.filter _).map _).sum_eq
    have hoB' : (otB.map (fun t => oVal (onsiteBondContrib sites L finite (1/2, 1/2) t b))).sum
        = (boF.map (fun t => oVal (onsiteBondContrib sites L finite (1/2, 1/2) t b))).sum
          + ((boF.map (fun t =>
              oVal (onsiteBondContrib sites L finite (1/2, 1/2) t b))).sum)ᴴ := by
      rw [(hoB.map _).sum_eq, List.map_append, List.sum_append]
      congr 1
      exact forall2_map_sum_conj _ _ _ hoF
        (fun a c hac => contrib_oVal_rel sites L finite keep hac b)
    have hoA' : (otA.map (fun t => oVal (onsiteBondContrib sites L finite (1/2, 1/2) t b))).sum
        = (boF.map (fun t => oVal (onsiteBondContrib sites L finite (1/2, 1/2) t b))).sum :=
      (hoA.map _).sum_eq
    rw [hsumB, hsumA, hoB', hoA', Matrix.conjTranspose_add]
    abel

theorem getD_map_isNone {γ δ : Type} (f : γ → δ) (l : List (Option γ)) (n : ℕ) :
    ((l.map (Option.map f)).getD n none).isNone = (l.getD n none).isNone := by
  rw [List.getD_eq_getElem?_getD, List.getD_eq_getElem?_getD, List.getElem?_map]
  cases h : l[n]? with
  | none => rfl
  | some o => cases o <;> rfl

omit [DecidableEq R] in
theorem calc_H_bond_nonadjacent (lat : ModelLat R d) (eph : Bool) (keep : R → Bool)
    (st : TermState R)
    (hall : ¬ (removeZerosM keep (allCouplingTerms st).flat).all nnAdjacent = true) :
    calc_H_bond lat eph keep st
      = .error "ValueError: coupling term spans non-adjacent MPS sites" := by
  simp only [calc_H_bond, toNNBondArrays]
  rw [if_neg hall]

omit [DecidableEq R] in
theorem calc_H_bond_of_adjacent (lat : ModelLat R d) (eph : Bool) (keep : R → Bool)
    (st : TermState R)
    (hall : (removeZerosM keep (allCouplingTerms st).flat).all nnAdjacent = true) :
    calc_H_bond lat eph keep st =
      (let H1 := addToNNBondArrays lat.siteOf lat.Nsites lat.bcFinite (1/2, 1/2)
          (removeZerosO keep (allOnsiteTerms st))
          ((List.range lat.Nsites).map (fun b =>
            if ((removeZerosM keep (allCouplingTerms st).flat).filter
                (fun t => mTermBond lat.Nsites t = b)).isEmpty then none
            else some ((((removeZerosM keep (allCouplingTerms st).flat).filter
                (fun t => mTermBond lat.Nsites t = b)).map
                (mTermMat lat.siteOf lat.Nsites)).sum)))
       if lat.bcFinite = true ∧ ¬ ((H1.getD 0 none).isNone = true) then
         .error "AssertionError: H_bond[0] is not None"
       else .ok (if eph then H1.map (Option.map (fun M => M + Mᴴ)) else H1)) := by
  simp only [calc_H_bond, toNNBondArrays]
  rw [if_pos hall]

omit [DecidableEq R] in
theorem calc_hc_equiv (lat : ModelLat R d) (keep : R → Bool) (stA stB : TermState R)
    (hinv : hcInv lat.siteOf lat.Nsites keep stA stB) :
    calc_H_bond lat false keep stB = calc_H_bond lat true keep stA := by
  obtain ⟨bo, eo, bc, ec, hoA, hoB, hoF, hcA, hcB, hcF⟩ := hinv
  have hctA : (removeZerosM keep (flatC stA)).Perm (removeZerosM keep bc) :=
    hcA.filter _
  have hctB : (removeZerosM keep (flatC stB)).Perm
      (removeZerosM keep bc ++ removeZerosM keep ec) := by
    have h := hcB.filter (fun t => keep t.strength)
    rwa [List.filter_append] at h
  have hcFf : List.Forall₂ (relC lat.siteOf lat.Nsites keep)
      (removeZerosM keep ec) (removeZerosM keep bc) :=
    forall2_filter _ _ _ hcF (fun a b h => h.2.1)
  have hotA : (removeZerosO keep (flatO stA)).Perm (removeZerosO keep bo) :=
    hoA.filter _
  have hotB : (removeZerosO keep (flatO stB)).Perm
      (removeZerosO keep bo ++ removeZerosO keep eo) := by
    have h := hoB.filter (fun t => keep t.1)
    rwa [List.filter_append] at h
  have hoFf : List.Forall₂ (relO lat.siteOf keep)
      (removeZerosO keep eo) (removeZerosO keep bo) :=
    forall2_filter _ _ _ hoF (fun a b h => h.2.1)
  have hadj : (removeZerosM keep (flatC stB)).all nnAdjacent
      = (removeZerosM keep (flatC stA)).all nnAdjacent := by
    rw [perm_all_eq _ hctB, perm_all_eq _ hctA, List.all_append,
      forall2_all_eq _ nnAdjacent nnAdjacent hcFf (fun a b h => by
        unfold nnAdjacent; rw [h.1]),
      Bool.and_self]
  have hadj' : (removeZerosM keep (allCouplingTerms stB).flat).all nnAdjacent
      = (removeZerosM keep (allCouplingTerms stA).flat).all nnAdjacent := by
    rw [allCouplingTerms_flat, allCouplingTerms_flat]
    exact hadj
  by_cases hall : (removeZerosM keep (allCouplingTerms stA).flat).all nnAdjacent = true
  · have hallB : (removeZerosM keep (allCouplingTerms stB).flat).all nnAdjacent = true := by
      rw [hadj']; exact hall
    have hH1 : addToNNBondArrays lat.siteOf lat.Nsites lat.bcFinite (1/2, 1/2)
        (removeZerosO keep (flatO stB))
        ((List.range lat.Nsites).map (fun b =>
          if ((removeZerosM keep (flatC stB)).filter
              (fun t => mTermBond lat.Nsites t = b)).isEmpty then none
          else some ((((removeZerosM keep (flatC stB)).filter
              (fun t => mTermBond lat.Nsites t = b)).map
              (mTermMat lat.siteOf lat.Nsites)).sum)))
      = (addToNNBondArrays lat.siteOf lat.Nsites lat.bcFinite (1/2, 1/2)
          (removeZerosO keep (flatO stA))
          ((List.range lat.Nsites).map (fun b =>
            if ((removeZerosM keep (flatC stA)).filter
                (fun t => mTermBond lat.Nsites t = b)).isEmpty then none
            else some ((((removeZerosM keep (flatC stA)).filter
                (fun t => mTermBond lat.Nsites t = b)).map
                (mTermMat lat.siteOf lat.Nsites)).sum)))).map
          (Option.map (fun M => M + Mᴴ)) := by
      unfold addToNNBondArrays
      rw [List.map_map]
      apply List.map_congr_left
      intro b hb
      rw [List.mem_range] at hb
      simp only [Function.comp_apply]
      rw [getD_range_map _ _ _ _ hb, getD_range_map _ _ _ _ hb]
      exact hc_bond_entry lat.siteOf lat.Nsites lat.bcFinite keep
        (removeZerosM keep (flatC stA)) (removeZerosM keep (flatC stB))
        (removeZerosM keep bc) (removeZerosM keep ec)
        (removeZerosO keep (flatO stA)) (removeZerosO keep (flatO stB))
        (removeZerosO keep bo) (removeZerosO keep eo)
        hctB hctA hcFf hotB hotA hoFf b
    rw [calc_H_bond_of_adjacent lat false keep stB hallB,
      calc_H_bond_of_adjacent lat true keep stA hall]
    dsimp only
    simp only [Bool.false_eq_true, if_false, eq_self_iff_true, if_true]
    rw [allCouplingTerms_flat, allCouplingTerms_flat,
      allOnsiteTerms_eq, allOnsiteTerms_eq, hH1, getD_map_isNone]
  · have hallB : ¬ (removeZerosM keep (allCouplingTerms stB).flat).all nnAdjacent = true := by
      rw [hadj']; exact hall
    rw [calc_H_bond_nonadjacent lat false keep stB hallB,
      calc_H_bond_nonadjacent lat true keep stA hall]

end HcCompile

section ClaimC1

variable {R : Type} [Field R] [StarRing R] [DecidableEq R] {d : ℕ}

/-- **C1** (counterexample to the claim as stated). The claimed pairing is off
by a factor of two: building with `explicit_plus_hc=True` via calls *without*
`plus_hc` halves each strength once more than the `explicit_plus_hc=False`
model built with `plus_hc=True` calls compensates for. On a finite two-site
chain with a single unit-strength onsite term, both builds succeed but
`calc_H_bond` returns different bond tensor lists. -/
theorem claim_C1_hc_equivalence_counterexample :
    (runCalls latW true false TermState.empty [.onsite (sfield 1) 0 "N" none]).2 = none ∧
    (runCalls latW false true TermState.empty [.onsite (sfield 1) 0 "N" none]).2 = none ∧
    calc_H_bond latW true keepW
        (runCalls latW true false TermState.empty [.onsite (sfield 1) 0 "N" none]).1
      ≠ calc_H_bond latW false keepW
        (runCalls latW false true TermState.empty [.onsite (sfield 1) 0 "N" none]).1 :=
  ⟨by with_unfolding_all decide, by with_unfolding_all decide,
   by with_unfolding_all decide⟩

/-- **C1** (amended). Hermitian-conjugate invariance as realized by the code:
over a uniform lattice whose site carries coherent Hermitian-conjugation data
and with a near-zero tolerance predicate invariant under conjugation and
negation, any sequence of well-formed `add_onsite`/`add_coupling` calls made
*with* `plus_hc=True` builds without error under both `explicit_plus_hc=True`
and `explicit_plus_hc=False`, and the two models produce identical bond
tensor lists from `calc_H_bond`. -/
theorem claim_C1_hc_equivalence (lat : ModelLat R d) (S : ModelSite R d)
    (hcell : ∀ n, lat.unitCell n = S) (hsiteOf : ∀ n, lat.siteOf n = S)
    (keep : R → Bool) (hk : KeepOk keep) (herm : HermSite S)
    (calls : List (CallSpec R)) (hok : ∀ c ∈ calls, CallOk lat S c) :
    (runCalls lat true true TermState.empty calls).2 = none ∧
    (runCalls lat false true TermState.empty calls).2 = none ∧
    calc_H_bond lat false keep (runCalls lat false true TermState.empty calls).1
      = calc_H_bond lat true keep (runCalls lat true true TermState.empty calls).1 := by
  have hinv0 : hcInv lat.siteOf lat.Nsites keep TermState.empty TermState.empty :=
    ⟨[], [], [], [], List.Perm.refl _, List.Perm.refl _, List.Forall₂.nil,
      List.Perm.refl _, List.Perm.refl _, List.Forall₂.nil⟩
  have h := runCalls_hcInv lat S hcell hsiteOf keep hk herm calls hok
    TermState.empty TermState.empty hinv0
  exact ⟨h.1, h.2.1, calc_hc_equiv lat keep _ _ h.2.2⟩

/-- Witness for the amended C1 theorem: the uniform two-site lattice `latH`
over the self-conjugation-friendly site `siteH`, an onsite call and a
nearest-neighbor coupling call, and the exact-zero tolerance predicate. -/
theorem claim_C1_hc_equivalence_witness :
    (runCalls latH true true TermState.empty callsW).2 = none ∧
    (runCalls latH false true TermState.empty callsW).2 = none ∧
    calc_H_bond latH false keepW (runCalls latH false true TermState.empty callsW).1
      = calc_H_bond latH true keepW (runCalls latH true true TermState.empty callsW).1 :=
  claim_C1_hc_equivalence latH siteH (fun _ => rfl) (fun _ => rfl) keepW
    ⟨fun x => by rw [star_trivial], fun x => by simp [keepW, neg_eq_zero]⟩
    ⟨fun _ => rfl, fun _ => rfl, fun _ => Matrix.conjTranspose_one.symm,
      fun _ _ => (one_mul _).symm, by decide, by decide, rfl, rfl,
      Matrix.conjTranspose_one, fun op h => by simp [siteH] at h⟩
    callsW
    (by
      intro c hc
      simp only [callsW, List.mem_cons, List.not_mem_nil, or_false] at hc
      rcases hc with rfl | rfl
      · exact ⟨rfl, rfl, by decide⟩
      · exact ⟨rfl, rfl, rfl, rfl, rfl, by decide, by decide, by decide⟩)

end ClaimC1

end Tenpy
